import Mathlib

/-!
# Lowering of expressions to SIL: `lib/SIL/SILGen/SILGenExpr.cpp`

A shallow embedding of the expression lowering of `SILGenFunction`.

* The AST (`Ty`, `TupleTypeElt`, `ValueDecl`, `Expr`) carries exactly the accessors the
  lowering calls.
* The builder `B` is the ordered list of instructions emitted so far; a `Value` names a
  result of one of them.
* The cleanup manager `Cleanups` is the stack of pending cleanups with their state.
* A lowering step is a function `SILGenFunction → Except Abort (α × SILGenFunction)`;
  `Except.error` is a fatal abort (failed `assert`, `llvm_unreachable`, a read outside an
  array).
* Every handler receives the dispatcher `visit` (the `ASTVisitor` entry point declared in
  `SILGen.h`) as an argument, so statements about a handler hold for every dispatcher.
  `visit` below ties the knot over the handlers of this file.
-/

namespace SILGen

/-! ## The AST, as far as the lowering inspects it -/

mutual
/-- Types: `is<LValueType>()`, `isEqual(TheRawPointerType)`, `castTo<TupleType>()`. -/
inductive Ty where
  | builtinInteger (width : Nat)
  | rawPointer
  | objectPointer
  | lvalue (object : Ty)
  | tuple (fields : List TupleTypeElt)
  | function (input result : Ty)
  | metatype (of : Ty)
  | nominal (id : Nat)
/-- One field of a tuple type: its type, its default value expression if it has one
(`hasInit`, `getInit()->getExpr()`), and its variadic base type if the field is variadic
(`isVararg`, `getVarargBaseTy`). -/
inductive TupleTypeElt where
  | mk (ty : Ty) (init : Option Expr) (varargBaseTy : Option Ty)
/-- A declaration: its identity, `getTypeOfReference()` and
`getDeclContext()->isLocalContext()`. -/
inductive ValueDecl where
  | mk (id : Nat) (typeOfReference : Ty) (isLocalContext : Bool)
/-- Expression nodes. Each kind with a handler in this file has a constructor; every other
kind is `unhandled`. The first argument is `getType()`. -/
inductive Expr where
  | apply (ty : Ty) (fn arg : Expr)
  | declRef (ty : Ty) (decl : ValueDecl)
  | integerLiteral (ty : Ty) (value : Int)
  | floatLiteral (ty : Ty) (text : String)
  | characterLiteral (ty : Ty) (value : Nat)
  | stringLiteral (ty : Ty) (value : String)
  | load (ty : Ty) (sub : Expr)
  | materialize (ty : Ty) (sub : Expr)
  | requalify (ty : Ty) (sub : Expr)
  | functionConversion (ty : Ty) (sub : Expr)
  | paren (ty : Ty) (sub : Expr)
  | tuple (ty : Ty) (elements : List Expr)
  | getMetatype (ty : Ty) (sub : Expr)
  | specialize (ty : Ty) (sub : Expr)
  | addressOf (ty : Ty) (sub : Expr)
  | tupleElement (ty : Ty) (base : Expr) (fieldNumber : Nat)
  | tupleShuffle (ty : Ty) (sub : Expr) (elementMapping : List Int)
      (varargsInjectionFunction : Option Expr)
  | scalarToTuple (ty : Ty) (sub : Expr) (scalarField : Nat)
      (varargsInjectionFunction : Option Expr)
  | newArray (ty : Ty) (elementType : Ty) (bounds : List Expr) (injectionFunction : Option Expr)
  | metatypeExpr (ty : Ty)
  | func (ty : Ty) (captures : List ValueDecl)
  | closure (ty : Ty) (captures : List ValueDecl)
  | unhandled (ty : Ty) (kind : Nat)
end

/-- The test `is<LValueType>()`. -/
def Ty.isLValue : Ty → Bool
  | .lvalue _ => true
  | _ => false

/-- The test `isEqual(F.getContext().TheRawPointerType)`. -/
def Ty.isRawPointer : Ty → Bool
  | .rawPointer => true
  | _ => false

def TupleTypeElt.getType : TupleTypeElt → Ty
  | .mk ty _ _ => ty

def TupleTypeElt.getInit : TupleTypeElt → Option Expr
  | .mk _ init _ => init

def TupleTypeElt.getVarargBaseTy : TupleTypeElt → Option Ty
  | .mk _ _ base => base

def TupleTypeElt.isVararg (f : TupleTypeElt) : Bool :=
  f.getVarargBaseTy.isSome

def ValueDecl.id : ValueDecl → Nat
  | .mk id _ _ => id

def ValueDecl.getTypeOfReference : ValueDecl → Ty
  | .mk _ ty _ => ty

def ValueDecl.isLocalContext : ValueDecl → Bool
  | .mk _ _ b => b

def Expr.getType : Expr → Ty
  | .apply ty _ _ => ty
  | .declRef ty _ => ty
  | .integerLiteral ty _ => ty
  | .floatLiteral ty _ => ty
  | .characterLiteral ty _ => ty
  | .stringLiteral ty _ => ty
  | .load ty _ => ty
  | .materialize ty _ => ty
  | .requalify ty _ => ty
  | .functionConversion ty _ => ty
  | .paren ty _ => ty
  | .tuple ty _ => ty
  | .getMetatype ty _ => ty
  | .specialize ty _ => ty
  | .addressOf ty _ => ty
  | .tupleElement ty _ _ => ty
  | .tupleShuffle ty _ _ _ => ty
  | .scalarToTuple ty _ _ _ => ty
  | .newArray ty _ _ _ => ty
  | .metatypeExpr ty => ty
  | .func ty _ => ty
  | .closure ty _ => ty
  | .unhandled ty _ => ty

/-- The captures of a `CapturingExpr` (`FuncExpr` or `ClosureExpr`). -/
def Expr.getCaptures : Expr → List ValueDecl
  | .func _ captures => captures
  | .closure _ captures => captures
  | _ => []

/-! ## SIL values and instructions -/

/-- A constant named by a declaration or by a function or closure expression. -/
inductive SILConstant where
  | ofDecl (decl : ValueDecl)
  | ofExpr (e : Expr)

/-- A SIL value: result number `resultNo` of the instruction emitted at position `defn`,
with its type. -/
structure Value where
  defn : Nat
  resultNo : Nat
  ty : Ty

inductive AllocKind where
  | heap
  | stack

/-- The instructions the builder is asked for in this file, and `allocBox`, which the
lowering of declarations emits for a boxed variable: its two results are the box and the
address recorded in `VarLocs`. Locations are dropped. -/
inductive Inst where
  | allocBox (ty : Ty)
  | apply (fn : Value) (args : List Value)
  | constantRef (c : SILConstant)
  | integerLiteral (ty : Ty) (value : Int)
  | floatLiteral (ty : Ty) (text : String)
  | stringLiteral (ty : Ty) (value : String)
  | integerValue (value : Nat) (ty : Ty)
  | load (address : Value)
  | store (src dest : Value)
  | allocVar (kind : AllocKind) (ty : Ty)
  | deallocVar (kind : AllocKind) (address : Value)
  | allocArray (elementTy : Ty) (numElements : Value)
  | indexAddr (base : Value) (index : Nat)
  | convert (operand : Value) (ty : Ty)
  | specialize (operand : Value) (ty : Ty)
  | tuple (ty : Ty) (elements : List Value)
  | extract (operand : Value) (fieldNo : Nat) (ty : Ty)
  | elementAddr (operand : Value) (fieldNo : Nat) (ty : Ty)
  | retain (operand : Value)
  | release (operand : Value)
  | metatype (ty : Ty)
  | closure (fn : Value) (captures : List Value)
  | ret (value : Value)

inductive CaptureKind where
  | LValue
  | Byref
  | Constant

/-- Services consulted by the lowering whose code is outside this file: the type lowering
(`getTypeInfo(t).isTrivial()`), the capture classification (`getDeclCaptureKind`), and the
result type the builder gives to an instruction that is created without a type argument. -/
structure Externals where
  isTrivial : Ty → Bool
  declCaptureKind : ValueDecl → CaptureKind
  resultType : Inst → Nat → Ty

/-! ## The state of `SILGenFunction` -/

/-- The two cleanups of this file: `CleanupRValue` releases `rv`; `CleanupMaterialize` loads
the temporary `alloc`, releases the loaded value and deallocates the temporary. -/
inductive Cleanup where
  | rvalue (rv : Value)
  | materialize (alloc : Value)

inductive CleanupState where
  | active
  | dead

/-- An entry of the cleanup stack: the cleanup and whether it is still active. -/
structure CleanupEntry where
  cleanup : Cleanup
  state : CleanupState

/-- Modelled from the spec: the Local Variable Location (`VarLoc`, declared in `SILGen.h`)
records the storage address and, if the declaration is mutably captured, an owning box. -/
structure VarLoc where
  box : Option Value
  address : Value

/-- The members of `SILGenFunction` used by the expression lowering: the instructions `B`
has emitted in order, whether `B` has a valid insertion point, the cleanup stack (bottom
first), and the tables `VarLocs` and `LocalConstants` keyed by declaration. -/
structure SILGenFunction where
  insts : List Inst
  hasValidInsertionPoint : Bool
  Cleanups : List CleanupEntry
  VarLocs : Nat → Option VarLoc
  LocalConstants : Nat → Option Value

/-- The ways a lowering step fails: `llvm_unreachable` in `visitExpr`, a failed `assert`, a
failed `castTo`, a subscript outside an `ArrayRef`, a read of the mapping iterator at its
end, a visit of a null expression, and the nesting bound of the dispatcher. -/
inductive Abort where
  | notYetImplemented
  | assertionFailed
  | badCast
  | indexOutOfRange
  | readPastEnd
  | nullExpr
  | outOfFuel

/-- Modelled from the spec: the Owned-Value wrapper (`ManagedValue`, declared in
`ManagedValue.h`) pairs the underlying value with an optional handle into the cleanup stack
identifying the cleanup that will release it. -/
structure ManagedValue where
  value : Value
  cleanup : Option Nat

/-- The signature of the dispatcher `visit`. -/
abbrev Visitor := Expr → SILGenFunction → Except Abort (ManagedValue × SILGenFunction)

/-! ## The builder -/

/-- Append one instruction at the insertion point. -/
def SILGenFunction.emit (gen : SILGenFunction) (i : Inst) : SILGenFunction :=
  { gen with insts := gen.insts ++ [i] }

/-- Result `n` of the instruction that is emitted next. -/
def SILGenFunction.nextValue (gen : SILGenFunction) (n : Nat) (ty : Ty) : Value :=
  ⟨gen.insts.length, n, ty⟩

namespace B

def createApply (X : Externals) (fn : Value) (args : List Value) (gen : SILGenFunction) :
    Value × SILGenFunction :=
  (gen.nextValue 0 (X.resultType (.apply fn args) 0), gen.emit (.apply fn args))

def createConstantRef (X : Externals) (c : SILConstant) (gen : SILGenFunction) :
    Value × SILGenFunction :=
  (gen.nextValue 0 (X.resultType (.constantRef c) 0), gen.emit (.constantRef c))

def createIntegerLiteral (ty : Ty) (value : Int) (gen : SILGenFunction) :
    Value × SILGenFunction :=
  (gen.nextValue 0 ty, gen.emit (.integerLiteral ty value))

def createFloatLiteral (ty : Ty) (text : String) (gen : SILGenFunction) :
    Value × SILGenFunction :=
  (gen.nextValue 0 ty, gen.emit (.floatLiteral ty text))

def createStringLiteral (ty : Ty) (value : String) (gen : SILGenFunction) :
    Value × SILGenFunction :=
  (gen.nextValue 0 ty, gen.emit (.stringLiteral ty value))

def createIntegerValueInst (value : Nat) (ty : Ty) (gen : SILGenFunction) :
    Value × SILGenFunction :=
  (gen.nextValue 0 ty, gen.emit (.integerValue value ty))

def createLoad (X : Externals) (address : Value) (gen : SILGenFunction) :
    Value × SILGenFunction :=
  (gen.nextValue 0 (X.resultType (.load address) 0), gen.emit (.load address))

def createStore (src dest : Value) (gen : SILGenFunction) : SILGenFunction :=
  gen.emit (.store src dest)

def createAllocVar (X : Externals) (kind : AllocKind) (ty : Ty) (gen : SILGenFunction) :
    Value × SILGenFunction :=
  (gen.nextValue 0 (X.resultType (.allocVar kind ty) 0), gen.emit (.allocVar kind ty))

def createDeallocVar (kind : AllocKind) (address : Value) (gen : SILGenFunction) :
    SILGenFunction :=
  gen.emit (.deallocVar kind address)

/-- The instruction has two results: `Value(AllocArray, 0)` is the object pointer and
`Value(AllocArray, 1)` the base pointer. -/
def createAllocArray (X : Externals) (elementTy : Ty) (numElements : Value)
    (gen : SILGenFunction) : (Value × Value) × SILGenFunction :=
  ((gen.nextValue 0 (X.resultType (.allocArray elementTy numElements) 0),
    gen.nextValue 1 (X.resultType (.allocArray elementTy numElements) 1)),
   gen.emit (.allocArray elementTy numElements))

def createIndexAddr (X : Externals) (base : Value) (index : Nat) (gen : SILGenFunction) :
    Value × SILGenFunction :=
  (gen.nextValue 0 (X.resultType (.indexAddr base index) 0), gen.emit (.indexAddr base index))

def createConvert (operand : Value) (ty : Ty) (gen : SILGenFunction) :
    Value × SILGenFunction :=
  (gen.nextValue 0 ty, gen.emit (.convert operand ty))

def createSpecialize (operand : Value) (ty : Ty) (gen : SILGenFunction) :
    Value × SILGenFunction :=
  (gen.nextValue 0 ty, gen.emit (.specialize operand ty))

def createTuple (ty : Ty) (elements : List Value) (gen : SILGenFunction) :
    Value × SILGenFunction :=
  (gen.nextValue 0 ty, gen.emit (.tuple ty elements))

def createExtract (operand : Value) (fieldNo : Nat) (ty : Ty) (gen : SILGenFunction) :
    Value × SILGenFunction :=
  (gen.nextValue 0 ty, gen.emit (.extract operand fieldNo ty))

def createElementAddr (operand : Value) (fieldNo : Nat) (ty : Ty) (gen : SILGenFunction) :
    Value × SILGenFunction :=
  (gen.nextValue 0 ty, gen.emit (.elementAddr operand fieldNo ty))

def createRetain (operand : Value) (gen : SILGenFunction) : SILGenFunction :=
  gen.emit (.retain operand)

def createRelease (operand : Value) (gen : SILGenFunction) : SILGenFunction :=
  gen.emit (.release operand)

def createMetatype (ty : Ty) (gen : SILGenFunction) : Value × SILGenFunction :=
  (gen.nextValue 0 ty, gen.emit (.metatype ty))

def createClosure (X : Externals) (fn : Value) (captures : List Value)
    (gen : SILGenFunction) : Value × SILGenFunction :=
  (gen.nextValue 0 (X.resultType (.closure fn captures) 0), gen.emit (.closure fn captures))

/-- The function return, a terminator. -/
def createReturn (value : Value) (gen : SILGenFunction) : SILGenFunction :=
  gen.emit (.ret value)

end B

/-! ## Cleanups and managed values -/

/-- The call `Cleanups.pushCleanup<T>(...)`: a new active entry on top of the stack. -/
def SILGenFunction.pushCleanup (gen : SILGenFunction) (c : Cleanup) : SILGenFunction :=
  { gen with Cleanups := gen.Cleanups ++ [⟨c, .active⟩] }

/-- The call `getCleanupsDepth()`: the handle of the entry on top of the stack. -/
def SILGenFunction.getCleanupsDepth (gen : SILGenFunction) : Nat :=
  gen.Cleanups.length

/-- Mark the entry at position `n` (from the bottom, starting at 0) dead. -/
def killCleanup : List CleanupEntry → Nat → List CleanupEntry
  | [], _ => []
  | c :: cs, 0 => { c with state := .dead } :: cs
  | c :: cs, n + 1 => c :: killCleanup cs n

/-- Modelled from the spec: `forward()` (`ManagedValue.h`) returns the underlying value and
deactivates any obligation without running it. -/
def ManagedValue.forward (mv : ManagedValue) (gen : SILGenFunction) : Value × SILGenFunction :=
  match mv.cleanup with
  | none => (mv.value, gen)
  | some depth => (mv.value, { gen with Cleanups := killCleanup gen.Cleanups (depth - 1) })

/-- Modelled from the spec: `getValue()` (`ManagedValue.h`) returns the underlying value
without affecting the obligation. -/
def ManagedValue.getValue (mv : ManagedValue) : Value :=
  mv.value

/-- Modelled from the spec: `getUnmanagedValue()` (`ManagedValue.h`) borrows the underlying
value; the spec knows no other borrow than `getValue()`. -/
def ManagedValue.getUnmanagedValue (mv : ManagedValue) : Value :=
  mv.value

/-- A value carries a release obligation unless its type is an address type or trivial:
the test of `managedRValueWithCleanup`. -/
def isReferenceCounted (X : Externals) (ty : Ty) : Bool :=
  !(ty.isLValue || X.isTrivial ty)

/-- Modelled from the spec: `emitRetainRValue` (`SILGen.cpp`) emits a retain on the value if
it is reference-counted. -/
def emitRetainRValue (X : Externals) (v : Value) (gen : SILGenFunction) : SILGenFunction :=
  if isReferenceCounted X v.ty then B.createRetain v gen else gen

/-- Modelled from the spec: `emitReleaseRValue` (`SILGen.cpp`) emits a release of the value
if it is reference-counted. -/
def emitReleaseRValue (X : Externals) (v : Value) (gen : SILGenFunction) : SILGenFunction :=
  if isReferenceCounted X v.ty then B.createRelease v gen else gen

def managedRValueWithCleanup (X : Externals) (v : Value) (gen : SILGenFunction) :
    ManagedValue × SILGenFunction :=
  if v.ty.isLValue || X.isTrivial v.ty then
    (⟨v, none⟩, gen)
  else
    (⟨v, some (gen.pushCleanup (.rvalue v)).getCleanupsDepth⟩, gen.pushCleanup (.rvalue v))

/-- The member `emit` of the two cleanups: `CleanupRValue::emit` releases the value;
`CleanupMaterialize::emit` loads the temporary, releases the loaded value and deallocates
the temporary. -/
def Cleanup.emit (X : Externals) : Cleanup → SILGenFunction → SILGenFunction
  | .rvalue rv, gen => emitReleaseRValue X rv gen
  | .materialize alloc, gen =>
    let (tmpValue, gen) := B.createLoad X alloc gen
    let gen := emitReleaseRValue X tmpValue gen
    B.createDeallocVar .stack alloc gen

/-- Modelled from the spec: cleanup entries run in strict reverse-of-push order and an
entry that was deactivated does not run (the cleanup manager is declared in `Cleanup.h`).
The list holds the entries to run, the top of the stack first. -/
def fireCleanups (X : Externals) : List CleanupEntry → SILGenFunction → SILGenFunction
  | [], gen => gen
  | ⟨c, .active⟩ :: rest, gen => fireCleanups X rest (c.emit X gen)
  | ⟨_, .dead⟩ :: rest, gen => fireCleanups X rest gen

/-- Modelled from the spec: leaving the scope a `FullExpr` (`Scope.h`) opened at depth
`depth` runs the cleanups pushed since then, in reverse order of their push, and pops
them. -/
def endScope (X : Externals) (depth : Nat) (gen : SILGenFunction) : SILGenFunction :=
  { fireCleanups X (gen.Cleanups.drop depth).reverse gen with
    Cleanups := gen.Cleanups.take depth }

/-- Modelled from the spec: `Cleanups.emitReturnAndCleanups` (`Cleanup.h`) runs all pending
cleanups in reverse order of their push and emits the function return. -/
def emitReturnAndCleanups (X : Externals) (result : Value) (gen : SILGenFunction) :
    SILGenFunction :=
  B.createReturn result (fireCleanups X gen.Cleanups.reverse gen)

/-! ## The handlers -/

/-- The fallback `visitExpr`: dump the node, then `llvm_unreachable`. -/
def visitExpr (_E : Expr) (_gen : SILGenFunction) : Except Abort (ManagedValue × SILGenFunction) :=
  .error .notYetImplemented

/-- The loop `for (auto arg : elements) ArgsV.push_back(visit(arg).forward(*this))` of
`visitApplyExpr` and `visitTupleExpr`. -/
def visitAndForwardElements (visit : Visitor) :
    List Expr → List Value → SILGenFunction → Except Abort (List Value × SILGenFunction)
  | [], ArgsV, gen => .ok (ArgsV, gen)
  | arg :: rest, ArgsV, gen => do
    let (mv, gen) ← visit arg gen
    let (v, gen) := mv.forward gen
    visitAndForwardElements visit rest (ArgsV ++ [v]) gen

/-- The argument expression of an application with one enclosing `ParenExpr` removed. -/
def stripParen : Expr → Expr
  | .paren _ sub => sub
  | e => e

def visitApplyExpr (X : Externals) (visit : Visitor) (fn arg : Expr)
    (gen : SILGenFunction) : Except Abort (ManagedValue × SILGenFunction) := do
  let (fnMV, gen) ← visit fn gen
  let (FnV, gen) := fnMV.forward gen
  let (ArgsV, gen) ←
    match stripParen arg with
    | .tuple _ elements => visitAndForwardElements visit elements [] gen
    | .scalarToTuple _ sub _ _ => do
      let (mv, gen) ← visit sub gen
      let (v, gen) := mv.forward gen
      pure ([v], gen)
    | argExpr => do
      let (mv, gen) ← visit argExpr gen
      let (v, gen) := mv.forward gen
      pure ([v], gen)
  let (r, gen) := B.createApply X FnV ArgsV gen
  pure (managedRValueWithCleanup X r gen)

def emitReferenceToDecl (X : Externals) (decl : ValueDecl) (gen : SILGenFunction) :
    Except Abort (ManagedValue × SILGenFunction) :=
  if decl.getTypeOfReference.isLValue then
    match gen.VarLocs decl.id with
    | some vl => .ok (⟨vl.address, none⟩, gen)
    | none =>
      if decl.isLocalContext then
        .error .assertionFailed
      else
        let (accessor, gen) := B.createConstantRef X (.ofDecl decl) gen
        let (address, gen) := B.createApply X accessor [] gen
        .ok (⟨address, none⟩, gen)
  else
    match gen.LocalConstants decl.id with
    | some constant => .ok (managedRValueWithCleanup X constant (emitRetainRValue X constant gen))
    | none =>
      let (v, gen) := B.createConstantRef X (.ofDecl decl) gen
      .ok (⟨v, none⟩, gen)

def visitDeclRefExpr (X : Externals) (decl : ValueDecl) (gen : SILGenFunction) :
    Except Abort (ManagedValue × SILGenFunction) :=
  emitReferenceToDecl X decl gen

def visitIntegerLiteralExpr (ty : Ty) (value : Int) (gen : SILGenFunction) :
    Except Abort (ManagedValue × SILGenFunction) :=
  let (v, gen) := B.createIntegerLiteral ty value gen
  .ok (⟨v, none⟩, gen)

def visitFloatLiteralExpr (ty : Ty) (text : String) (gen : SILGenFunction) :
    Except Abort (ManagedValue × SILGenFunction) :=
  let (v, gen) := B.createFloatLiteral ty text gen
  .ok (⟨v, none⟩, gen)

def visitCharacterLiteralExpr (ty : Ty) (value : Nat) (gen : SILGenFunction) :
    Except Abort (ManagedValue × SILGenFunction) :=
  let (v, gen) := B.createIntegerLiteral ty value gen
  .ok (⟨v, none⟩, gen)

def visitStringLiteralExpr (ty : Ty) (value : String) (gen : SILGenFunction) :
    Except Abort (ManagedValue × SILGenFunction) :=
  let (v, gen) := B.createStringLiteral ty value gen
  .ok (⟨v, none⟩, gen)

def visitLoadExpr (X : Externals) (visit : Visitor) (sub : Expr) (gen : SILGenFunction) :
    Except Abort (ManagedValue × SILGenFunction) := do
  let (SubV, gen) ← visit sub gen
  let (loadedV, gen) := B.createLoad X SubV.getUnmanagedValue gen
  let gen := emitRetainRValue X loadedV gen
  pure (managedRValueWithCleanup X loadedV gen)

def visitMaterializeExpr (X : Externals) (visit : Visitor) (sub : Expr)
    (gen : SILGenFunction) : Except Abort (ManagedValue × SILGenFunction) := do
  let (mv, gen) ← visit sub gen
  let (V, gen) := mv.forward gen
  let (TmpMem, gen) := B.createAllocVar X .stack V.ty gen
  let gen := B.createStore V TmpMem gen
  let gen := gen.pushCleanup (.materialize TmpMem)
  pure (⟨TmpMem, none⟩, gen)

def visitRequalifyExpr (visit : Visitor) (ty : Ty) (sub : Expr) (gen : SILGenFunction) :
    Except Abort (ManagedValue × SILGenFunction) := do
  let (mv, gen) ← visit sub gen
  let (v, gen) := B.createConvert mv.getValue ty gen
  pure (⟨v, none⟩, gen)

def visitFunctionConversionExpr (visit : Visitor) (ty : Ty) (sub : Expr)
    (gen : SILGenFunction) : Except Abort (ManagedValue × SILGenFunction) := do
  let (mv, gen) ← visit sub gen
  let (v, gen) := B.createConvert mv.getValue ty gen
  pure (⟨v, none⟩, gen)

def visitParenExpr (visit : Visitor) (sub : Expr) (gen : SILGenFunction) :
    Except Abort (ManagedValue × SILGenFunction) :=
  visit sub gen

def visitTupleExpr (X : Externals) (visit : Visitor) (ty : Ty) (elements : List Expr)
    (gen : SILGenFunction) : Except Abort (ManagedValue × SILGenFunction) := do
  let (ArgsV, gen) ← visitAndForwardElements visit elements [] gen
  let (t, gen) := B.createTuple ty ArgsV gen
  pure (managedRValueWithCleanup X t gen)

def visitGetMetatypeExpr (visit : Visitor) (sub : Expr) (gen : SILGenFunction) :
    Except Abort (ManagedValue × SILGenFunction) :=
  visit sub gen

def visitSpecializeExpr (visit : Visitor) (ty : Ty) (sub : Expr) (gen : SILGenFunction) :
    Except Abort (ManagedValue × SILGenFunction) := do
  let (mv, gen) ← visit sub gen
  let (v, gen) := B.createSpecialize mv.getUnmanagedValue ty gen
  pure (⟨v, none⟩, gen)

def visitAddressOfExpr (visit : Visitor) (sub : Expr) (gen : SILGenFunction) :
    Except Abort (ManagedValue × SILGenFunction) :=
  visit sub gen

def visitTupleElementExpr (X : Externals) (visit : Visitor) (ty : Ty) (base : Expr)
    (fieldNumber : Nat) (gen : SILGenFunction) : Except Abort (ManagedValue × SILGenFunction) :=
  if ty.isLValue then do
    let (mv, gen) ← visit base gen
    let (address, gen) := B.createElementAddr mv.getValue fieldNumber ty gen
    pure (⟨address, none⟩, gen)
  else do
    let (mv, gen) ← visit base gen
    let (elt, gen) := B.createExtract mv.getValue fieldNumber ty gen
    let gen := emitRetainRValue X elt gen
    pure (managedRValueWithCleanup X elt gen)

/-- A null injection function expression cannot be visited. -/
def emitArrayInjectionCall (X : Externals) (visit : Visitor) (ObjectPtr BasePtr Length : Value)
    (ArrayInjectionFunction : Option Expr) (gen : SILGenFunction) :
    Except Abort (ManagedValue × SILGenFunction) :=
  let (BasePtr, gen) :=
    if !BasePtr.ty.isRawPointer then B.createConvert BasePtr .rawPointer gen
    else (BasePtr, gen)
  match ArrayInjectionFunction with
  | none => .error .nullExpr
  | some fnExpr => do
    let (fnMV, gen) ← visit fnExpr gen
    let InjectionFn := fnMV.getUnmanagedValue
    let (r, gen) := B.createApply X InjectionFn [BasePtr, ObjectPtr, Length] gen
    pure (managedRValueWithCleanup X r gen)

/-- The subscript `InOps[i]` of an `ArrayRef` with an index that was an `int`: the read is
asserted to be in range. A non-negative `int` keeps its value when it is converted to the
unsigned index type; a negative `int` converts to an index of at least `2^31`, beyond every
operand list, so it is out of range as well. -/
def indexInOps (InOps : List Value) (i : Int) : Option Value :=
  if i < 0 then none else InOps[i.toNat]?

/-- The inner `while (shuffleIndexIterator != shuffleIndexIteratorEnd)` loop of
`emitTupleShuffle`; the first list is what is left of the mapping. The counter `CurElem` is
`unsigned`; it stays below the number of mapping entries, far from `2^32`, and is kept as a
natural number. -/
def emitVarargStores (X : Externals) (InOps : List Value) (BasePtr : Value) :
    List Int → Nat → SILGenFunction → Except Abort SILGenFunction
  | [], _, gen => .ok gen
  | SourceField :: rest, CurElem, gen =>
    let (EltLoc, gen) :=
      if CurElem ≠ 0 then B.createIndexAddr X BasePtr CurElem gen else (BasePtr, gen)
    match indexInOps InOps SourceField with
    | none => .error .indexOutOfRange
    | some src => emitVarargStores X InOps BasePtr rest (CurElem + 1) (B.createStore src EltLoc gen)

/-- The loop over `outerFields` of `emitTupleShuffle`. The second list is what is left of
the mapping from `shuffleIndexIterator` on and the third is `ResultElements`. Reading the
iterator when nothing is left is an error. `NumArrayElts` is the number of entries left, a
count far below `2^32`, and is kept as a natural number. -/
def emitTupleShuffleFields (X : Externals) (visit : Visitor) (InOps : List Value)
    (VarargsInjectionFunction : Option Expr) :
    List TupleTypeElt → List Int → List Value → SILGenFunction →
      Except Abort (List Value × SILGenFunction)
  | [], _, ResultElements, gen => .ok (ResultElements, gen)
  | _ :: _, [], _, _ => .error .readPastEnd
  | outerField :: fields, shuffleIndex :: rest, ResultElements, gen =>
    if shuffleIndex = -1 then
      match outerField.getInit with
      | none => .error .assertionFailed
      | some init => do
        let (mv, gen) ← visit init gen
        let (v, gen) := mv.forward gen
        emitTupleShuffleFields X visit InOps VarargsInjectionFunction fields rest
          (ResultElements ++ [v]) gen
    else if shuffleIndex ≠ -2 then
      match indexInOps InOps shuffleIndex with
      | none => .error .indexOutOfRange
      | some v =>
        emitTupleShuffleFields X visit InOps VarargsInjectionFunction fields rest
          (ResultElements ++ [v]) gen
    else
      match outerField.getVarargBaseTy with
      | none => .error .assertionFailed
      | some baseTy => do
        let NumArrayElts := rest.length
        let (NumEltsVal, gen) := B.createIntegerValueInst NumArrayElts (.builtinInteger 64) gen
        let ((ObjectPtr, BasePtr), gen) := B.createAllocArray X baseTy NumEltsVal gen
        let gen ← emitVarargStores X InOps BasePtr rest 0 gen
        let (mv, gen) ←
          emitArrayInjectionCall X visit ObjectPtr BasePtr NumEltsVal VarargsInjectionFunction gen
        let (v, gen) := mv.forward gen
        pure (ResultElements ++ [v], gen)

def emitTupleShuffle (X : Externals) (visit : Visitor) (E : Expr) (InOps : List Value)
    (ElementMapping : List Int) (VarargsInjectionFunction : Option Expr)
    (gen : SILGenFunction) : Except Abort (ManagedValue × SILGenFunction) :=
  match E.getType with
  | .tuple outerFields => do
    let (ResultElements, gen) ←
      emitTupleShuffleFields X visit InOps VarargsInjectionFunction outerFields ElementMapping
        [] gen
    let (t, gen) := B.createTuple E.getType ResultElements gen
    pure (managedRValueWithCleanup X t gen)
  | _ => .error .badCast

/-- The loop over the fields of the operand type in `visitTupleShuffleExpr`: extract and
retain each element. -/
def extractAndRetainFields (X : Externals) (Op : Value) :
    List TupleTypeElt → Nat → List Value → SILGenFunction → List Value × SILGenFunction
  | [], _, InElts, gen => (InElts, gen)
  | InField :: rest, EltNo, InElts, gen =>
    let (elt, gen) := B.createExtract Op EltNo InField.getType gen
    let gen := emitRetainRValue X elt gen
    extractAndRetainFields X Op rest (EltNo + 1) (InElts ++ [elt]) gen

def visitTupleShuffleExpr (X : Externals) (visit : Visitor) (E : Expr) (sub : Expr)
    (elementMapping : List Int) (varargsInjectionFunction : Option Expr)
    (gen : SILGenFunction) : Except Abort (ManagedValue × SILGenFunction) := do
  let (mv, gen) ← visit sub gen
  let Op := mv.getValue
  match Op.ty with
  | .tuple inFields =>
    let (InElts, gen) := extractAndRetainFields X Op inFields 0 [] gen
    emitTupleShuffle X visit E InElts elementMapping varargsInjectionFunction gen
  | _ => .error .badCast

/-- The loop of `visitScalarToTupleExpr` that fills `ShuffleMask`; the natural number is the
loop counter `i`. -/
def buildShuffleMask (scalarField : Nat) : List TupleTypeElt → Nat → List Int → List Int
  | [], _, ShuffleMask => ShuffleMask
  | outerField :: rest, i, ShuffleMask =>
    let ShuffleMask := if outerField.isVararg then ShuffleMask ++ [-2] else ShuffleMask
    let ShuffleMask :=
      if i = scalarField then ShuffleMask ++ [0]
      else if !outerField.isVararg then ShuffleMask ++ [-1]
      else ShuffleMask
    buildShuffleMask scalarField rest (i + 1) ShuffleMask

def visitScalarToTupleExpr (X : Externals) (visit : Visitor) (E : Expr) (sub : Expr)
    (scalarField : Nat) (varargsInjectionFunction : Option Expr) (gen : SILGenFunction) :
    Except Abort (ManagedValue × SILGenFunction) := do
  let (mv, gen) ← visit sub gen
  let Arg := mv.getValue
  match E.getType with
  | .tuple outerFields =>
    let ShuffleMask := buildShuffleMask scalarField outerFields 0 []
    emitTupleShuffle X visit E [Arg] ShuffleMask varargsInjectionFunction gen
  | _ => .error .badCast

def visitNewArrayExpr (X : Externals) (visit : Visitor) (elementType : Ty)
    (bounds : List Expr) (injectionFunction : Option Expr) (gen : SILGenFunction) :
    Except Abort (ManagedValue × SILGenFunction) :=
  match bounds with
  | [] => .error .indexOutOfRange
  | bound :: _ => do
    let (mv, gen) ← visit bound gen
    let NumElements := mv.getValue
    let ((ObjectPtr, BasePtr), gen) := B.createAllocArray X elementType NumElements gen
    emitArrayInjectionCall X visit ObjectPtr BasePtr NumElements injectionFunction gen

def visitMetatypeExpr (ty : Ty) (gen : SILGenFunction) :
    Except Abort (ManagedValue × SILGenFunction) :=
  let (v, gen) := B.createMetatype ty gen
  .ok (⟨v, none⟩, gen)

/-- The loop over the captures in `emitClosureForCapturingExpr`; the list of values is
`capturedArgs`. -/
def emitCaptures (X : Externals) :
    List ValueDecl → List Value → SILGenFunction → Except Abort (List Value × SILGenFunction)
  | [], capturedArgs, gen => .ok (capturedArgs, gen)
  | capture :: rest, capturedArgs, gen =>
    match X.declCaptureKind capture with
    | .LValue =>
      match gen.VarLocs capture.id with
      | none => .error .assertionFailed
      | some vl =>
        match vl.box with
        | none => .error .assertionFailed
        | some box =>
          emitCaptures X rest (capturedArgs ++ [box, vl.address]) (B.createRetain box gen)
    | .Byref =>
      match gen.VarLocs capture.id with
      | none => .error .assertionFailed
      | some vl => emitCaptures X rest (capturedArgs ++ [vl.address]) gen
    | .Constant => do
      let (mv, gen) ← emitReferenceToDecl X capture gen
      let (v, gen) := mv.forward gen
      emitCaptures X rest (capturedArgs ++ [v]) gen

def emitClosureForCapturingExpr (X : Externals) (constant : SILConstant) (body : Expr)
    (gen : SILGenFunction) : Except Abort (ManagedValue × SILGenFunction) :=
  let captures := body.getCaptures
  if !captures.isEmpty then do
    let (capturedArgs, gen) ← emitCaptures X captures [] gen
    let (functionRef, gen) := B.createConstantRef X constant gen
    let (c, gen) := B.createClosure X functionRef capturedArgs gen
    pure (managedRValueWithCleanup X c gen)
  else
    let (v, gen) := B.createConstantRef X constant gen
    .ok (⟨v, none⟩, gen)

/-- The body of the local function is emitted into the module by `SGM.emitFunction`, which
leaves the function being lowered untouched. -/
def visitFuncExpr (X : Externals) (e : Expr) (gen : SILGenFunction) :
    Except Abort (ManagedValue × SILGenFunction) :=
  emitClosureForCapturingExpr X (.ofExpr e) e gen

/-- The body of the closure is emitted into the module by `SGM.emitClosure`, which leaves
the function being lowered untouched. -/
def visitClosureExpr (X : Externals) (e : Expr) (gen : SILGenFunction) :
    Except Abort (ManagedValue × SILGenFunction) :=
  emitClosureForCapturingExpr X (.ofExpr e) e gen

/-- The body is lowered between the construction of `FullExpr scope(Cleanups)` and the end
of its block; the test `B.hasValidInsertionPoint()` reads the state after the scope was
left. -/
def emitClosureBody (X : Externals) (visit : Visitor) (body : Expr) (gen : SILGenFunction) :
    Except Abort SILGenFunction := do
  let depth := gen.getCleanupsDepth
  let (mv, gen) ← visit body gen
  let (result, gen) := mv.forward gen
  let gen := endScope X depth gen
  if gen.hasValidInsertionPoint then
    pure (emitReturnAndCleanups X result gen)
  else
    pure gen

/-- The dispatcher `visit`: route a node to the handler of its kind. The handlers call back
into the dispatcher for sub-expressions; the first argument bounds the nesting depth. -/
def visit (X : Externals) : Nat → Visitor
  | 0, _, _ => .error .outOfFuel
  | fuel + 1, E, gen =>
    match E with
    | .apply _ fn arg => visitApplyExpr X (visit X fuel) fn arg gen
    | .declRef _ decl => visitDeclRefExpr X decl gen
    | .integerLiteral ty value => visitIntegerLiteralExpr ty value gen
    | .floatLiteral ty text => visitFloatLiteralExpr ty text gen
    | .characterLiteral ty value => visitCharacterLiteralExpr ty value gen
    | .stringLiteral ty value => visitStringLiteralExpr ty value gen
    | .load _ sub => visitLoadExpr X (visit X fuel) sub gen
    | .materialize _ sub => visitMaterializeExpr X (visit X fuel) sub gen
    | .requalify ty sub => visitRequalifyExpr (visit X fuel) ty sub gen
    | .functionConversion ty sub => visitFunctionConversionExpr (visit X fuel) ty sub gen
    | .paren _ sub => visitParenExpr (visit X fuel) sub gen
    | .tuple ty elements => visitTupleExpr X (visit X fuel) ty elements gen
    | .getMetatype _ sub => visitGetMetatypeExpr (visit X fuel) sub gen
    | .specialize ty sub => visitSpecializeExpr (visit X fuel) ty sub gen
    | .addressOf _ sub => visitAddressOfExpr (visit X fuel) sub gen
    | .tupleElement ty base fieldNumber =>
      visitTupleElementExpr X (visit X fuel) ty base fieldNumber gen
    | .tupleShuffle _ sub elementMapping inj =>
      visitTupleShuffleExpr X (visit X fuel) E sub elementMapping inj gen
    | .scalarToTuple _ sub scalarField inj =>
      visitScalarToTupleExpr X (visit X fuel) E sub scalarField inj gen
    | .newArray _ elementType bounds inj =>
      visitNewArrayExpr X (visit X fuel) elementType bounds inj gen
    | .metatypeExpr ty => visitMetatypeExpr ty gen
    | .func _ _ => visitFuncExpr X E gen
    | .closure _ _ => visitClosureExpr X E gen
    | .unhandled _ _ => visitExpr E gen

/-! ## Definitions used to state the properties -/

/-- The mapping the spec describes for a scalar-to-tuple promotion: one entry per field,
source index 0 at the scalar field, `VARIADIC_START` (-2) at a variadic field and `DEFAULT`
(-1) at every other field. The natural number is the index of the first field. -/
def specScalarMapping (scalarField : Nat) : List TupleTypeElt → Nat → List Int
  | [], _ => []
  | f :: fs, i =>
    (if i = scalarField then 0 else if f.isVararg then -2 else -1) ::
      specScalarMapping scalarField fs (i + 1)

/-- Whether the field at index `n` exists and is variadic. -/
def isVarargAt (fields : List TupleTypeElt) (n : Nat) : Bool :=
  match fields[n]? with
  | some f => f.isVararg
  | none => false

/-- The state after the instructions `is` have been emitted in order. -/
def SILGenFunction.emitAll (gen : SILGenFunction) (is : List Inst) : SILGenFunction :=
  { gen with insts := gen.insts ++ is }

def Inst.isStore : Inst → Bool
  | .store _ _ => true
  | _ => false

def Inst.isAllocArray : Inst → Bool
  | .allocArray _ _ => true
  | _ => false

def Inst.isTuple : Inst → Bool
  | .tuple _ _ => true
  | _ => false

/-- The address of slot `k` of a packed variadic array whose first store is emitted at
position `first`: slot 0 is the base address itself, slot `k > 0` is the result of the
instruction `indexAddr base k`, which is emitted at position `first + 2 * k - 1`. -/
def variadicSlot (X : Externals) (base : Value) (first k : Nat) : Value :=
  if k = 0 then base else ⟨first + 2 * k - 1, 0, X.resultType (.indexAddr base k) 0⟩

/-- The instructions that store the values `vals` into slots `k`, `k + 1`, ... -/
def slotStores (X : Externals) (base : Value) (first : Nat) : Nat → List Value → List Inst
  | _, [] => []
  | k, v :: vs =>
    (if k = 0 then [Inst.store v base]
     else [Inst.indexAddr base k, Inst.store v (variadicSlot X base first k)]) ++
      slotStores X base first (k + 1) vs

/-- The conversion `emitArrayInjectionCall` emits for a base pointer that is not of the raw
pointer type. -/
def rawBaseConvert (BasePtr : Value) : List Inst :=
  if BasePtr.ty.isRawPointer then [] else [.convert BasePtr .rawPointer]

/-- The base pointer passed to the injection function; `pos` is the position at which the
conversion, if any, is emitted. -/
def rawBasePtr (BasePtr : Value) (pos : Nat) : Value :=
  if BasePtr.ty.isRawPointer then BasePtr else ⟨pos, 0, .rawPointer⟩

/-- The length operand of the array allocated at position `pos + 1`: the result of the
`integerValue` instruction at position `pos`. -/
def packLength (pos : Nat) : Value :=
  ⟨pos, 0, .builtinInteger 64⟩

/-- The ownership token `Value(AllocArray, 0)` of the allocation. -/
def packObject (X : Externals) (baseTy : Ty) (pos : Nat) : Value :=
  ⟨pos + 1, 0, X.resultType (.allocArray baseTy (packLength pos)) 0⟩

/-- The base address `Value(AllocArray, 1)` of the allocation. -/
def packBase (X : Externals) (baseTy : Ty) (pos : Nat) : Value :=
  ⟨pos + 1, 1, X.resultType (.allocArray baseTy (packLength pos)) 1⟩

/-- The instructions that pack the values `vals` into a fresh array of element type
`baseTy`, starting at position `pos`, up to the point where the injection function is
lowered. -/
def variadicPackInsts (X : Externals) (baseTy : Ty) (pos : Nat) (vals : List Value) :
    List Inst :=
  [Inst.integerValue vals.length (.builtinInteger 64), Inst.allocArray baseTy (packLength pos)] ++
    slotStores X (packBase X baseTy pos) (pos + 2) 0 vals ++
    rawBaseConvert (packBase X baseTy pos)

/-- The state after a fresh value was wrapped by `managedRValueWithCleanup` and forwarded
at once. -/
def wrapAndForward (X : Externals) (v : Value) (g : SILGenFunction) : SILGenFunction :=
  ((managedRValueWithCleanup X v g).1.forward (managedRValueWithCleanup X v g).2).2

/-- The call of the injection function for an array packed at position `pos` with `n`
elements of type `baseTy`: the operands are the raw base address, the ownership token and
the length, in this order. -/
def injectionApply (X : Externals) (baseTy : Ty) (pos n : Nat) (fn : Value) : Inst :=
  .apply fn [rawBasePtr (packBase X baseTy pos) (pos + 2 + (2 * n - 1)),
    packObject X baseTy pos, packLength pos]

def Inst.isRetain : Inst → Bool
  | .retain _ => true
  | _ => false

/-- The values whose release is still pending: the active `CleanupRValue` entries of the
cleanup stack, bottom first. -/
def pendingReleases : List CleanupEntry → List Value
  | [] => []
  | ⟨.rvalue v, .active⟩ :: rest => v :: pendingReleases rest
  | _ :: rest => pendingReleases rest

/-- Whether a captured declaration can be marshalled, given the table `VarLocs`: a capture
with box has a recorded location with a box, a capture by address has a recorded location,
and a constant capture of address type is either recorded or not local. -/
def captureLocated (X : Externals) (V : Nat → Option VarLoc) (c : ValueDecl) : Bool :=
  match X.declCaptureKind c with
  | .LValue =>
    match V c.id with
    | some vl => vl.box.isSome
    | none => false
  | .Byref => (V c.id).isSome
  | .Constant => !c.getTypeOfReference.isLValue || (V c.id).isSome || !c.isLocalContext

/-- The retain `emitReferenceToDecl` emits when it resolves a declaration, given the table
`LocalConstants`: one retain on the stored value if the declaration is not of address type
and is a local pre-computed constant of reference-counted type, and none otherwise. -/
def referenceRetains (X : Externals) (L : Nat → Option Value) (decl : ValueDecl) : List Inst :=
  if decl.getTypeOfReference.isLValue then []
  else
    match L decl.id with
    | some constant => if isReferenceCounted X constant.ty then [Inst.retain constant] else []
    | none => []

/-- The instructions emitted when the cleanup of the temporary `tmp` fires at position
`pos`: a load of the temporary, a release of the loaded value, a stack deallocation. -/
def materializeCleanupInsts (X : Externals) (tmp : Value) (pos : Nat) : List Inst :=
  [Inst.load tmp, Inst.release ⟨pos, 0, X.resultType (.load tmp) 0⟩,
    Inst.deallocVar .stack tmp]

/-- The temporary `visitMaterializeExpr` allocates for the value `v` at position `pos`. -/
def materializeTemp (X : Externals) (v : Value) (pos : Nat) : Value :=
  ⟨pos, 0, X.resultType (.allocVar .stack v.ty) 0⟩

/-- The elements `es` are lowered and forwarded one after the other, in order, from the
state `g` on: the values are `vs` and the final state is the last argument. -/
inductive ForwardedInOrder (visit : Visitor) :
    List Expr → SILGenFunction → List Value → SILGenFunction → Prop where
  | nil (g : SILGenFunction) : ForwardedInOrder visit [] g [] g
  | cons {e : Expr} {es : List Expr} {g g1 g2 : SILGenFunction} {mv : ManagedValue}
      {vs : List Value} (h : visit e g = .ok (mv, g1))
      (hrest : ForwardedInOrder visit es (mv.forward g1).2 vs g2) :
      ForwardedInOrder visit (e :: es) g (mv.value :: vs) g2

/-- The state `visitMaterializeExpr` leaves when `g` is the state after the value `v` of the
sub-expression was forwarded: the temporary is allocated and initialised, and one cleanup
for the temporary is pushed on top of the cleanup stack of `g`. -/
def materializedState (X : Externals) (g : SILGenFunction) (v : Value) : SILGenFunction :=
  { g with
    insts := g.insts ++ [Inst.allocVar .stack v.ty,
      Inst.store v (materializeTemp X v g.insts.length)]
    Cleanups := g.Cleanups ++ [⟨.materialize (materializeTemp X v g.insts.length), .active⟩] }

/-- The loop of `emitTupleShuffle` over the destination fields, started in the state `g`,
ends in the failure `e` returned by the dispatcher: the loop lowers the fields in order, as in
`FieldsLowered`, until the lowering of the default value of a field, or of the injection
function after the remaining source values were packed, returns `e` in the state the loop has
reached. -/
inductive LoweringFails (X : Externals) (visit : Visitor) (InOps : List Value)
    (inj : Option Expr) :
    List TupleTypeElt → List Int → SILGenFunction → Abort → Prop where
  | default {f : TupleTypeElt} {fs : List TupleTypeElt} {ms : List Int} {g : SILGenFunction}
      {d : Expr} {e : Abort}
      (hinit : f.getInit = some d) (hv : visit d g = .error e) :
      LoweringFails X visit InOps inj (f :: fs) (-1 :: ms) g e
  | afterDefault {f : TupleTypeElt} {fs : List TupleTypeElt} {ms : List Int}
      {g g1 : SILGenFunction} {d : Expr} {mv : ManagedValue} {e : Abort}
      (hinit : f.getInit = some d) (hv : visit d g = .ok (mv, g1))
      (hrest : LoweringFails X visit InOps inj fs ms (mv.forward g1).2 e) :
      LoweringFails X visit InOps inj (f :: fs) (-1 :: ms) g e
  | afterIndex {f : TupleTypeElt} {fs : List TupleTypeElt} {m : Int} {ms : List Int}
      {g : SILGenFunction} {v : Value} {e : Abort}
      (hm : 0 ≤ m) (hv : InOps[m.toNat]? = some v)
      (hrest : LoweringFails X visit InOps inj fs ms g e) :
      LoweringFails X visit InOps inj (f :: fs) (m :: ms) g e
  | injection {f : TupleTypeElt} {fs : List TupleTypeElt} {srcs : List Int}
      {g : SILGenFunction} {baseTy : Ty} {vals : List Value} {fnExpr : Expr} {e : Abort}
      (hva : f.getVarargBaseTy = some baseTy)
      (hvals : List.Forall₂ (fun s v => 0 ≤ s ∧ InOps[s.toNat]? = some v) srcs vals)
      (hinj : inj = some fnExpr)
      (hv : visit fnExpr (g.emitAll (variadicPackInsts X baseTy g.insts.length vals)) =
        .error e) :
      LoweringFails X visit InOps inj (f :: fs) (-2 :: srcs) g e

/-! ## Sample inputs -/

/-- A sample type lowering: builtin integers, raw pointers and metatypes are trivial. -/
def sampleIsTrivial : Ty → Bool
  | .builtinInteger _ => true
  | .rawPointer => true
  | .metatype _ => true
  | _ => false

/-- A sample capture classification: a declaration of address type is captured with its
box if it is local and by address only otherwise; any other declaration is a constant. -/
def sampleCaptureKind (d : ValueDecl) : CaptureKind :=
  if d.getTypeOfReference.isLValue then
    (if d.isLocalContext then .LValue else .Byref)
  else .Constant

/-- Sample result types of the builder. -/
def sampleResultType : Inst → Nat → Ty
  | .apply fn _, _ =>
    match fn.ty with
    | .function _ r => r
    | t => t
  | .load a, _ =>
    match a.ty with
    | .lvalue t => t
    | t => t
  | .allocArray _ _, 0 => .objectPointer
  | .allocArray elementTy _, _ => .lvalue elementTy
  | .indexAddr base _, _ => base.ty
  | .constantRef (.ofDecl d), _ => d.getTypeOfReference
  | .constantRef (.ofExpr e), _ => e.getType
  | .closure fn _, _ => fn.ty
  | .allocVar _ ty, _ => .lvalue ty
  | _, _ => .tuple []

def sampleX : Externals :=
  ⟨sampleIsTrivial, sampleCaptureKind, sampleResultType⟩

def tyInt : Ty := .builtinInteger 64

def tySlice : Ty := .nominal 1

/-- The injection function of the sample: a global function that returns a slice. -/
def sampleInjection : Expr :=
  .declRef (.function (.tuple []) tySlice) (.mk 100 (.function (.tuple []) tySlice) false)

/-- The destination shape `(Int, Int...)`. -/
def shapeIntVariadic : List TupleTypeElt :=
  [.mk tyInt none none, .mk tySlice none (some tyInt)]

/-- A state in which the three literals 1, 2 and 3 have been emitted. -/
def genThreeInts : SILGenFunction :=
  { insts := [.integerLiteral tyInt 1, .integerLiteral tyInt 2, .integerLiteral tyInt 3]
    hasValidInsertionPoint := true
    Cleanups := []
    VarLocs := fun _ => none
    LocalConstants := fun _ => none }

/-- The values of the three literals of `genThreeInts`. -/
def threeInts : List Value :=
  [⟨0, 0, tyInt⟩, ⟨1, 0, tyInt⟩, ⟨2, 0, tyInt⟩]

/-- A tuple shuffle node of type `(Int, Int...)`. -/
def sampleShuffle : Expr :=
  .tupleShuffle (.tuple shapeIntVariadic) (.unhandled (.tuple []) 0) [0, -2, 1, 2]
    (some sampleInjection)

/-- The default value expression `d` of the sample shape. -/
def sampleDefault : Expr :=
  .integerLiteral tyInt 7

/-- The destination shape `(A default=d, B, C...)`. -/
def shapeDefaultScalarVariadic : List TupleTypeElt :=
  [.mk (.nominal 10) (some sampleDefault) none, .mk (.nominal 11) none none,
    .mk tySlice none (some (.nominal 12))]

/-- The destination shape `(C...)` of a single variadic field. -/
def shapeOnlyVariadic : List TupleTypeElt :=
  [.mk tySlice none (some (.nominal 12))]

/-- The state before anything is emitted, with no local variables or constants. -/
def genEmpty : SILGenFunction :=
  { insts := []
    hasValidInsertionPoint := true
    Cleanups := []
    VarLocs := fun _ => none
    LocalConstants := fun _ => none }

/-- The promotion of the scalar literal 5 to the shape `(A default=d, B, C...)` at field 1. -/
def samplePromotion : Expr :=
  .scalarToTuple (.tuple shapeDefaultScalarVariadic) (.integerLiteral tyInt 5) 1
    (some sampleInjection)

/-- A node of type `(A default=d, B, C...)`, the destination of a shuffle. -/
def sampleDestination : Expr :=
  .unhandled (.tuple shapeDefaultScalarVariadic) 0

/-- A class type: values of this type are reference-counted. -/
def tyRef : Ty := .nominal 20

/-- A local variable `x` of class type. -/
def declX : ValueDecl := .mk 1 (.lvalue tyRef) true

/-- A state in which the box of `x` has been allocated (instruction 0) and recorded. -/
def genWithX : SILGenFunction :=
  { insts := [.allocBox tyRef]
    hasValidInsertionPoint := true
    Cleanups := []
    VarLocs := fun id =>
      if id = 1 then some ⟨some ⟨0, 0, .objectPointer⟩, ⟨0, 1, .lvalue tyRef⟩⟩ else none
    LocalConstants := fun _ => none }

/-- The load of `x`. -/
def loadX : Expr :=
  .load tyRef (.declRef (.lvalue tyRef) declX)

/-- The promotion of the loaded value of `x` to the one-field tuple type `(T)`. -/
def promoteLoadX : Expr :=
  .scalarToTuple (.tuple [.mk tyRef none none]) loadX 0 none

/-- The tuple expression `(x)` of the same type, built by `visitTupleExpr`. -/
def tupleLoadX : Expr :=
  .tuple (.tuple [.mk tyRef none none]) [loadX]

/-- A local variable `v` that is captured with its box. -/
def declV : ValueDecl := .mk 1 (.lvalue tyInt) true

/-- A local function `k`, held as a local pre-computed constant. -/
def declK : ValueDecl := .mk 2 (.function (.tuple []) tyInt) true

/-- A state in which the box of `v` (instruction 0) and the value of the local function `k`
(instruction 1) exist and are recorded. -/
def genWithVK : SILGenFunction :=
  { insts := [.allocBox tyInt, .constantRef (.ofDecl declK)]
    hasValidInsertionPoint := true
    Cleanups := []
    VarLocs := fun id =>
      if id = 1 then some ⟨some ⟨0, 0, .objectPointer⟩, ⟨0, 1, .lvalue tyInt⟩⟩ else none
    LocalConstants := fun id => if id = 2 then some ⟨1, 0, .function (.tuple []) tyInt⟩
      else none }

/-- A nested function that captures `v` and `k`. -/
def sampleFunc : Expr :=
  .func (.function (.tuple []) tyInt) [declV, declK]

/-- A state without a valid insertion point: a terminator has been emitted. -/
def genTerminated : SILGenFunction :=
  { genWithX with hasValidInsertionPoint := false }

/-- The state after `x` was loaded: the load, the retain and the pending release of the
loaded value. -/
def genLoadedX : SILGenFunction :=
  { genWithX with
    insts := [.allocBox tyRef, .load ⟨0, 1, .lvalue tyRef⟩, .retain ⟨1, 0, tyRef⟩]
    Cleanups := [⟨.rvalue ⟨1, 0, tyRef⟩, .active⟩] }

/-- A tuple type without default values: `(B)`. -/
def shapeNoDefault : List TupleTypeElt :=
  [.mk (.nominal 11) none none]

/-- The application of the sample function to the parenthesized tuple `((1, 2))`. -/
def sampleApply : Expr :=
  .apply tySlice sampleInjection
    (.paren (.tuple [.mk tyInt none none, .mk tyInt none none])
      (.tuple (.tuple [.mk tyInt none none, .mk tyInt none none])
        [.integerLiteral tyInt 1, .integerLiteral tyInt 2]))

/-- The type `(T, Int)`. -/
def tyPair : Ty := .tuple [.mk tyRef none none, .mk tyInt none none]

/-- A global constant `p` of the tuple type `(T, Int)`. -/
def declPair : ValueDecl := .mk 3 tyPair false

/-- A global variable `q` of the tuple type `(T, Int)`. -/
def declPairVar : ValueDecl := .mk 4 (.lvalue tyPair) false

/-- The promotion of the literal 5 to the shape `(A default=d, C...)` at the variadic
field 1. -/
def promoteToVariadic : Expr :=
  .scalarToTuple (.tuple [.mk (.nominal 10) (some sampleDefault) none,
      .mk tySlice none (some tyInt)])
    (.integerLiteral tyInt 5) 1 (some sampleInjection)

/-- The application of the sample function to the parenthesized promotion of the literal 5 to
the shape `(A default=d, B, C...)` at field 1. -/
def sampleApplyPromotion : Expr :=
  .apply tySlice sampleInjection (.paren (.tuple shapeDefaultScalarVariadic) samplePromotion)

/-- A local constant `n` of the trivial type `Int`. -/
def declN : ValueDecl := .mk 5 tyInt true

/-- A state in which the value of the local constant `n` (instruction 0) is recorded. -/
def genWithN : SILGenFunction :=
  { insts := [.integerLiteral tyInt 3]
    hasValidInsertionPoint := true
    Cleanups := []
    VarLocs := fun _ => none
    LocalConstants := fun id => if id = 5 then some ⟨0, 0, tyInt⟩ else none }

/-- A local variable `t` of the tuple type `(T, Int)`. -/
def declT : ValueDecl := .mk 6 (.lvalue tyPair) true

/-- A state in which the box of `t` has been allocated (instruction 0) and recorded. -/
def genWithT : SILGenFunction :=
  { insts := [.allocBox tyPair]
    hasValidInsertionPoint := true
    Cleanups := []
    VarLocs := fun id =>
      if id = 6 then some ⟨some ⟨0, 0, .objectPointer⟩, ⟨0, 1, .lvalue tyPair⟩⟩ else none
    LocalConstants := fun _ => none }

/-- The materialization of `t.0`, the first element of the loaded value of `t`. -/
def materializeFirstOfT : Expr :=
  .materialize (.lvalue tyRef)
    (.tupleElement tyRef (.load tyPair (.declRef (.lvalue tyPair) declT)) 0)

/-- A global function `f` from `T` to `T`. -/
def declF : ValueDecl := .mk 101 (.function tyRef tyRef) false

/-- The call `f(x)` on the loaded value of `x`. -/
def callOnX : Expr :=
  .apply tyRef (.declRef (.function tyRef tyRef) declF) loadX

theorem buildShuffleMask_acc (sf : Nat) (fields : List TupleTypeElt) (i : Nat) (acc : List Int) :
    buildShuffleMask sf fields i acc = acc ++ buildShuffleMask sf fields i [] := by
  induction fields generalizing i acc with
  | nil => simp [buildShuffleMask]
  | cons f fs ih =>
    simp only [buildShuffleMask]
    rw [ih]
    conv_rhs => rw [ih]
    by_cases hv : f.isVararg = true <;> by_cases hi : i = sf <;> simp [hv, hi]

@[simp] theorem isVarargAt_nil (n : Nat) : isVarargAt [] n = false := by
  simp [isVarargAt]

@[simp] theorem isVarargAt_zero (f : TupleTypeElt) (fs : List TupleTypeElt) :
    isVarargAt (f :: fs) 0 = f.isVararg := by
  simp [isVarargAt]

@[simp] theorem isVarargAt_succ (f : TupleTypeElt) (fs : List TupleTypeElt) (n : Nat) :
    isVarargAt (f :: fs) (n + 1) = isVarargAt fs n := by
  simp [isVarargAt]

theorem buildShuffleMask_length (sf : Nat) (fields : List TupleTypeElt) (i : Nat) :
    (buildShuffleMask sf fields i []).length =
      fields.length + (if i ≤ sf ∧ isVarargAt fields (sf - i) = true then 1 else 0) := by
  induction fields generalizing i with
  | nil => simp [buildShuffleMask]
  | cons f fs ih =>
    simp only [buildShuffleMask]
    rw [buildShuffleMask_acc, List.length_append, ih]
    rcases Nat.lt_trichotomy i sf with hlt | heq | hgt
    · have h1 : sf - i = (sf - (i + 1)) + 1 := by omega
      have h2 : i ≠ sf := by omega
      have h3 : i ≤ sf := by omega
      have h4 : i + 1 ≤ sf := by omega
      rw [h1, isVarargAt_succ]
      by_cases hv : f.isVararg = true <;> simp [hv, h2, h3, h4] <;> omega
    · subst heq
      by_cases hv : f.isVararg = true <;> simp [hv] <;> omega
    · have h1 : sf - i = 0 := by omega
      have h2 : i ≠ sf := by omega
      have h3 : ¬ i ≤ sf := by omega
      have h4 : ¬ i + 1 ≤ sf := by omega
      rw [h1]
      by_cases hv : f.isVararg = true <;> simp [hv, h2, h3, h4] <;> omega


@[simp] theorem ok_bind {ε α β : Type} (a : α) (f : α → Except ε β) :
    (Except.ok a >>= f) = f a := rfl

@[simp] theorem error_bind {ε α β : Type} (e : ε) (f : α → Except ε β) :
    ((Except.error e : Except ε α) >>= f) = Except.error e := rfl

theorem indexInOps_of_range (InOps : List Value) (m : Int) (h0 : 0 ≤ m)
    (h1 : m < InOps.length) : ∃ v, indexInOps InOps m = some v ∧ InOps[m.toNat]? = some v := by
  have hlt : m.toNat < InOps.length := by omega
  refine ⟨InOps[m.toNat], ?_, by simp [hlt]⟩
  have : ¬ m < 0 := by omega
  simp [indexInOps, this, hlt]

theorem emitTupleShuffleFields_indices (X : Externals) (visit : Visitor) (InOps : List Value)
    (inj : Option Expr) (fields : List TupleTypeElt) :
    ∀ (mapping : List Int) (vals acc : List Value) (gen : SILGenFunction),
      mapping.length = fields.length →
      List.Forall₂ (fun m v => 0 ≤ m ∧ indexInOps InOps m = some v) mapping vals →
      emitTupleShuffleFields X visit InOps inj fields mapping acc gen = .ok (acc ++ vals, gen) := by
  induction fields with
  | nil =>
    intro mapping vals acc gen hlen h
    cases mapping with
    | nil => cases h; simp [emitTupleShuffleFields]
    | cons m ms => simp at hlen
  | cons f fs ih =>
    intro mapping vals acc gen hlen h
    cases h with
    | nil => simp at hlen
    | cons hm hrest =>
      rename_i m v ms vs
      have h1 : m ≠ -1 := by omega
      have h2 : m ≠ -2 := by omega
      simp only [emitTupleShuffleFields, h1, h2, hm.2, if_false, ne_eq, not_false_eq_true, if_true]
      rw [ih ms vs (acc ++ [v]) gen (by simpa using hlen) hrest]
      simp


theorem emit_eq_emitAll (gen : SILGenFunction) (i : Inst) : gen.emit i = gen.emitAll [i] := rfl

@[simp] theorem emitAll_nil (gen : SILGenFunction) : gen.emitAll [] = gen := by
  simp [SILGenFunction.emitAll]

@[simp] theorem emitAll_emitAll (gen : SILGenFunction) (a b : List Inst) :
    (gen.emitAll a).emitAll b = gen.emitAll (a ++ b) := by
  simp [SILGenFunction.emitAll]

@[simp] theorem emitAll_insts (gen : SILGenFunction) (a : List Inst) :
    (gen.emitAll a).insts = gen.insts ++ a := rfl

@[simp] theorem emitAll_Cleanups (gen : SILGenFunction) (a : List Inst) :
    (gen.emitAll a).Cleanups = gen.Cleanups := rfl

@[simp] theorem emitAll_VarLocs (gen : SILGenFunction) (a : List Inst) :
    (gen.emitAll a).VarLocs = gen.VarLocs := rfl

@[simp] theorem emitAll_LocalConstants (gen : SILGenFunction) (a : List Inst) :
    (gen.emitAll a).LocalConstants = gen.LocalConstants := rfl

theorem emitVarargStores_ok (X : Externals) (InOps : List Value) (base : Value) (first : Nat)
    (srcs : List Int) :
    ∀ (vals : List Value) (k : Nat) (gen : SILGenFunction),
      List.Forall₂ (fun s v => 0 ≤ s ∧ InOps[s.toNat]? = some v) srcs vals →
      gen.insts.length = first + (2 * k - 1) →
      emitVarargStores X InOps base srcs k gen =
        .ok (gen.emitAll (slotStores X base first k vals)) := by
  induction srcs with
  | nil =>
    intro vals k gen h _
    cases h
    simp [emitVarargStores, slotStores]
  | cons s ss ih =>
    intro vals k gen h hpos
    cases h with
    | cons hs hrest =>
      rename_i v vs
      have hidx : indexInOps InOps s = some v := by
        have : ¬ s < 0 := by omega
        simp [indexInOps, this, hs.2]
      by_cases hk : k = 0
      · subst hk
        simp only [emitVarargStores, ne_eq, not_true_eq_false, if_false, hidx]
        rw [ih vs 1 _ hrest (by simp [B.createStore, SILGenFunction.emit]; omega)]
        simp [slotStores, B.createStore, emit_eq_emitAll]
      · simp only [emitVarargStores, ne_eq, hk, not_false_eq_true, if_true, hidx]
        rw [ih vs (k + 1) _ hrest
          (by simp [B.createStore, B.createIndexAddr, SILGenFunction.emit]; omega)]
        have hdef : first + 2 * k - 1 = first + (2 * k - 1) := by omega
        simp [slotStores, hk, variadicSlot, B.createStore, B.createIndexAddr,
          emit_eq_emitAll, SILGenFunction.nextValue, hpos, hdef]

theorem slotStores_length (X : Externals) (base : Value) (first : Nat) (vals : List Value) :
    ∀ k, (slotStores X base first k vals).length =
      if k = 0 then 2 * vals.length - 1 else 2 * vals.length := by
  induction vals with
  | nil => intro k; simp [slotStores]
  | cons v vs ih =>
    intro k
    by_cases hk : k = 0
    · simp [slotStores, hk, ih]; omega
    · simp [slotStores, hk, ih]; omega

theorem slotStores_countP_store (X : Externals) (base : Value) (first : Nat)
    (vals : List Value) :
    ∀ k, (slotStores X base first k vals).countP Inst.isStore = vals.length := by
  induction vals with
  | nil => intro k; simp [slotStores]
  | cons v vs ih =>
    intro k
    by_cases hk : k = 0 <;>
      simp [slotStores, hk, ih, List.countP_cons, Inst.isStore]

theorem slotStores_countP_allocArray (X : Externals) (base : Value) (first : Nat)
    (vals : List Value) :
    ∀ k, (slotStores X base first k vals).countP Inst.isAllocArray = 0 := by
  induction vals with
  | nil => intro k; simp [slotStores]
  | cons v vs ih =>
    intro k
    by_cases hk : k = 0 <;>
      simp [slotStores, hk, ih, List.countP_cons, Inst.isAllocArray]

theorem emitTupleShuffleFields_append (X : Externals) (visit : Visitor) (InOps : List Value)
    (inj : Option Expr) (pre : List TupleTypeElt) :
    ∀ (mpre : List Int) (fs : List TupleTypeElt) (ms : List Int) (acc : List Value)
      (gen : SILGenFunction),
      mpre.length = pre.length → (∀ m ∈ mpre, m ≠ -2) →
      emitTupleShuffleFields X visit InOps inj (pre ++ fs) (mpre ++ ms) acc gen =
        (emitTupleShuffleFields X visit InOps inj pre mpre acc gen >>= fun r =>
          emitTupleShuffleFields X visit InOps inj fs ms r.1 r.2) := by
  induction pre with
  | nil =>
    intro mpre fs ms acc gen hlen _
    cases mpre with
    | nil => simp [emitTupleShuffleFields]
    | cons m ms => simp at hlen
  | cons f pre ih =>
    intro mpre fs ms acc gen hlen hne
    cases mpre with
    | nil => simp at hlen
    | cons m mpre =>
      have hm : m ≠ -2 := hne m (by simp)
      have hne2 : ∀ m ∈ mpre, m ≠ -2 := fun x hx => hne x (by simp [hx])
      have hlen2 : mpre.length = pre.length := by simpa using hlen
      simp only [List.cons_append, emitTupleShuffleFields]
      by_cases h1 : m = -1
      · simp only [h1, if_true]
        cases hinit : f.getInit with
        | none => simp
        | some e =>
          simp only
          cases hv : visit e gen with
          | error err => simp
          | ok r =>
            simp only [ok_bind]
            exact ih mpre fs ms _ _ hlen2 hne2
      · simp only [h1, if_false, ne_eq, hm, not_false_eq_true, if_true]
        cases hidx : indexInOps InOps m with
        | none => simp
        | some v =>
          simp only
          exact ih mpre fs ms _ _ hlen2 hne2


theorem emitArrayInjectionCall_ok (X : Externals) (visit : Visitor) (obj base len : Value)
    (fnExpr : Expr) (gen g3 : SILGenFunction) (fnMV : ManagedValue)
    (hvisit : visit fnExpr (gen.emitAll (rawBaseConvert base)) = .ok (fnMV, g3)) :
    emitArrayInjectionCall X visit obj base len (some fnExpr) gen =
      .ok (managedRValueWithCleanup X
        ⟨g3.insts.length, 0,
          X.resultType (.apply fnMV.value [rawBasePtr base gen.insts.length, obj, len]) 0⟩
        (g3.emit (.apply fnMV.value [rawBasePtr base gen.insts.length, obj, len]))) := by
  by_cases hraw : base.ty.isRawPointer = true
  · simp only [rawBaseConvert, hraw, if_true, emitAll_nil] at hvisit
    simp [emitArrayInjectionCall, hraw, hvisit, rawBasePtr, B.createApply,
      ManagedValue.getUnmanagedValue, SILGenFunction.nextValue]
  · simp only [rawBaseConvert, hraw] at hvisit
    simp [emitArrayInjectionCall, hraw, B.createConvert, emit_eq_emitAll,
      SILGenFunction.nextValue] at hvisit ⊢
    simp [hvisit, rawBasePtr, hraw, B.createApply, ManagedValue.getUnmanagedValue,
      SILGenFunction.nextValue, emit_eq_emitAll]

theorem managed_forward (X : Externals) (v : Value) (g : SILGenFunction) :
    ((managedRValueWithCleanup X v g).1.forward (managedRValueWithCleanup X v g).2).1 = v ∧
    ((managedRValueWithCleanup X v g).1.forward (managedRValueWithCleanup X v g).2).2.insts =
      g.insts := by
  unfold managedRValueWithCleanup
  split <;> simp [ManagedValue.forward, SILGenFunction.pushCleanup]

theorem managed_value_insts (X : Externals) (v : Value) (g : SILGenFunction) :
    (managedRValueWithCleanup X v g).1.value = v ∧
    (managedRValueWithCleanup X v g).2.insts = g.insts := by
  unfold managedRValueWithCleanup
  split <;> simp [SILGenFunction.pushCleanup]


theorem forall₂_length_eq {α β : Type} {R : α → β → Prop} {l₁ : List α}
    {l₂ : List β} (h : List.Forall₂ R l₁ l₂) : l₁.length = l₂.length := by
  induction h with
  | nil => rfl
  | cons _ _ ih => simp [ih]

theorem slotStores_filter_store (X : Externals) (base : Value) (first : Nat)
    (vals : List Value) :
    ∀ k, (slotStores X base first k vals).filter Inst.isStore =
      (vals.enumFrom k).map (fun p => Inst.store p.2 (variadicSlot X base first p.1)) := by
  induction vals with
  | nil => intro k; simp [slotStores]
  | cons v vs ih =>
    intro k
    by_cases hk : k = 0
    · subst hk
      simp [slotStores, ih, Inst.isStore, variadicSlot]
    · simp [slotStores, hk, ih, Inst.isStore, List.filter_cons]

theorem slotStores_indexAddr (X : Externals) (base : Value) (first : Nat) (vals : List Value) :
    ∀ k₀ k, k₀ ≤ k → k < k₀ + vals.length → 0 < k →
      (slotStores X base first k₀ vals)[2 * k - 1 - (2 * k₀ - 1)]? =
        some (Inst.indexAddr base k) := by
  induction vals with
  | nil => intro k₀ k h1 h2 _; simp at h2; omega
  | cons v vs ih =>
    intro k₀ k h1 h2 h3
    by_cases hk : k = k₀
    · subst hk
      have hk0 : k ≠ 0 := by omega
      simp [slotStores, hk0]
    · have h1' : k₀ + 1 ≤ k := by omega
      have h2' : k < k₀ + 1 + vs.length := by simp at h2; omega
      have := ih (k₀ + 1) k h1' h2' h3
      by_cases hk0 : k₀ = 0
      · subst hk0
        simp only [slotStores, if_true]
        rw [List.getElem?_append_right (by simp; omega)]
        simp at this ⊢
        rw [← this]
      · simp only [slotStores, hk0, if_false]
        rw [List.getElem?_append_right (by simp; omega)]
        rw [← this]
        congr 1
        simp
        omega


@[simp] theorem wrapAndForward_insts (X : Externals) (v : Value) (g : SILGenFunction) :
    (wrapAndForward X v g).insts = g.insts :=
  (managed_forward X v g).2

theorem emitTupleShuffleFields_vararg (X : Externals) (visit : Visitor) (injE : Expr)
    (InOps : List Value) (gen1 gen3 : SILGenFunction)
    (last : TupleTypeElt) (rest : List TupleTypeElt) (baseTy : Ty)
    (srcs : List Int) (elems vals : List Value) (fnMV : ManagedValue)
    (hlast : last.getVarargBaseTy = some baseTy)
    (hsrcs : List.Forall₂ (fun s v => 0 ≤ s ∧ InOps[s.toNat]? = some v) srcs vals)
    (hinj : visit injE (gen1.emitAll (variadicPackInsts X baseTy gen1.insts.length vals)) =
        .ok (fnMV, gen3)) :
    emitTupleShuffleFields X visit InOps (some injE) (last :: rest) (-2 :: srcs) elems gen1 =
      .ok (elems ++ [⟨gen3.insts.length, 0,
          X.resultType (injectionApply X baseTy gen1.insts.length srcs.length fnMV.value) 0⟩],
        wrapAndForward X ⟨gen3.insts.length, 0,
          X.resultType (injectionApply X baseTy gen1.insts.length srcs.length fnMV.value) 0⟩
          (gen3.emit (injectionApply X baseTy gen1.insts.length srcs.length fnMV.value))) := by
  have hN : srcs.length = vals.length := forall₂_length_eq hsrcs
  have hstores := emitVarargStores_ok X InOps (packBase X baseTy gen1.insts.length)
    (gen1.insts.length + 2) srcs vals 0
    (gen1.emitAll [.integerValue srcs.length (.builtinInteger 64),
      .allocArray baseTy (packLength gen1.insts.length)]) hsrcs (by simp)
  have hcall := emitArrayInjectionCall_ok X visit (packObject X baseTy gen1.insts.length)
    (packBase X baseTy gen1.insts.length) (packLength gen1.insts.length) injE
    (gen1.emitAll ([Inst.integerValue srcs.length (.builtinInteger 64),
          Inst.allocArray baseTy (packLength gen1.insts.length)] ++
          slotStores X (packBase X baseTy gen1.insts.length) (gen1.insts.length + 2) 0 vals))
    gen3 fnMV (by rw [← hinj]; simp [variadicPackInsts, hN])
  simp only [emitAll_emitAll] at hstores
  have hlenp : (gen1.emitAll ([Inst.integerValue srcs.length (.builtinInteger 64),
          Inst.allocArray baseTy (packLength gen1.insts.length)] ++
          slotStores X (packBase X baseTy gen1.insts.length) (gen1.insts.length + 2) 0
            vals)).insts.length = gen1.insts.length + 2 + (2 * srcs.length - 1) := by
    simp [slotStores_length, hN]; omega
  rw [hlenp] at hcall
  simp only [List.cons_append, List.nil_append, packBase, packObject, packLength]
    at hstores hcall
  simp only [emitTupleShuffleFields, hlast]
  simp only [B.createIntegerValueInst, B.createAllocArray, emit_eq_emitAll, emitAll_emitAll,
    SILGenFunction.nextValue, emitAll_insts, List.length_append, List.length_singleton,
    List.singleton_append, List.cons_append, List.nil_append]
  simp only [Int.reduceNeg, ↓reduceIte, ne_eq, not_true_eq_false]
  rw [hstores]
  simp only [ok_bind]
  rw [hcall]
  simp only [ok_bind, injectionApply, wrapAndForward, packBase, packObject, packLength,
    emit_eq_emitAll, pure, Except.pure]
  rw [(managed_forward X _ _).1, if_neg (by decide)]


theorem variadicPackInsts_countP_allocArray (X : Externals) (baseTy : Ty) (pos : Nat)
    (vals : List Value) :
    (variadicPackInsts X baseTy pos vals).countP Inst.isAllocArray = 1 := by
  unfold variadicPackInsts rawBaseConvert
  split <;>
    simp [List.countP_cons, List.countP_append, slotStores_countP_allocArray,
      Inst.isAllocArray]

theorem variadicPackInsts_filter_store (X : Externals) (baseTy : Ty) (pos : Nat)
    (vals : List Value) :
    (variadicPackInsts X baseTy pos vals).filter Inst.isStore =
      vals.enum.map (fun p =>
        Inst.store p.2 (variadicSlot X (packBase X baseTy pos) (pos + 2) p.1)) := by
  unfold variadicPackInsts rawBaseConvert
  split <;>
    simp [List.filter_cons, slotStores_filter_store, Inst.isStore, List.enum]

theorem variadicPackInsts_indexAddr (X : Externals) (baseTy : Ty) (pre : List Inst)
    (vals : List Value) (k : Nat) (h0 : 0 < k) (hk : k < vals.length) :
    (pre ++ variadicPackInsts X baseTy pre.length vals)[(variadicSlot X
        (packBase X baseTy pre.length) (pre.length + 2) k).defn]? =
      some (Inst.indexAddr (packBase X baseTy pre.length) k) := by
  have hk0 : k ≠ 0 := by omega
  have hidx := slotStores_indexAddr X (packBase X baseTy pre.length) (pre.length + 2) vals 0 k
    (by omega) (by omega) h0
  have hlen := slotStores_length X (packBase X baseTy pre.length) (pre.length + 2) vals 0
  simp only [if_true] at hlen
  simp only [variadicSlot, hk0, if_false, variadicPackInsts]
  rw [List.getElem?_append_right (by omega)]
  rw [List.getElem?_append_left (by simp [hlen]; omega)]
  rw [List.getElem?_append_right (by simp; omega)]
  rw [← hidx]
  congr 1
  simp
  omega


theorem buildShuffleMask_eq_spec (sf : Nat) (fields : List TupleTypeElt) :
    ∀ i, ¬ (i ≤ sf ∧ isVarargAt fields (sf - i) = true) →
      buildShuffleMask sf fields i [] = specScalarMapping sf fields i := by
  induction fields with
  | nil => intro i _; simp [buildShuffleMask, specScalarMapping]
  | cons f fs ih =>
    intro i h
    simp only [buildShuffleMask, specScalarMapping]
    rw [buildShuffleMask_acc]
    rcases Nat.lt_trichotomy i sf with hlt | heq | hgt
    · have h1 : sf - i = (sf - (i + 1)) + 1 := by omega
      have h2 : i ≠ sf := by omega
      rw [h1, isVarargAt_succ] at h
      rw [ih (i + 1) (fun hh => h ⟨by omega, hh.2⟩)]
      by_cases hv : f.isVararg = true <;> simp [hv, h2]
    · subst heq
      have hv : f.isVararg = false := by
        cases hf : f.isVararg with
        | false => rfl
        | true => exact absurd ⟨Nat.le_refl i, by simpa using hf⟩ h
      rw [ih (i + 1) (fun hh => by omega)]
      simp [hv]
    · have h2 : i ≠ sf := by omega
      rw [ih (i + 1) (fun hh => by omega)]
      by_cases hv : f.isVararg = true <;> simp [hv, h2]

theorem specScalarMapping_length (sf : Nat) (fields : List TupleTypeElt) :
    ∀ i, (specScalarMapping sf fields i).length = fields.length := by
  induction fields with
  | nil => intro i; rfl
  | cons f fs ih => intro i; simp [specScalarMapping, ih]

theorem specScalarMapping_getElem (sf : Nat) (fields : List TupleTypeElt) :
    ∀ i j f, fields[j]? = some f →
      (specScalarMapping sf fields i)[j]? =
        some (if i + j = sf then 0 else if f.isVararg then -2 else -1) := by
  induction fields with
  | nil => intro i j f h; simp at h
  | cons g gs ih =>
    intro i j f h
    cases j with
    | zero =>
      simp at h
      subst h
      simp [specScalarMapping]
    | succ j =>
      simp at h
      simp only [specScalarMapping, List.getElem?_cons_succ]
      rw [ih (i + 1) j f h]
      have : i + 1 + j = i + (j + 1) := by omega
      rw [this]

@[simp] theorem forward_fst (mv : ManagedValue) (g : SILGenFunction) :
    (mv.forward g).1 = mv.value := by
  unfold ManagedValue.forward
  split <;> rfl

@[simp] theorem forward_insts (mv : ManagedValue) (g : SILGenFunction) :
    (mv.forward g).2.insts = g.insts := by
  unfold ManagedValue.forward
  split <;> rfl

theorem range_forall₂_self (InOps : List Value) (vals : List Value) :
    ∀ (n : Nat) (pre : List Value), pre.length = n →
      List.Forall₂ (fun (m : Int) v => (pre ++ InOps)[m.toNat]? = some v)
        ((List.range' n InOps.length).map Int.ofNat) vals → vals = InOps := by
  induction InOps generalizing vals with
  | nil =>
    intro n pre _ h
    simp at h
    exact h
  | cons a as ih =>
    intro n pre hn h
    simp only [List.length_cons, List.range'_succ, List.map_cons] at h
    cases h with
    | cons h1 h2 =>
      rename_i v vs
      have hv : v = a := by
        have : (pre ++ a :: as)[n]? = some a := by
          rw [List.getElem?_append_right (by omega)]
          simp [hn]
        simp at h1
        rw [this] at h1
        exact (Option.some.inj h1).symm
      subst hv
      congr 1
      apply ih vs (n + 1) (pre ++ [v]) (by simp [hn])
      simpa using h2

@[simp] theorem emit_insts (gen : SILGenFunction) (i : Inst) :
    (gen.emit i).insts = gen.insts ++ [i] := rfl

theorem all_range_forall₂ (InOps : List Value) (ms : List Int)
    (h : ms.all (fun s => decide (0 ≤ s) && decide (s < (InOps.length : Int))) = true) :
    ∃ vals, List.Forall₂ (fun s v => 0 ≤ s ∧ InOps[s.toNat]? = some v) ms vals := by
  induction ms with
  | nil => exact ⟨[], .nil⟩
  | cons m ms ih =>
    simp only [List.all_cons, Bool.and_eq_true, decide_eq_true_eq] at h
    obtain ⟨vs, hvs⟩ := ih h.2
    obtain ⟨v, _, hv⟩ := indexInOps_of_range InOps m h.1.1 h.1.2
    exact ⟨v :: vs, .cons ⟨h.1.1, hv⟩ hvs⟩

theorem managed_tables (X : Externals) (v : Value) (g : SILGenFunction) :
    (managedRValueWithCleanup X v g).2.VarLocs = g.VarLocs ∧
    (managedRValueWithCleanup X v g).2.LocalConstants = g.LocalConstants := by
  unfold managedRValueWithCleanup
  split <;> simp [SILGenFunction.pushCleanup]

theorem emitRetainRValue_tables (X : Externals) (v : Value) (g : SILGenFunction) :
    (emitRetainRValue X v g).VarLocs = g.VarLocs ∧
    (emitRetainRValue X v g).LocalConstants = g.LocalConstants := by
  unfold emitRetainRValue
  split <;> simp [B.createRetain, SILGenFunction.emit]

theorem emitReferenceToDecl_located (X : Externals) (c : ValueDecl) (g : SILGenFunction)
    (h : (!c.getTypeOfReference.isLValue || (g.VarLocs c.id).isSome || !c.isLocalContext) = true) :
    ∃ mv g1, emitReferenceToDecl X c g = .ok (mv, g1) ∧ g1.VarLocs = g.VarLocs ∧
      g1.LocalConstants = g.LocalConstants := by
  unfold emitReferenceToDecl
  by_cases hl : c.getTypeOfReference.isLValue = true
  · simp only [hl, if_true]
    cases hv : g.VarLocs c.id with
    | some vl => exact ⟨_, _, rfl, rfl, rfl⟩
    | none =>
      have hloc : c.isLocalContext = false := by
        simpa [hl, hv] using h
      simp only [hloc]
      exact ⟨_, _, rfl, rfl, rfl⟩
  · simp only [hl]
    cases hc : g.LocalConstants c.id with
    | some k =>
      refine ⟨(managedRValueWithCleanup X k (emitRetainRValue X k g)).1,
        (managedRValueWithCleanup X k (emitRetainRValue X k g)).2, rfl, ?_, ?_⟩
      · rw [(managed_tables X _ _).1, (emitRetainRValue_tables X _ _).1]
      · rw [(managed_tables X _ _).2, (emitRetainRValue_tables X _ _).2]
    | none => exact ⟨_, _, rfl, rfl, rfl⟩

theorem emitReferenceToDecl_retains (X : Externals) (c : ValueDecl) (g g1 : SILGenFunction)
    (mv : ManagedValue) (h : emitReferenceToDecl X c g = .ok (mv, g1)) :
    ∃ new, g1.insts = g.insts ++ new ∧
      new.filter Inst.isRetain = referenceRetains X g.LocalConstants c := by
  unfold emitReferenceToDecl at h
  unfold referenceRetains
  by_cases hl : c.getTypeOfReference.isLValue = true
  · simp only [hl, if_true] at h ⊢
    cases hv : g.VarLocs c.id with
    | some vl =>
      simp only [hv, Except.ok.injEq, Prod.mk.injEq] at h
      exact ⟨[], by simp [← h.2], rfl⟩
    | none =>
      simp only [hv] at h
      by_cases hloc : c.isLocalContext = true
      · simp [hloc] at h
      · simp only [hloc, Bool.false_eq_true, if_false, Except.ok.injEq, Prod.mk.injEq] at h
        refine ⟨[Inst.constantRef (.ofDecl c), Inst.apply
          ⟨g.insts.length, 0, X.resultType (.constantRef (.ofDecl c)) 0⟩ []], ?_, ?_⟩
        · rw [← h.2]
          simp [B.createApply, B.createConstantRef, SILGenFunction.nextValue]
        · simp [List.filter_cons, Inst.isRetain]
  · simp only [hl, Bool.false_eq_true, if_false] at h ⊢
    cases hc : g.LocalConstants c.id with
    | some k =>
      simp only [hc, Except.ok.injEq] at h
      have hi := (managed_value_insts X k (emitRetainRValue X k g)).2
      rw [h] at hi
      simp only at hi
      by_cases hr : isReferenceCounted X k.ty = true
      · refine ⟨[Inst.retain k], ?_, by simp [hr, Inst.isRetain]⟩
        rw [hi]
        simp [emitRetainRValue, hr, B.createRetain]
      · refine ⟨[], ?_, by simp [hr]⟩
        rw [hi]
        simp [emitRetainRValue, hr]
    | none =>
      simp only [hc, Except.ok.injEq, Prod.mk.injEq] at h
      refine ⟨[Inst.constantRef (.ofDecl c)], ?_, by simp [List.filter_cons, Inst.isRetain]⟩
      rw [← h.2]
      simp [B.createConstantRef]

theorem killCleanup_state (cs : List CleanupEntry) :
    ∀ n, n < cs.length → ((killCleanup cs n)[n]?).map CleanupEntry.state = some .dead := by
  induction cs with
  | nil => intro n h; simp at h
  | cons c cs ih =>
    intro n h
    cases n with
    | zero => simp [killCleanup]
    | succ n =>
      simp only [killCleanup, List.getElem?_cons_succ]
      exact ih n (by simpa using h)

theorem killCleanup_length (cs : List CleanupEntry) :
    ∀ n, (killCleanup cs n).length = cs.length := by
  induction cs with
  | nil => intro n; rfl
  | cons c cs ih =>
    intro n
    cases n with
    | zero => simp [killCleanup]
    | succ n => simp [killCleanup, ih]

theorem materialize_emit (X : Externals) (tmp : Value) (g : SILGenFunction)
    (href : isReferenceCounted X (X.resultType (.load tmp) 0) = true) :
    (Cleanup.materialize tmp).emit X g =
      g.emitAll (materializeCleanupInsts X tmp g.insts.length) := by
  simp [Cleanup.emit, B.createLoad, emitReleaseRValue, href, B.createRelease,
    B.createDeallocVar, emit_eq_emitAll, SILGenFunction.nextValue, materializeCleanupInsts]

theorem emitRetainRValue_counted (X : Externals) (v : Value) (g : SILGenFunction)
    (h : isReferenceCounted X v.ty = true) : emitRetainRValue X v g = g.emit (.retain v) := by
  simp [emitRetainRValue, h, B.createRetain]

theorem managed_counted (X : Externals) (v : Value) (g : SILGenFunction)
    (h : isReferenceCounted X v.ty = true) :
    managedRValueWithCleanup X v g =
      (⟨v, some (g.Cleanups.length + 1)⟩,
        { g with Cleanups := g.Cleanups ++ [⟨.rvalue v, .active⟩] }) := by
  have : (v.ty.isLValue || X.isTrivial v.ty) = false := by
    simpa [isReferenceCounted] using h
  simp [managedRValueWithCleanup, this, SILGenFunction.pushCleanup,
    SILGenFunction.getCleanupsDepth]

theorem cleanup_emit_flag (X : Externals) (c : Cleanup) (g : SILGenFunction) :
    (c.emit X g).hasValidInsertionPoint = g.hasValidInsertionPoint := by
  cases c with
  | rvalue rv =>
    simp only [Cleanup.emit, emitReleaseRValue]
    split <;> rfl
  | materialize alloc =>
    simp only [Cleanup.emit, emitReleaseRValue, B.createLoad, B.createDeallocVar]
    split <;> rfl

theorem fireCleanups_flag (X : Externals) (cs : List CleanupEntry) :
    ∀ g, (fireCleanups X cs g).hasValidInsertionPoint = g.hasValidInsertionPoint := by
  induction cs with
  | nil => intro g; rfl
  | cons c cs ih =>
    intro g
    rcases c with ⟨c, st⟩
    cases st with
    | active => simp only [fireCleanups]; rw [ih, cleanup_emit_flag]
    | dead => simp only [fireCleanups]; rw [ih]

theorem forward_flag (mv : ManagedValue) (g : SILGenFunction) :
    (mv.forward g).2.hasValidInsertionPoint = g.hasValidInsertionPoint := by
  unfold ManagedValue.forward
  split <;> rfl

theorem emitVarargStores_negative (X : Externals) (InOps : List Value) (base : Value)
    (srcs : List Int) :
    ∀ (k : Nat) (gen : SILGenFunction), (∃ s ∈ srcs, s < 0) →
      emitVarargStores X InOps base srcs k gen = .error .indexOutOfRange := by
  induction srcs with
  | nil => intro k gen h; simp at h
  | cons s ss ih =>
    intro k gen h
    simp only [emitVarargStores]
    cases hidx : indexInOps InOps s with
    | none => rfl
    | some v =>
      simp only
      apply ih
      obtain ⟨x, hx, hneg⟩ := h
      rcases List.mem_cons.mp hx with rfl | hx'
      · simp [indexInOps, hneg] at hidx
      · exact ⟨x, hx', hneg⟩

theorem emitTupleShuffleFields_bad_entry (X : Externals) (visit : Visitor) (InOps : List Value)
    (inj : Option Expr) (f : TupleTypeElt) (rest : List TupleTypeElt) (m : Int)
    (mrest : List Int)
    (hbad : (m = -1 ∧ f.getInit = none) ∨ (m = -2 ∧ f.getVarargBaseTy = none))
    (pre : List TupleTypeElt) :
    ∀ (mpre : List Int) (acc : List Value) (gen : SILGenFunction), mpre.length = pre.length →
      ∃ e, emitTupleShuffleFields X visit InOps inj (pre ++ f :: rest) (mpre ++ m :: mrest)
        acc gen = .error e := by
  induction pre with
  | nil =>
    intro mpre acc gen hlen
    have : mpre = [] := List.length_eq_zero.mp hlen
    subst this
    rcases hbad with ⟨rfl, hinit⟩ | ⟨rfl, hva⟩
    · exact ⟨.assertionFailed, by simp [emitTupleShuffleFields, hinit]⟩
    · refine ⟨.assertionFailed, ?_⟩
      simp only [List.nil_append, emitTupleShuffleFields, hva]
      rw [if_neg (by decide)]
      simp
  | cons p pre ih =>
    intro mpre acc gen hlen
    cases mpre with
    | nil => simp at hlen
    | cons x mpre =>
      have hlen' : mpre.length = pre.length := by simpa using hlen
      simp only [List.cons_append, emitTupleShuffleFields]
      by_cases h1 : x = -1
      · simp only [h1, if_true]
        cases hinit : p.getInit with
        | none => exact ⟨_, rfl⟩
        | some d =>
          simp only
          cases hv : visit d gen with
          | error e => exact ⟨e, rfl⟩
          | ok r =>
            simp only [ok_bind]
            exact ih mpre _ _ hlen'
      · by_cases h2 : x = -2
        · subst h2
          rw [if_neg (by decide)]
          simp only [ne_eq, not_true_eq_false, if_false]
          cases hva : p.getVarargBaseTy with
          | none => exact ⟨_, rfl⟩
          | some baseTy =>
            simp only [List.append_eq]
            have hneg : ∃ s ∈ mpre ++ m :: mrest, s < 0 := by
              refine ⟨m, by simp, ?_⟩
              rcases hbad with ⟨rfl, _⟩ | ⟨rfl, _⟩ <;> decide
            rw [emitVarargStores_negative X InOps _ _ 0 _ hneg]
            exact ⟨_, rfl⟩
        · simp only [h1, h2, if_false, ne_eq, not_false_eq_true, if_true]
          cases hidx : indexInOps InOps x with
          | none => exact ⟨_, rfl⟩
          | some v =>
            simp only
            exact ih mpre _ _ hlen'

theorem visitAndForwardElements_of_inOrder (visit : Visitor) {es : List Expr}
    {g g2 : SILGenFunction} {vs : List Value} (h : ForwardedInOrder visit es g vs g2) :
    ∀ acc, visitAndForwardElements visit es acc g = .ok (acc ++ vs, g2) := by
  induction h with
  | nil g => intro acc; simp [visitAndForwardElements]
  | cons hv _ ih =>
    intro acc
    simp only [visitAndForwardElements, hv, ok_bind, forward_fst]
    rw [ih]
    simp

theorem inOrder_length (visit : Visitor) {es : List Expr} {g g2 : SILGenFunction}
    {vs : List Value} (h : ForwardedInOrder visit es g vs g2) : vs.length = es.length := by
  induction h with
  | nil g => rfl
  | cons _ _ ih => simp [ih]

theorem inOrder_countP_tuple (visit : Visitor)
    (hframe : ∀ e s r, visit e s = .ok r →
      r.2.insts.countP Inst.isTuple = s.insts.countP Inst.isTuple)
    {es : List Expr} {g g2 : SILGenFunction} {vs : List Value}
    (h : ForwardedInOrder visit es g vs g2) :
    g2.insts.countP Inst.isTuple = g.insts.countP Inst.isTuple := by
  induction h with
  | nil g => rfl
  | cons hv _ ih =>
    rw [ih, forward_insts]
    exact hframe _ _ _ hv

theorem buildShuffleMask_defaults (sf : Nat) (pre : List TupleTypeElt) :
    ∀ (i : Nat) (rest : List TupleTypeElt), (∀ f ∈ pre, f.isVararg = false) →
      i + pre.length ≤ sf →
      buildShuffleMask sf (pre ++ rest) i [] =
        List.replicate pre.length (-1) ++ buildShuffleMask sf rest (i + pre.length) [] := by
  induction pre with
  | nil => intro i rest _ _; simp
  | cons p pre ih =>
    intro i rest hva hle
    have hp : p.isVararg = false := hva p (by simp)
    have hi : i ≠ sf := by simp at hle; omega
    simp only [List.cons_append, buildShuffleMask, hp, hi, if_false, Bool.false_eq_true,
      Bool.not_false, if_true, List.nil_append, List.append_eq]
    rw [buildShuffleMask_acc, ih (i + 1) rest (fun f hf => hva f (by simp [hf]))
      (by simp at hle; omega)]
    have hidx : i + 1 + pre.length = i + (p :: pre).length := by simp; omega
    rw [hidx]
    simp [List.replicate_succ]

theorem visitApplyExpr_scalarToTuple_ok (X : Externals) (visit : Visitor) (fn arg : Expr)
    (ty : Ty) (sub : Expr) (scalarField : Nat) (inj : Option Expr)
    (gen g1 g2 : SILGenFunction) (fnMV subMV : ManagedValue)
    (harg : stripParen arg = .scalarToTuple ty sub scalarField inj)
    (hfn : visit fn gen = .ok (fnMV, g1))
    (hsub : visit sub (fnMV.forward g1).2 = .ok (subMV, g2)) :
    visitApplyExpr X visit fn arg gen =
      .ok (managedRValueWithCleanup X
        ⟨g2.insts.length, 0, X.resultType (.apply fnMV.value [subMV.value]) 0⟩
        ((subMV.forward g2).2.emit (.apply fnMV.value [subMV.value]))) := by
  simp only [visitApplyExpr, hfn, ok_bind, harg, hsub, forward_fst, forward_insts,
    B.createApply, SILGenFunction.nextValue, pure, Except.pure]

theorem emitRetainRValue_uncounted (X : Externals) (v : Value) (g : SILGenFunction)
    (h : isReferenceCounted X v.ty = false) : emitRetainRValue X v g = g := by
  simp [emitRetainRValue, h]

theorem managed_uncounted (X : Externals) (v : Value) (g : SILGenFunction)
    (h : isReferenceCounted X v.ty = false) :
    managedRValueWithCleanup X v g = (⟨v, none⟩, g) := by
  have : (v.ty.isLValue || X.isTrivial v.ty) = true := by
    unfold isReferenceCounted at h
    cases hh : (v.ty.isLValue || X.isTrivial v.ty) <;> simp [hh] at h ⊢
  simp [managedRValueWithCleanup, this]

theorem fireCleanups_append (X : Externals) (a b : List CleanupEntry) :
    ∀ g, fireCleanups X (a ++ b) g = fireCleanups X b (fireCleanups X a g) := by
  induction a with
  | nil => intro g; rfl
  | cons c cs ih =>
    intro g
    rcases c with ⟨c, st⟩
    cases st with
    | active => simp only [List.cons_append, fireCleanups, List.append_eq]; rw [ih]
    | dead => simp only [List.cons_append, fireCleanups, List.append_eq]; rw [ih]

theorem fireCleanups_killed (X : Externals) (cs : List CleanupEntry) :
    ∀ (h depth : Nat) (g : SILGenFunction), h < cs.length → depth ≤ h →
      fireCleanups X ((killCleanup cs h).drop depth).reverse g =
        fireCleanups X ((cs.eraseIdx h).drop depth).reverse g := by
  induction cs with
  | nil => intro h depth g hh; simp at hh
  | cons c cs ih =>
    intro h depth g hh hd
    cases h with
    | zero =>
      have : depth = 0 := by omega
      subst this
      simp only [killCleanup, List.drop_zero, List.reverse_cons, List.eraseIdx_cons_zero]
      rw [fireCleanups_append]
      rfl
    | succ h =>
      have hh' : h < cs.length := by simpa using hh
      cases depth with
      | zero =>
        have := ih h 0 g hh' (Nat.zero_le _)
        simp only [List.drop_zero] at this
        simp only [killCleanup, List.drop_zero, List.reverse_cons, List.eraseIdx_cons_succ]
        rw [fireCleanups_append, fireCleanups_append, this]
      | succ d =>
        simp only [killCleanup, List.drop_succ_cons, List.eraseIdx_cons_succ]
        exact ih h d g hh' (by omega)

theorem forward_Cleanups_length (mv : ManagedValue) (g : SILGenFunction) :
    (mv.forward g).2.Cleanups.length = g.Cleanups.length := by
  unfold ManagedValue.forward
  split
  · rfl
  · simp [killCleanup_length]

theorem endScope_pushed (X : Externals) (g : SILGenFunction) (c : Cleanup) (is : List Inst)
    (depth : Nat) (hd : depth ≤ g.Cleanups.length) :
    endScope X depth { g with insts := g.insts ++ is, Cleanups := g.Cleanups ++ [⟨c, .active⟩] } =
      { fireCleanups X (g.Cleanups.drop depth).reverse
          (c.emit X { g with insts := g.insts ++ is,
                             Cleanups := g.Cleanups ++ [⟨c, .active⟩] }) with
        Cleanups := g.Cleanups.take depth } := by
  simp only [endScope, List.drop_append_of_le_length hd, List.reverse_append,
    List.reverse_singleton, List.singleton_append, fireCleanups,
    List.take_append_of_le_length hd]

theorem sample_visited_cases (e : Expr)
    (he : (∃ f ∈ shapeDefaultScalarVariadic, f.getInit = some e) ∨
      some sampleInjection = some e) :
    e = sampleDefault ∨ e = sampleInjection := by
  rcases he with ⟨f, hf, hfe⟩ | he
  · simp only [shapeDefaultScalarVariadic, List.mem_cons, List.mem_singleton,
      List.not_mem_nil, or_false] at hf
    rcases hf with rfl | rfl | rfl
    · left
      simpa [TupleTypeElt.getInit] using hfe.symm
    · simp [TupleTypeElt.getInit] at hfe
    · simp [TupleTypeElt.getInit] at hfe
  · right
    simpa using he.symm

theorem emitReferenceToDecl_value_frame (X : Externals) (decl : ValueDecl)
    (s : SILGenFunction) (hl : decl.getTypeOfReference.isLValue = false) :
    ∃ r, emitReferenceToDecl X decl s = .ok r ∧
      r.2.insts.countP Inst.isTuple = s.insts.countP Inst.isTuple := by
  cases hc : s.LocalConstants decl.id with
  | none =>
    exact ⟨(⟨⟨s.insts.length, 0, X.resultType (.constantRef (.ofDecl decl)) 0⟩, none⟩,
        s.emit (.constantRef (.ofDecl decl))),
      by simp [emitReferenceToDecl, hl, hc, B.createConstantRef, SILGenFunction.nextValue],
      by simp [List.countP_append, Inst.isTuple]⟩
  | some c =>
    refine ⟨managedRValueWithCleanup X c (emitRetainRValue X c s),
      by simp [emitReferenceToDecl, hl, hc], ?_⟩
    rw [(managed_value_insts X _ _).2]
    unfold emitRetainRValue
    split
    · simp [B.createRetain, List.countP_append, Inst.isTuple]
    · rfl

theorem visit_sampleInjection_frame (s : SILGenFunction) :
    ∃ r, visit sampleX 1 sampleInjection s = .ok r ∧
      r.2.insts.countP Inst.isTuple = s.insts.countP Inst.isTuple :=
  emitReferenceToDecl_value_frame sampleX (.mk 100 (.function (.tuple []) tySlice) false) s rfl

theorem emitArrayInjectionCall_error (X : Externals) (visit : Visitor) (obj base len : Value)
    (fnExpr : Expr) (gen : SILGenFunction) (e : Abort)
    (hvisit : visit fnExpr (gen.emitAll (rawBaseConvert base)) = .error e) :
    emitArrayInjectionCall X visit obj base len (some fnExpr) gen = .error e := by
  by_cases hraw : base.ty.isRawPointer = true
  · simp only [rawBaseConvert, hraw, if_true, emitAll_nil] at hvisit
    simp [emitArrayInjectionCall, hraw, hvisit]
  · simp only [rawBaseConvert, hraw] at hvisit
    simp [emitArrayInjectionCall, hraw, B.createConvert, emit_eq_emitAll,
      SILGenFunction.nextValue] at hvisit ⊢
    simp [hvisit]

theorem emitTupleShuffleFields_vararg_error (X : Externals) (visit : Visitor) (injE : Expr)
    (InOps : List Value) (gen1 : SILGenFunction)
    (last : TupleTypeElt) (rest : List TupleTypeElt) (baseTy : Ty)
    (srcs : List Int) (elems vals : List Value) (e : Abort)
    (hlast : last.getVarargBaseTy = some baseTy)
    (hsrcs : List.Forall₂ (fun s v => 0 ≤ s ∧ InOps[s.toNat]? = some v) srcs vals)
    (hinj : visit injE (gen1.emitAll (variadicPackInsts X baseTy gen1.insts.length vals)) =
        .error e) :
    emitTupleShuffleFields X visit InOps (some injE) (last :: rest) (-2 :: srcs) elems gen1 =
      .error e := by
  have hN : srcs.length = vals.length := forall₂_length_eq hsrcs
  have hstores := emitVarargStores_ok X InOps (packBase X baseTy gen1.insts.length)
    (gen1.insts.length + 2) srcs vals 0
    (gen1.emitAll [.integerValue srcs.length (.builtinInteger 64),
      .allocArray baseTy (packLength gen1.insts.length)]) hsrcs (by simp)
  have hcall := emitArrayInjectionCall_error X visit (packObject X baseTy gen1.insts.length)
    (packBase X baseTy gen1.insts.length) (packLength gen1.insts.length) injE
    (gen1.emitAll ([Inst.integerValue srcs.length (.builtinInteger 64),
          Inst.allocArray baseTy (packLength gen1.insts.length)] ++
          slotStores X (packBase X baseTy gen1.insts.length) (gen1.insts.length + 2) 0 vals))
    e (by rw [← hinj]; simp [variadicPackInsts, hN])
  simp only [emitAll_emitAll] at hstores
  simp only [List.cons_append, List.nil_append, packBase, packObject, packLength]
    at hstores hcall
  simp only [emitTupleShuffleFields, hlast]
  simp only [B.createIntegerValueInst, B.createAllocArray, emit_eq_emitAll, emitAll_emitAll,
    SILGenFunction.nextValue, emitAll_insts, List.length_append, List.length_singleton,
    List.singleton_append, List.cons_append, List.nil_append]
  simp only [Int.reduceNeg, ↓reduceIte, ne_eq, not_true_eq_false]
  rw [hstores]
  simp only [ok_bind]
  rw [hcall]
  rw [if_neg (by decide)]
  rfl

theorem loweringFails_visit (X : Externals) (visit : Visitor) (InOps : List Value)
    (inj : Option Expr) {fields : List TupleTypeElt} {mapping : List Int}
    {g : SILGenFunction} {e : Abort}
    (h : LoweringFails X visit InOps inj fields mapping g e) :
    ∃ d s, ((∃ f ∈ fields, f.getInit = some d) ∨ inj = some d) ∧ visit d s = .error e := by
  induction h with
  | @default f fs ms g d e hinit hv =>
    exact ⟨d, g, Or.inl ⟨f, List.mem_cons_self _ _, hinit⟩, hv⟩
  | afterDefault _ _ _ ih =>
    obtain ⟨d, s, hd, hv⟩ := ih
    refine ⟨d, s, ?_, hv⟩
    rcases hd with ⟨f', hf', hfd⟩ | hd
    · exact Or.inl ⟨f', List.mem_cons_of_mem _ hf', hfd⟩
    · exact Or.inr hd
  | afterIndex _ _ _ ih =>
    obtain ⟨d, s, hd, hv⟩ := ih
    refine ⟨d, s, ?_, hv⟩
    rcases hd with ⟨f', hf', hfd⟩ | hd
    · exact Or.inl ⟨f', List.mem_cons_of_mem _ hf', hfd⟩
    · exact Or.inr hd
  | injection _ _ hinj hv => exact ⟨_, _, Or.inr hinj, hv⟩

theorem emitTupleShuffleFields_failure (X : Externals) (visit : Visitor)
    (InOps : List Value) (inj : Option Expr) (fields : List TupleTypeElt) :
    ∀ (mapping : List Int) (acc : List Value) (gen : SILGenFunction) (e : Abort),
      ((-2 : Int) ∉ mapping → fields.length ≤ mapping.length) →
      (∀ m ∈ mapping.takeWhile (fun m => m != -2),
        m = -1 ∨ m = -2 ∨ (0 ≤ m ∧ m < InOps.length)) →
      (∀ m ∈ (mapping.dropWhile (fun m => m != -2)).tail, 0 ≤ m ∧ m < InOps.length) →
      emitTupleShuffleFields X visit InOps inj fields mapping acc gen = .error e →
      (e = .readPastEnd ∨ e = .indexOutOfRange) →
      LoweringFails X visit InOps inj fields mapping gen e := by
  induction fields with
  | nil =>
    intro mapping acc gen e _ _ _ hres _
    simp [emitTupleShuffleFields] at hres
  | cons f fs ih =>
    intro mapping acc gen e hlen hbefore hafter hres hb
    cases mapping with
    | nil => simp at hlen
    | cons m ms =>
      by_cases h2 : m = -2
      · subst h2
        cases hva : f.getVarargBaseTy with
        | none =>
          exfalso
          simp only [emitTupleShuffleFields, hva] at hres
          rw [if_neg (by decide)] at hres
          simp only [ne_eq, not_true_eq_false, if_false, Except.error.injEq] at hres
          subst hres
          rcases hb with hb | hb <;> cases hb
        | some baseTy =>
          have hall : ms.all (fun s => decide (0 ≤ s) && decide (s < (InOps.length : Int))) =
              true := by
            rw [List.all_eq_true]
            intro x hx
            have := hafter x (by simpa using hx)
            simp [this.1, this.2]
          obtain ⟨vals, hvals⟩ := all_range_forall₂ InOps ms hall
          cases inj with
          | none =>
            exfalso
            simp only [emitTupleShuffleFields, hva] at hres
            rw [if_neg (by decide)] at hres
            simp only [ne_eq, not_true_eq_false, if_false] at hres
            rw [emitVarargStores_ok X InOps _ _ ms vals 0 _ hvals rfl] at hres
            simp only [ok_bind, emitArrayInjectionCall, error_bind,
              Except.error.injEq] at hres
            subst hres
            rcases hb with hb | hb <;> cases hb
          | some fnExpr =>
            cases hv : visit fnExpr
                (gen.emitAll (variadicPackInsts X baseTy gen.insts.length vals)) with
            | ok r =>
              exfalso
              rcases r with ⟨fnMV, g3⟩
              rw [emitTupleShuffleFields_vararg X visit fnExpr InOps gen g3 f fs baseTy ms acc
                vals fnMV hva hvals hv] at hres
              cases hres
            | error e' =>
              rw [emitTupleShuffleFields_vararg_error X visit fnExpr InOps gen f fs baseTy ms
                acc vals e' hva hvals hv] at hres
              cases hres
              exact .injection hva hvals rfl hv
      · have hm : m = -1 ∨ (0 ≤ m ∧ m < InOps.length) := by
          have := hbefore m (by simp [h2])
          rcases this with h | h | h
          · exact Or.inl h
          · exact absurd h h2
          · exact Or.inr h
        have hlen' : (-2 : Int) ∉ ms → fs.length ≤ ms.length := by
          intro hnot
          have := hlen (by
            intro hmem
            rcases List.mem_cons.mp hmem with h | h
            · exact h2 h.symm
            · exact hnot h)
          simpa using this
        have hbefore' : ∀ x ∈ ms.takeWhile (fun m => m != -2),
            x = -1 ∨ x = -2 ∨ (0 ≤ x ∧ x < InOps.length) := by
          intro x hx
          exact hbefore x (by simp [List.takeWhile_cons, h2, hx])
        have hafter' : ∀ x ∈ (ms.dropWhile (fun m => m != -2)).tail,
            0 ≤ x ∧ x < InOps.length := by
          intro x hx
          exact hafter x (by simpa [List.dropWhile_cons, h2] using hx)
        rcases hm with h1 | hrange
        · subst h1
          cases hinit : f.getInit with
          | none =>
            exfalso
            simp only [emitTupleShuffleFields, if_true, hinit, Except.error.injEq] at hres
            subst hres
            rcases hb with hb | hb <;> cases hb
          | some d =>
            cases hv : visit d gen with
            | error e' =>
              simp only [emitTupleShuffleFields, if_true, hinit, hv, error_bind,
                Except.error.injEq] at hres
              subst hres
              exact .default hinit hv
            | ok r =>
              rcases r with ⟨mv, g1⟩
              simp only [emitTupleShuffleFields, if_true, hinit, hv, ok_bind] at hres
              exact .afterDefault hinit hv (ih ms _ _ e hlen' hbefore' hafter' hres hb)
        · have h1 : m ≠ -1 := by omega
          obtain ⟨v, hv, hv'⟩ := indexInOps_of_range InOps m hrange.1 hrange.2
          simp only [emitTupleShuffleFields, h1, h2, if_false, ne_eq, not_false_eq_true,
            if_true, hv] at hres
          exact .afterIndex hrange.1 hv' (ih ms _ _ e hlen' hbefore' hafter' hres hb)

/-! ## The claims -/

/-- C1: let the destination shape end in a variadic field with base type `baseTy`, let the
mapping be `mpre ++ -2 :: srcs` with one entry of `mpre` per leading field, and let every
`srcs[k]` be an index into `InOps` with value `vals[k]`. Once the leading fields are lowered
(state `gen1`, values `elems`), `emitTupleShuffle` emits `variadicPackInsts`: an integer
value `N = srcs.length` and one array allocation of element type `baseTy` and that length,
then exactly `N` stores, the k-th writing `vals[k]` to slot k (slot 0 is the base address,
slot `k > 0` the result of `indexAddr base k`). It then lowers the injection function,
calls it, and builds the result tuple with the call result as last operand. -/
theorem emitTupleShuffle_variadic_pack (X : Externals) (visit : Visitor) (E injE : Expr)
    (InOps : List Value) (gen gen1 gen3 : SILGenFunction)
    (pre : List TupleTypeElt) (last : TupleTypeElt) (baseTy : Ty)
    (mpre srcs : List Int) (elems vals : List Value) (fnMV : ManagedValue)
    (hE : E.getType = .tuple (pre ++ [last]))
    (hlast : last.getVarargBaseTy = some baseTy)
    (hlen : mpre.length = pre.length)
    (hmpre : ∀ m ∈ mpre, m ≠ -2)
    (hpre : emitTupleShuffleFields X visit InOps (some injE) pre mpre [] gen = .ok (elems, gen1))
    (hsrcs : List.Forall₂ (fun s v => 0 ≤ s ∧ InOps[s.toNat]? = some v) srcs vals)
    (hinj : visit injE (gen1.emitAll (variadicPackInsts X baseTy gen1.insts.length vals)) =
        .ok (fnMV, gen3)) :
    ∃ mv gen',
      emitTupleShuffle X visit E InOps (mpre ++ -2 :: srcs) (some injE) gen = .ok (mv, gen') ∧
      (variadicPackInsts X baseTy gen1.insts.length vals).take 2 =
        [Inst.integerValue srcs.length (.builtinInteger 64),
          Inst.allocArray baseTy (packLength gen1.insts.length)] ∧
      (variadicPackInsts X baseTy gen1.insts.length vals).countP Inst.isAllocArray = 1 ∧
      (variadicPackInsts X baseTy gen1.insts.length vals).filter Inst.isStore =
        vals.enum.map (fun p => Inst.store p.2
          (variadicSlot X (packBase X baseTy gen1.insts.length) (gen1.insts.length + 2) p.1)) ∧
      vals.length = srcs.length ∧
      (∀ k, 0 < k → k < srcs.length →
        (gen1.insts ++ variadicPackInsts X baseTy gen1.insts.length vals)[(variadicSlot X
          (packBase X baseTy gen1.insts.length) (gen1.insts.length + 2) k).defn]? =
            some (Inst.indexAddr (packBase X baseTy gen1.insts.length) k)) ∧
      gen'.insts = gen3.insts ++
        [injectionApply X baseTy gen1.insts.length srcs.length fnMV.value,
          Inst.tuple E.getType (elems ++ [⟨gen3.insts.length, 0, X.resultType
            (injectionApply X baseTy gen1.insts.length srcs.length fnMV.value) 0⟩])] ∧
      mv.value = ⟨gen3.insts.length + 1, 0, E.getType⟩ := by
  have hN : srcs.length = vals.length := forall₂_length_eq hsrcs
  have hloop := emitTupleShuffleFields_append X visit InOps (some injE) pre mpre [last]
    (-2 :: srcs) [] gen hlen hmpre
  rw [hpre] at hloop
  simp only [ok_bind] at hloop
  rw [emitTupleShuffleFields_vararg X visit injE InOps gen1 gen3 last [] baseTy srcs elems vals
    fnMV hlast hsrcs hinj] at hloop
  have hres : emitTupleShuffle X visit E InOps (mpre ++ -2 :: srcs) (some injE) gen =
      .ok (managedRValueWithCleanup X ⟨gen3.insts.length + 1, 0, E.getType⟩
        ((wrapAndForward X ⟨gen3.insts.length, 0, X.resultType
            (injectionApply X baseTy gen1.insts.length srcs.length fnMV.value) 0⟩
          (gen3.emit (injectionApply X baseTy gen1.insts.length srcs.length fnMV.value))).emit
          (Inst.tuple E.getType (elems ++ [⟨gen3.insts.length, 0, X.resultType
            (injectionApply X baseTy gen1.insts.length srcs.length fnMV.value) 0⟩])))) := by
    simp only [emitTupleShuffle, hE, hloop, ok_bind, pure, Except.pure, B.createTuple,
      SILGenFunction.nextValue, wrapAndForward_insts, emit_eq_emitAll, emitAll_insts,
      List.length_append, List.length_singleton]
  have hmv := managed_value_insts X ⟨gen3.insts.length + 1, 0, E.getType⟩
    ((wrapAndForward X ⟨gen3.insts.length, 0, X.resultType
        (injectionApply X baseTy gen1.insts.length srcs.length fnMV.value) 0⟩
      (gen3.emit (injectionApply X baseTy gen1.insts.length srcs.length fnMV.value))).emit
      (Inst.tuple E.getType (elems ++ [⟨gen3.insts.length, 0, X.resultType
        (injectionApply X baseTy gen1.insts.length srcs.length fnMV.value) 0⟩])))
  rcases hm : managedRValueWithCleanup X ⟨gen3.insts.length + 1, 0, E.getType⟩
    ((wrapAndForward X ⟨gen3.insts.length, 0, X.resultType
        (injectionApply X baseTy gen1.insts.length srcs.length fnMV.value) 0⟩
      (gen3.emit (injectionApply X baseTy gen1.insts.length srcs.length fnMV.value))).emit
      (Inst.tuple E.getType (elems ++ [⟨gen3.insts.length, 0, X.resultType
        (injectionApply X baseTy gen1.insts.length srcs.length fnMV.value) 0⟩])))
    with ⟨mv, gen'⟩
  rw [hm] at hres hmv
  refine ⟨mv, gen', hres, ?_, variadicPackInsts_countP_allocArray X baseTy _ vals,
    variadicPackInsts_filter_store X baseTy _ vals, hN.symm, ?_, ?_, hmv.1⟩
  · simp [variadicPackInsts, hN]
  · intro k h0 hk
    exact variadicPackInsts_indexAddr X baseTy gen1.insts vals k h0 (by omega)
  · rw [hmv.2]
    simp [emit_eq_emitAll]

/-- C1 at the shape `(Int, Int...)`, source values `[1, 2, 3]` and mapping
`[0, VARIADIC_START, 1, 2]`: the array has length 2 and holds the values 2 and 3, and the
result tuple is built from the value 1 and the injected array. -/
theorem emitTupleShuffle_variadic_pack_witness :
    ∃ mv gen',
      emitTupleShuffle sampleX (visit sampleX 1) sampleShuffle threeInts [0, -2, 1, 2]
        (some sampleInjection) genThreeInts = .ok (mv, gen') ∧
      gen'.insts =
        [.integerLiteral tyInt 1, .integerLiteral tyInt 2, .integerLiteral tyInt 3,
          .integerValue 2 tyInt,
          .allocArray tyInt ⟨3, 0, tyInt⟩,
          .store ⟨1, 0, tyInt⟩ ⟨4, 1, .lvalue tyInt⟩,
          .indexAddr ⟨4, 1, .lvalue tyInt⟩ 1,
          .store ⟨2, 0, tyInt⟩ ⟨6, 0, .lvalue tyInt⟩,
          .convert ⟨4, 1, .lvalue tyInt⟩ .rawPointer,
          .constantRef (.ofDecl (.mk 100 (.function (.tuple []) tySlice) false)),
          .apply ⟨9, 0, .function (.tuple []) tySlice⟩
            [⟨8, 0, .rawPointer⟩, ⟨4, 0, .objectPointer⟩, ⟨3, 0, tyInt⟩],
          .tuple (.tuple shapeIntVariadic) [⟨0, 0, tyInt⟩, ⟨10, 0, tySlice⟩]] ∧
      mv.value = ⟨11, 0, .tuple shapeIntVariadic⟩ := by
  obtain ⟨mv, gen', h, _, _, _, _, _, hi, hv⟩ :=
    emitTupleShuffle_variadic_pack sampleX (visit sampleX 1) sampleShuffle sampleInjection
      threeInts genThreeInts genThreeInts
      (genThreeInts.emitAll
        (variadicPackInsts sampleX tyInt 3 [⟨1, 0, tyInt⟩, ⟨2, 0, tyInt⟩] ++
        [Inst.constantRef (.ofDecl (.mk 100 (.function (.tuple []) tySlice) false))]))
      [.mk tyInt none none] (.mk tySlice none (some tyInt)) tyInt [0] [1, 2]
      [⟨0, 0, tyInt⟩] [⟨1, 0, tyInt⟩, ⟨2, 0, tyInt⟩]
      ⟨⟨9, 0, .function (.tuple []) tySlice⟩, none⟩
      rfl rfl rfl (by decide) rfl
      (.cons ⟨by decide, rfl⟩ (.cons ⟨by decide, rfl⟩ .nil)) rfl
  exact ⟨mv, gen', h, hi, hv⟩

/-- C2, as stated, fails: for the shape `(A default=d, B, C...)` with the variadic field as
the scalar field (index 2) the synthesized mapping is `[-1, -1, -2, 0]`, so the entry at
the scalar field is `VARIADIC_START` and not source index 0. -/
theorem buildShuffleMask_scalar_variadic_entry :
    buildShuffleMask 2 shapeDefaultScalarVariadic 0 [] = [-1, -1, -2, 0] ∧
    (buildShuffleMask 2 shapeDefaultScalarVariadic 0 [])[2]? ≠ some 0 := by
  decide

/-- C2 (amended): when the scalar field is not a variadic field, the mapping synthesized by
`visitScalarToTupleExpr` has one entry per destination field: source index 0 at the scalar
field, `VARIADIC_START` (-2) at a variadic field and `DEFAULT` (-1) at every other field. -/
theorem buildShuffleMask_entries (scalarField : Nat) (fields : List TupleTypeElt)
    (hscalar : ∀ f, fields[scalarField]? = some f → f.isVararg = false) :
    (buildShuffleMask scalarField fields 0 []).length = fields.length ∧
    ∀ j f, fields[j]? = some f →
      (buildShuffleMask scalarField fields 0 [])[j]? =
        some (if j = scalarField then 0 else if f.isVararg then -2 else -1) := by
  have h : ¬ (0 ≤ scalarField ∧ isVarargAt fields (scalarField - 0) = true) := by
    intro hh
    have hv := hh.2
    simp only [Nat.sub_zero, isVarargAt] at hv
    cases hf : fields[scalarField]? with
    | none => simp [hf] at hv
    | some f => simp [hf, hscalar f hf] at hv
  rw [buildShuffleMask_eq_spec scalarField fields 0 h]
  refine ⟨specScalarMapping_length scalarField fields 0, fun j f hf => ?_⟩
  rw [specScalarMapping_getElem scalarField fields 0 j f hf]
  simp

/-- C2 (amended) at the shape `(A default=d, B, C...)` with scalar field 1: the mapping is
exactly `[DEFAULT, 0, VARIADIC_START]`. -/
theorem buildShuffleMask_entries_witness :
    buildShuffleMask 1 shapeDefaultScalarVariadic 0 [] = [-1, 0, -2] ∧
    (buildShuffleMask 1 shapeDefaultScalarVariadic 0 []).length =
      shapeDefaultScalarVariadic.length ∧
    (buildShuffleMask 1 shapeDefaultScalarVariadic 0 [])[0]? = some (-1) ∧
    (buildShuffleMask 1 shapeDefaultScalarVariadic 0 [])[1]? = some 0 ∧
    (buildShuffleMask 1 shapeDefaultScalarVariadic 0 [])[2]? = some (-2) :=
  have h := buildShuffleMask_entries 1 shapeDefaultScalarVariadic
    (fun f hf => by
      have : f = TupleTypeElt.mk (.nominal 11) none none := by
        simpa [shapeDefaultScalarVariadic] using hf.symm
      subst this
      rfl)
  ⟨by decide, h.1, h.2 0 _ rfl, h.2 1 _ rfl, h.2 2 _ rfl⟩

/-- C3, as stated, fails: for the shape `(C...)` with scalar field 0 the synthesized
mapping is `[-2, 0]`, two entries for one destination field. -/
theorem buildShuffleMask_length_scalar_variadic :
    buildShuffleMask 0 shapeOnlyVariadic 0 [] = [-2, 0] ∧
    (buildShuffleMask 0 shapeOnlyVariadic 0 []).length ≠ shapeOnlyVariadic.length := by
  decide

/-- C3 (amended): the mapping synthesized by `visitScalarToTupleExpr` has one entry per
destination field when the scalar field is not variadic, and exactly one entry more when
the scalar field is a variadic field. -/
theorem buildShuffleMask_length_eq (scalarField : Nat) (fields : List TupleTypeElt) :
    (buildShuffleMask scalarField fields 0 []).length =
      fields.length + (if isVarargAt fields scalarField = true then 1 else 0) := by
  simpa using buildShuffleMask_length scalarField fields 0

/-- C4: promotion of a scalar `x` into a shape `(A default=d, B, C...)` with scalar field 1
lowers `x`, then lowers and forwards `d`, allocates a zero-length array into which nothing
is stored, calls the injection function on it, and builds the tuple of the forwarded value
of `d`, the value `x` and the result of the injection call, in this order. -/
theorem visitScalarToTupleExpr_default_scalar_variadic (X : Externals) (visit : Visitor)
    (E sub d injE : Expr) (fA fB fC : TupleTypeElt) (cTy : Ty)
    (gen g1 g2 g3 : SILGenFunction) (subMV dMV fnMV : ManagedValue)
    (hE : E.getType = .tuple [fA, fB, fC])
    (hAinit : fA.getInit = some d)
    (hA : fA.getVarargBaseTy = none)
    (hB : fB.getVarargBaseTy = none)
    (hC : fC.getVarargBaseTy = some cTy)
    (hsub : visit sub gen = .ok (subMV, g1))
    (hd : visit d g1 = .ok (dMV, g2))
    (hinj : visit injE ((dMV.forward g2).2.emitAll (variadicPackInsts X cTy g2.insts.length [])) =
      .ok (fnMV, g3)) :
    ∃ mv gen',
      visitScalarToTupleExpr X visit E sub 1 (some injE) gen = .ok (mv, gen') ∧
      variadicPackInsts X cTy g2.insts.length [] =
        [Inst.integerValue 0 (.builtinInteger 64), Inst.allocArray cTy (packLength g2.insts.length)]
          ++ rawBaseConvert (packBase X cTy g2.insts.length) ∧
      (variadicPackInsts X cTy g2.insts.length []).filter Inst.isStore = [] ∧
      gen'.insts = g3.insts ++
        [injectionApply X cTy g2.insts.length 0 fnMV.value,
          Inst.tuple E.getType [dMV.value, subMV.value,
            ⟨g3.insts.length, 0,
              X.resultType (injectionApply X cTy g2.insts.length 0 fnMV.value) 0⟩]] ∧
      mv.value = ⟨g3.insts.length + 1, 0, E.getType⟩ := by
  have hmask : buildShuffleMask 1 [fA, fB, fC] 0 [] = [-1, 0, -2] := by
    simp [buildShuffleMask, TupleTypeElt.isVararg, hA, hB, hC]
  have hinj' : visit injE ((dMV.forward g2).2.emitAll
      (variadicPackInsts X cTy (dMV.forward g2).2.insts.length [])) = .ok (fnMV, g3) := by
    simpa using hinj
  have hlast := emitTupleShuffleFields_vararg X visit injE [subMV.value] (dMV.forward g2).2 g3
    fC [] cTy [] [dMV.value, subMV.value] [] fnMV hC .nil hinj'
  simp only [forward_insts, List.length_nil] at hlast
  have hloop : emitTupleShuffleFields X visit [subMV.value] (some injE) [fA, fB, fC]
      [-1, 0, -2] [] g1 = .ok ([dMV.value, subMV.value] ++
        [⟨g3.insts.length, 0,
          X.resultType (injectionApply X cTy g2.insts.length 0 fnMV.value) 0⟩],
        wrapAndForward X ⟨g3.insts.length, 0,
          X.resultType (injectionApply X cTy g2.insts.length 0 fnMV.value) 0⟩
          (g3.emit (injectionApply X cTy g2.insts.length 0 fnMV.value))) := by
    rw [← hlast]
    simp [emitTupleShuffleFields, hAinit, hd, indexInOps]
  have hmv := managed_value_insts X ⟨g3.insts.length + 1, 0, E.getType⟩
    ((wrapAndForward X ⟨g3.insts.length, 0,
        X.resultType (injectionApply X cTy g2.insts.length 0 fnMV.value) 0⟩
      (g3.emit (injectionApply X cTy g2.insts.length 0 fnMV.value))).emit
      (Inst.tuple E.getType [dMV.value, subMV.value, ⟨g3.insts.length, 0,
        X.resultType (injectionApply X cTy g2.insts.length 0 fnMV.value) 0⟩]))
  rcases hm : managedRValueWithCleanup X ⟨g3.insts.length + 1, 0, E.getType⟩
    ((wrapAndForward X ⟨g3.insts.length, 0,
        X.resultType (injectionApply X cTy g2.insts.length 0 fnMV.value) 0⟩
      (g3.emit (injectionApply X cTy g2.insts.length 0 fnMV.value))).emit
      (Inst.tuple E.getType [dMV.value, subMV.value, ⟨g3.insts.length, 0,
        X.resultType (injectionApply X cTy g2.insts.length 0 fnMV.value) 0⟩])) with ⟨mv, gen'⟩
  rw [hm] at hmv
  refine ⟨mv, gen', ?_, ?_, ?_, ?_, hmv.1⟩
  · simp only [visitScalarToTupleExpr, hsub, ok_bind, hE, hmask, emitTupleShuffle,
      ManagedValue.getValue, hloop, B.createTuple, SILGenFunction.nextValue,
      wrapAndForward_insts, emit_eq_emitAll, emitAll_insts, List.length_append,
      List.length_singleton, pure, Except.pure, List.cons_append, List.nil_append]
    rw [← hE, ← emit_eq_emitAll, ← emit_eq_emitAll, hm]
  · simp [variadicPackInsts, slotStores]
  · simp [variadicPackInsts_filter_store, List.enum]
  · rw [hmv.2]
    simp [emit_eq_emitAll]

/-- C4 at the promotion of the literal 5 to `(A default=7, B, C...)`: the instructions
emitted and the operands of the result tuple. -/
theorem visitScalarToTupleExpr_default_scalar_variadic_witness :
    ∃ mv gen',
      visitScalarToTupleExpr sampleX (visit sampleX 1) samplePromotion (.integerLiteral tyInt 5) 1
        (some sampleInjection) genEmpty = .ok (mv, gen') ∧
      gen'.insts =
        [.integerLiteral tyInt 5, .integerLiteral tyInt 7,
          .integerValue 0 tyInt,
          .allocArray (.nominal 12) ⟨2, 0, tyInt⟩,
          .convert ⟨3, 1, .lvalue (.nominal 12)⟩ .rawPointer,
          .constantRef (.ofDecl (.mk 100 (.function (.tuple []) tySlice) false)),
          .apply ⟨5, 0, .function (.tuple []) tySlice⟩
            [⟨4, 0, .rawPointer⟩, ⟨3, 0, .objectPointer⟩, ⟨2, 0, tyInt⟩],
          .tuple (.tuple shapeDefaultScalarVariadic)
            [⟨1, 0, tyInt⟩, ⟨0, 0, tyInt⟩, ⟨6, 0, tySlice⟩]] ∧
      mv.value = ⟨7, 0, .tuple shapeDefaultScalarVariadic⟩ := by
  obtain ⟨mv, gen', h, _, _, hi, hv⟩ :=
    visitScalarToTupleExpr_default_scalar_variadic sampleX (visit sampleX 1) samplePromotion
      (.integerLiteral tyInt 5) sampleDefault sampleInjection
      (.mk (.nominal 10) (some sampleDefault) none) (.mk (.nominal 11) none none)
      (.mk tySlice none (some (.nominal 12))) (.nominal 12)
      genEmpty (genEmpty.emitAll [Inst.integerLiteral tyInt 5])
      (genEmpty.emitAll [Inst.integerLiteral tyInt 5, Inst.integerLiteral tyInt 7])
      (genEmpty.emitAll [Inst.integerLiteral tyInt 5, Inst.integerLiteral tyInt 7,
        Inst.integerValue 0 tyInt,
        Inst.allocArray (.nominal 12) ⟨2, 0, tyInt⟩,
        Inst.convert ⟨3, 1, .lvalue (.nominal 12)⟩ .rawPointer,
        Inst.constantRef (.ofDecl (.mk 100 (.function (.tuple []) tySlice) false))])
      ⟨⟨0, 0, tyInt⟩, none⟩ ⟨⟨1, 0, tyInt⟩, none⟩
      ⟨⟨5, 0, .function (.tuple []) tySlice⟩, none⟩
      rfl rfl rfl rfl rfl rfl rfl rfl
  exact ⟨mv, gen', h, hi, hv⟩

/-- C5: for a mapping that has one entry per destination field and holds only in-range
source indices, `emitTupleShuffle` succeeds, emits the tuple instruction and nothing else,
and the j-th operand of the tuple is `InOps[mapping[j]]`; for the identity mapping the
operands are the source values themselves. -/
theorem emitTupleShuffle_indices_only (X : Externals) (visit : Visitor) (E : Expr)
    (fields : List TupleTypeElt) (InOps : List Value) (mapping : List Int)
    (inj : Option Expr) (gen : SILGenFunction)
    (hE : E.getType = .tuple fields)
    (hlen : mapping.length = fields.length)
    (hidx : ∀ m ∈ mapping, 0 ≤ m ∧ m < InOps.length) :
    ∃ vals mv gen',
      emitTupleShuffle X visit E InOps mapping inj gen = .ok (mv, gen') ∧
      gen'.insts = gen.insts ++ [Inst.tuple E.getType vals] ∧
      mv.value = ⟨gen.insts.length, 0, E.getType⟩ ∧
      List.Forall₂ (fun m v => InOps[m.toNat]? = some v) mapping vals ∧
      (mapping = (List.range InOps.length).map Int.ofNat → vals = InOps) := by
  have hvals : ∃ vals, List.Forall₂ (fun m v => 0 ≤ m ∧ indexInOps InOps m = some v ∧
      InOps[m.toNat]? = some v) mapping vals := by
    clear hlen
    induction mapping with
    | nil => exact ⟨[], .nil⟩
    | cons m ms ih =>
      obtain ⟨vs, hvs⟩ := ih (fun x hx => hidx x (by simp [hx]))
      obtain ⟨v, hv1, hv2⟩ := indexInOps_of_range InOps m (hidx m (by simp)).1
        (hidx m (by simp)).2
      exact ⟨v :: vs, .cons ⟨(hidx m (by simp)).1, hv1, hv2⟩ hvs⟩
  obtain ⟨vals, hvals⟩ := hvals
  have hloop := emitTupleShuffleFields_indices X visit InOps inj fields mapping vals [] gen hlen
    (hvals.imp (fun _ _ h => ⟨h.1, h.2.1⟩))
  have hmv := managed_value_insts X ⟨gen.insts.length, 0, E.getType⟩
    (gen.emit (Inst.tuple E.getType vals))
  rcases hm : managedRValueWithCleanup X ⟨gen.insts.length, 0, E.getType⟩
    (gen.emit (Inst.tuple E.getType vals)) with ⟨mv, gen'⟩
  rw [hm] at hmv
  have hget : List.Forall₂ (fun m v => InOps[m.toNat]? = some v) mapping vals :=
    hvals.imp (fun _ _ h => h.2.2)
  refine ⟨vals, mv, gen', ?_, ?_, hmv.1, hget, ?_⟩
  · simp only [emitTupleShuffle, hE, hloop, ok_bind, List.nil_append, B.createTuple,
      SILGenFunction.nextValue, pure, Except.pure]
    rw [← hE, hm]
  · rw [hmv.2]
    rfl
  · intro hid
    rw [hid] at hget
    have := range_forall₂_self InOps vals 0 [] rfl
    simp only [List.nil_append] at this
    apply this
    rw [← List.range_eq_range']
    exact hget

/-- C5 at the identity mapping on three source values and the shape `(Int, Int, Int)`. -/
theorem emitTupleShuffle_indices_only_witness :
    ∃ vals mv gen',
      emitTupleShuffle sampleX (visit sampleX 0)
        (.unhandled (.tuple [.mk tyInt none none, .mk tyInt none none, .mk tyInt none none]) 0)
        threeInts [0, 1, 2] none genThreeInts = .ok (mv, gen') ∧
      gen'.insts = genThreeInts.insts ++
        [Inst.tuple (.tuple [.mk tyInt none none, .mk tyInt none none, .mk tyInt none none])
          vals] ∧
      mv.value =
        ⟨3, 0, .tuple [.mk tyInt none none, .mk tyInt none none, .mk tyInt none none]⟩ ∧
      vals = threeInts := by
  obtain ⟨vals, mv, gen', h1, h2, h3, _, h5⟩ :=
    emitTupleShuffle_indices_only sampleX (visit sampleX 0)
      (.unhandled (.tuple [.mk tyInt none none, .mk tyInt none none, .mk tyInt none none]) 0)
      [.mk tyInt none none, .mk tyInt none none, .mk tyInt none none]
      threeInts [0, 1, 2] none genThreeInts rfl rfl (by decide)
  exact ⟨vals, mv, gen', h1, h2, h3, h5 rfl⟩

/-- C7 fails on the code: lowering the promotion of a loaded class reference `x` to the
tuple type `(T)` emits one retain (on the loaded value, instruction 1) and leaves two
release obligations pending that both release it: the loaded value itself and the tuple
that holds it. The sibling `visitTupleExpr` forwards the element and leaves only the
release of the tuple pending. -/
theorem visit_promoteLoadX_unbalanced :
    (∃ gen', visit sampleX 3 promoteLoadX genWithX =
        .ok (⟨⟨3, 0, .tuple [.mk tyRef none none]⟩, some 2⟩, gen') ∧
      gen'.insts = [.allocBox tyRef, .load ⟨0, 1, .lvalue tyRef⟩,
        .retain ⟨1, 0, tyRef⟩, .tuple (.tuple [.mk tyRef none none]) [⟨1, 0, tyRef⟩]] ∧
      gen'.insts.countP Inst.isRetain = 1 ∧
      pendingReleases gen'.Cleanups =
        [⟨1, 0, tyRef⟩, ⟨3, 0, .tuple [.mk tyRef none none]⟩]) ∧
    (∃ gen', visit sampleX 3 tupleLoadX genWithX =
        .ok (⟨⟨3, 0, .tuple [.mk tyRef none none]⟩, some 2⟩, gen') ∧
      gen'.insts = [.allocBox tyRef, .load ⟨0, 1, .lvalue tyRef⟩,
        .retain ⟨1, 0, tyRef⟩, .tuple (.tuple [.mk tyRef none none]) [⟨1, 0, tyRef⟩]] ∧
      gen'.insts.countP Inst.isRetain = 1 ∧
      pendingReleases gen'.Cleanups = [⟨3, 0, .tuple [.mk tyRef none none]⟩]) :=
  ⟨⟨_, rfl, rfl, rfl, rfl⟩, ⟨_, rfl, rfl, rfl, rfl⟩⟩

/-- C8 fails on the code at the scalar-to-tuple call site: the sub-expression is lowered to
a value with an active release cleanup (handle 1); `visitScalarToTupleExpr` hands this value
to `emitTupleShuffle` in the very state the sub-expression left, and after the value was
placed into the result tuple its cleanup is still active. -/
theorem visitScalarToTupleExpr_source_not_forwarded :
    ∃ g1 gen',
      visit sampleX 2 loadX genWithX = .ok (⟨⟨1, 0, tyRef⟩, some 1⟩, g1) ∧
      g1.Cleanups = [⟨.rvalue ⟨1, 0, tyRef⟩, .active⟩] ∧
      visitScalarToTupleExpr sampleX (visit sampleX 2) promoteLoadX loadX 0 none genWithX =
        emitTupleShuffle sampleX (visit sampleX 2) promoteLoadX [⟨1, 0, tyRef⟩] [0] none g1 ∧
      emitTupleShuffle sampleX (visit sampleX 2) promoteLoadX [⟨1, 0, tyRef⟩] [0] none g1 =
        .ok (⟨⟨3, 0, .tuple [.mk tyRef none none]⟩, some 2⟩, gen') ∧
      gen'.insts.getLast? = some (.tuple (.tuple [.mk tyRef none none]) [⟨1, 0, tyRef⟩]) ∧
      gen'.Cleanups = [⟨.rvalue ⟨1, 0, tyRef⟩, .active⟩,
        ⟨.rvalue ⟨3, 0, .tuple [.mk tyRef none none]⟩, .active⟩] :=
  ⟨_, _, rfl, rfl, rfl, rfl, rfl, rfl⟩

/-- C10, as stated, fails: for a nested function that captures the boxed variable `v` and
the local function `k`, held as a local pre-computed constant, two retains are emitted: one
on the box of `v` and one on the value of `k`. -/
theorem emitClosureForCapturingExpr_two_retains :
    ∃ (mv : ManagedValue) (gen' : SILGenFunction),
      emitClosureForCapturingExpr sampleX (.ofExpr sampleFunc) sampleFunc genWithVK =
        .ok (mv, gen') ∧
      gen'.insts = genWithVK.insts ++
        [Inst.retain ⟨0, 0, .objectPointer⟩,
          Inst.retain ⟨1, 0, .function (.tuple []) tyInt⟩,
          Inst.constantRef (.ofExpr sampleFunc),
          Inst.closure ⟨4, 0, .function (.tuple []) tyInt⟩
            [⟨0, 0, .objectPointer⟩, ⟨0, 1, .lvalue tyInt⟩,
              ⟨1, 0, .function (.tuple []) tyInt⟩]] ∧
      gen'.insts.countP Inst.isRetain = 2 :=
  ⟨_, _, rfl, rfl, rfl⟩

/-- C10 (amended): when a nested function captures a boxed variable `v` and a constant `k`,
the capture loop itself emits exactly one retain, on the box of `v`; resolving `k` through
`emitReferenceToDecl` emits one more retain, on the stored value of `k`, exactly when `k` is
not of address type and is a local pre-computed constant of reference-counted type. These
are all the retains emitted. -/
theorem emitClosureForCapturingExpr_retains (X : Externals) (constant : SILConstant)
    (body : Expr) (gen : SILGenFunction) (v k : ValueDecl) (vl : VarLoc) (box : Value)
    (hcap : body.getCaptures = [v, k])
    (hv : X.declCaptureKind v = .LValue)
    (hk : X.declCaptureKind k = .Constant)
    (hvl : gen.VarLocs v.id = some vl)
    (hbox : vl.box = some box)
    (hkloc : captureLocated X gen.VarLocs k = true) :
    ∃ (mv : ManagedValue) (gen' : SILGenFunction) (new : List Inst),
      emitClosureForCapturingExpr X constant body gen = .ok (mv, gen') ∧
      gen'.insts = gen.insts ++ new ∧
      new.filter Inst.isRetain =
        Inst.retain box :: referenceRetains X gen.LocalConstants k := by
  have hkloc' : (!k.getTypeOfReference.isLValue ||
      ((B.createRetain box gen).VarLocs k.id).isSome || !k.isLocalContext) = true := by
    simpa [captureLocated, hk] using hkloc
  obtain ⟨kMV, g1, hres, _, _⟩ :=
    emitReferenceToDecl_located X k (B.createRetain box gen) hkloc'
  obtain ⟨newK, hnewK, hfilter⟩ := emitReferenceToDecl_retains X k _ g1 kMV hres
  have hloop : emitCaptures X [v, k] [] gen =
      .ok ([box, vl.address, kMV.value], (kMV.forward g1).2) := by
    simp [emitCaptures, hv, hk, hvl, hbox, hres]
  have hmv := managed_value_insts X ⟨g1.insts.length + 1, 0, X.resultType (Inst.closure
      ⟨g1.insts.length, 0, X.resultType (.constantRef constant) 0⟩
      [box, vl.address, kMV.value]) 0⟩
    (((kMV.forward g1).2.emit (.constantRef constant)).emit (Inst.closure
      ⟨g1.insts.length, 0, X.resultType (.constantRef constant) 0⟩
      [box, vl.address, kMV.value]))
  rcases hm : managedRValueWithCleanup X ⟨g1.insts.length + 1, 0, X.resultType (Inst.closure
      ⟨g1.insts.length, 0, X.resultType (.constantRef constant) 0⟩
      [box, vl.address, kMV.value]) 0⟩
    (((kMV.forward g1).2.emit (.constantRef constant)).emit (Inst.closure
      ⟨g1.insts.length, 0, X.resultType (.constantRef constant) 0⟩
      [box, vl.address, kMV.value])) with ⟨mv, gen'⟩
  rw [hm] at hmv
  refine ⟨mv, gen', [Inst.retain box] ++ newK ++ [Inst.constantRef constant, Inst.closure
      ⟨g1.insts.length, 0, X.resultType (.constantRef constant) 0⟩
      [box, vl.address, kMV.value]], ?_, ?_, ?_⟩
  · simp only [emitClosureForCapturingExpr, hcap, List.isEmpty_cons, Bool.not_false, if_true,
      hloop, ok_bind, B.createConstantRef, B.createClosure, SILGenFunction.nextValue,
      emit_insts, forward_insts, List.length_append, List.length_singleton, pure, Except.pure]
    rw [hm]
  · rw [hmv.2]
    simp [hnewK, B.createRetain]
  · have hL : (B.createRetain box gen).LocalConstants = gen.LocalConstants := rfl
    rw [hL] at hfilter
    simp [List.filter_cons, Inst.isRetain, hfilter]

/-- C10 (amended) at a nested function that captures the boxed variable `v` and the local
function `k`: the retains emitted are the one on the box of `v` and the one on `k`. -/
theorem emitClosureForCapturingExpr_retains_witness :
    ∃ (mv : ManagedValue) (gen' : SILGenFunction) (new : List Inst),
      emitClosureForCapturingExpr sampleX (.ofExpr sampleFunc) sampleFunc genWithVK =
        .ok (mv, gen') ∧
      gen'.insts = genWithVK.insts ++ new ∧
      new.filter Inst.isRetain =
        [Inst.retain ⟨0, 0, .objectPointer⟩,
          Inst.retain ⟨1, 0, .function (.tuple []) tyInt⟩] :=
  emitClosureForCapturingExpr_retains sampleX (.ofExpr sampleFunc) sampleFunc genWithVK
    declV declK ⟨some ⟨0, 0, .objectPointer⟩, ⟨0, 1, .lvalue tyInt⟩⟩
    ⟨0, 0, .objectPointer⟩
    rfl rfl rfl rfl rfl rfl

/-- C11: for every value `v`, `managedRValueWithCleanup` returns `v` with no cleanup handle
and leaves the state (hence the cleanup stack) unchanged when the type of `v` is an address
type or a trivial type; otherwise it pushes exactly one cleanup, the release of `v`, on top
of the stack and returns `v` with the handle equal to the depth of the stack right after the
push, which is the position of the entry just pushed. -/
theorem managedRValueWithCleanup_cases (X : Externals) (v : Value) (gen : SILGenFunction) :
    ((v.ty.isLValue = true ∨ X.isTrivial v.ty = true) →
      managedRValueWithCleanup X v gen = (⟨v, none⟩, gen)) ∧
    (v.ty.isLValue = false → X.isTrivial v.ty = false →
      managedRValueWithCleanup X v gen =
        (⟨v, some (gen.Cleanups.length + 1)⟩,
          { gen with Cleanups := gen.Cleanups ++ [⟨.rvalue v, .active⟩] }) ∧
      (managedRValueWithCleanup X v gen).1.cleanup =
        some (managedRValueWithCleanup X v gen).2.getCleanupsDepth ∧
      (managedRValueWithCleanup X v gen).2.Cleanups[gen.Cleanups.length]? =
        some ⟨.rvalue v, .active⟩) := by
  constructor
  · intro h
    have : (v.ty.isLValue || X.isTrivial v.ty) = true := by
      rcases h with h | h <;> simp [h]
    simp [managedRValueWithCleanup, this]
  · intro h1 h2
    have : (v.ty.isLValue || X.isTrivial v.ty) = false := by simp [h1, h2]
    simp [managedRValueWithCleanup, this, SILGenFunction.pushCleanup,
      SILGenFunction.getCleanupsDepth]

/-- C11 in the state `genWithX`, whose cleanup stack is empty: a value of type `Int` is
returned with no handle and the state is unchanged; for a value of class type one release
cleanup is pushed and the handle is 1. -/
theorem managedRValueWithCleanup_cases_witness :
    managedRValueWithCleanup sampleX ⟨0, 0, tyInt⟩ genWithX = (⟨⟨0, 0, tyInt⟩, none⟩, genWithX) ∧
    (managedRValueWithCleanup sampleX ⟨0, 0, tyRef⟩ genWithX).1 = ⟨⟨0, 0, tyRef⟩, some 1⟩ ∧
    (managedRValueWithCleanup sampleX ⟨0, 0, tyRef⟩ genWithX).2.Cleanups =
      [⟨.rvalue ⟨0, 0, tyRef⟩, .active⟩] :=
  have h1 := (managedRValueWithCleanup_cases sampleX ⟨0, 0, tyInt⟩ genWithX).1 (Or.inr rfl)
  have h2 := ((managedRValueWithCleanup_cases sampleX ⟨0, 0, tyRef⟩ genWithX).2 rfl rfl).1
  ⟨h1, by rw [h2]; rfl, by rw [h2]; rfl⟩

/-- C12, as stated, fails: materializing `t.0`, the first element of the loaded value of the
variable `t`, leaves three entries on the cleanup stack (the release of the loaded tuple,
still active because the projection borrows its base; the dead release of the element; the
cleanup of the temporary), and leaving the scope emits two releases, not one: the release
of the value loaded from the temporary and the release of the loaded tuple. -/
theorem visit_materializeFirstOfT_two_releases :
    ∃ S : SILGenFunction,
      visit sampleX 4 materializeFirstOfT genWithT = .ok (⟨⟨5, 0, .lvalue tyRef⟩, none⟩, S) ∧
      S.insts = [.allocBox tyPair, .load ⟨0, 1, .lvalue tyPair⟩, .retain ⟨1, 0, tyPair⟩,
        .extract ⟨1, 0, tyPair⟩ 0 tyRef, .retain ⟨3, 0, tyRef⟩,
        .allocVar .stack tyRef, .store ⟨3, 0, tyRef⟩ ⟨5, 0, .lvalue tyRef⟩] ∧
      S.Cleanups = [⟨.rvalue ⟨1, 0, tyPair⟩, .active⟩, ⟨.rvalue ⟨3, 0, tyRef⟩, .dead⟩,
        ⟨.materialize ⟨5, 0, .lvalue tyRef⟩, .active⟩] ∧
      (endScope sampleX 0 S).insts = S.insts ++
        [.load ⟨5, 0, .lvalue tyRef⟩, .release ⟨7, 0, tyRef⟩,
          .deallocVar .stack ⟨5, 0, .lvalue tyRef⟩, .release ⟨1, 0, tyPair⟩] :=
  ⟨_, rfl, rfl, rfl, rfl⟩

/-- C12 (amended): let the sub-expression be lowered to a value `mv` of reference-counted
type in state `g1`. Then `visitMaterializeExpr` returns the address of the temporary with no
cleanup handle; if `mv` carries a release obligation, that entry is dead afterwards, and if it
carries none the cleanup stack of `g1` is kept; exactly one cleanup is pushed on top, and
firing it emits, in order, a load of the temporary, a release of the loaded value and a
stack deallocation of the temporary; forwarding the returned address changes nothing. When
a scope that contains the materialization is left (any depth up to the stack of `g1`), that
cleanup fires first and once, then the remaining entries of the scope fire; the dead
obligation of `mv` emits nothing, so what follows is what the other entries of `g1` emit. The
builder types a load of the temporary with the type of the stored value (`hload`). -/
theorem visitMaterializeExpr_cleanup (X : Externals) (visit : Visitor) (sub : Expr)
    (gen g1 : SILGenFunction) (mv : ManagedValue)
    (hsub : visit sub gen = .ok (mv, g1))
    (href : isReferenceCounted X mv.value.ty = true)
    (hload : X.resultType (.load (materializeTemp X mv.value g1.insts.length)) 0 =
      mv.value.ty) :
    visitMaterializeExpr X visit sub gen =
      .ok (⟨materializeTemp X mv.value g1.insts.length, none⟩,
        materializedState X (mv.forward g1).2 mv.value) ∧
    (∀ h, mv.cleanup = some (h + 1) → h < g1.Cleanups.length →
      (mv.forward g1).2.Cleanups = killCleanup g1.Cleanups h ∧
      ((materializedState X (mv.forward g1).2 mv.value).Cleanups[h]?).map CleanupEntry.state =
        some .dead) ∧
    (mv.cleanup = none → (mv.forward g1).2 = g1) ∧
    (materializedState X (mv.forward g1).2 mv.value).Cleanups =
      (mv.forward g1).2.Cleanups ++
        [⟨.materialize (materializeTemp X mv.value g1.insts.length), .active⟩] ∧
    (materializedState X (mv.forward g1).2 mv.value).Cleanups.length =
      g1.Cleanups.length + 1 ∧
    (∀ g, (Cleanup.materialize (materializeTemp X mv.value g1.insts.length)).emit X g =
      g.emitAll (materializeCleanupInsts X (materializeTemp X mv.value g1.insts.length)
        g.insts.length)) ∧
    (ManagedValue.forward ⟨materializeTemp X mv.value g1.insts.length, none⟩
      (materializedState X (mv.forward g1).2 mv.value)).2 =
        materializedState X (mv.forward g1).2 mv.value ∧
    (∀ depth, depth ≤ g1.Cleanups.length →
      endScope X depth (materializedState X (mv.forward g1).2 mv.value) =
        { fireCleanups X ((mv.forward g1).2.Cleanups.drop depth).reverse
            ((materializedState X (mv.forward g1).2 mv.value).emitAll
              (materializeCleanupInsts X (materializeTemp X mv.value g1.insts.length)
                (g1.insts.length + 2))) with
          Cleanups := (mv.forward g1).2.Cleanups.take depth }) ∧
    (∀ h depth g, mv.cleanup = some (h + 1) → h < g1.Cleanups.length → depth ≤ h →
      fireCleanups X ((mv.forward g1).2.Cleanups.drop depth).reverse g =
        fireCleanups X ((g1.Cleanups.eraseIdx h).drop depth).reverse g) := by
  have href' : isReferenceCounted X
      (X.resultType (.load (materializeTemp X mv.value g1.insts.length)) 0) = true := by
    rw [hload]; exact href
  have hkill : ∀ h, mv.cleanup = some (h + 1) →
      (mv.forward g1).2.Cleanups = killCleanup g1.Cleanups h := by
    intro h hc
    simp [ManagedValue.forward, hc]
  have hS : (materializedState X (mv.forward g1).2 mv.value).Cleanups =
      (mv.forward g1).2.Cleanups ++
        [⟨.materialize (materializeTemp X mv.value g1.insts.length), .active⟩] := by
    simp [materializedState]
  refine ⟨?_, ?_, ?_, hS, ?_, fun g => materialize_emit X _ g href', rfl, ?_, ?_⟩
  · simp only [visitMaterializeExpr, hsub, ok_bind, B.createAllocVar, B.createStore,
      SILGenFunction.nextValue, forward_fst, forward_insts, pure, Except.pure,
      materializedState, materializeTemp, SILGenFunction.pushCleanup,
      SILGenFunction.emit, List.append_assoc, List.singleton_append]
  · intro h hc hh
    refine ⟨hkill h hc, ?_⟩
    rw [hS, hkill h hc, List.getElem?_append_left (by simpa [killCleanup_length] using hh)]
    exact killCleanup_state g1.Cleanups h hh
  · intro hc
    simp [ManagedValue.forward, hc]
  · rw [hS]
    simp [forward_Cleanups_length]
  · intro depth hd
    have hd' : depth ≤ (mv.forward g1).2.Cleanups.length := by
      rw [forward_Cleanups_length]; exact hd
    have h := endScope_pushed X (mv.forward g1).2
      (.materialize (materializeTemp X mv.value g1.insts.length))
      [Inst.allocVar .stack mv.value.ty,
        Inst.store mv.value (materializeTemp X mv.value g1.insts.length)] depth hd'
    rw [materialize_emit X _ _ href'] at h
    simp only [forward_insts, List.length_append, List.length_cons, List.length_nil] at h
    simpa [materializedState] using h
  · intro h depth g hc hh hd
    rw [hkill h hc]
    exact fireCleanups_killed X g1.Cleanups h depth g hh hd

/-- C12 (amended) at the materialization of the call result `f(x)`: the releases of the
loaded argument and of the call result are dead, and leaving the scope emits one load, one
release and one deallocation. -/
theorem visitMaterializeExpr_cleanup_witness :
    visit sampleX 4 (.materialize (.lvalue tyRef) callOnX) genWithX =
      .ok (⟨⟨5, 0, .lvalue tyRef⟩, none⟩,
        { genWithX with
          insts := [.allocBox tyRef, .constantRef (.ofDecl declF),
            .load ⟨0, 1, .lvalue tyRef⟩, .retain ⟨2, 0, tyRef⟩,
            .apply ⟨1, 0, .function tyRef tyRef⟩ [⟨2, 0, tyRef⟩],
            .allocVar .stack tyRef, .store ⟨4, 0, tyRef⟩ ⟨5, 0, .lvalue tyRef⟩]
          Cleanups := [⟨.rvalue ⟨2, 0, tyRef⟩, .dead⟩, ⟨.rvalue ⟨4, 0, tyRef⟩, .dead⟩,
            ⟨.materialize ⟨5, 0, .lvalue tyRef⟩, .active⟩] }) ∧
    endScope sampleX 0
        { genWithX with
          insts := [.allocBox tyRef, .constantRef (.ofDecl declF),
            .load ⟨0, 1, .lvalue tyRef⟩, .retain ⟨2, 0, tyRef⟩,
            .apply ⟨1, 0, .function tyRef tyRef⟩ [⟨2, 0, tyRef⟩],
            .allocVar .stack tyRef, .store ⟨4, 0, tyRef⟩ ⟨5, 0, .lvalue tyRef⟩]
          Cleanups := [⟨.rvalue ⟨2, 0, tyRef⟩, .dead⟩, ⟨.rvalue ⟨4, 0, tyRef⟩, .dead⟩,
            ⟨.materialize ⟨5, 0, .lvalue tyRef⟩, .active⟩] } =
      { genWithX with
        insts := [.allocBox tyRef, .constantRef (.ofDecl declF),
          .load ⟨0, 1, .lvalue tyRef⟩, .retain ⟨2, 0, tyRef⟩,
          .apply ⟨1, 0, .function tyRef tyRef⟩ [⟨2, 0, tyRef⟩],
          .allocVar .stack tyRef, .store ⟨4, 0, tyRef⟩ ⟨5, 0, .lvalue tyRef⟩,
          .load ⟨5, 0, .lvalue tyRef⟩, .release ⟨7, 0, tyRef⟩,
          .deallocVar .stack ⟨5, 0, .lvalue tyRef⟩]
        Cleanups := [] } :=
  have h := visitMaterializeExpr_cleanup sampleX (visit sampleX 3) callOnX genWithX
    { genWithX with
      insts := [.allocBox tyRef, .constantRef (.ofDecl declF),
        .load ⟨0, 1, .lvalue tyRef⟩, .retain ⟨2, 0, tyRef⟩,
        .apply ⟨1, 0, .function tyRef tyRef⟩ [⟨2, 0, tyRef⟩]]
      Cleanups := [⟨.rvalue ⟨2, 0, tyRef⟩, .dead⟩, ⟨.rvalue ⟨4, 0, tyRef⟩, .active⟩] }
    ⟨⟨4, 0, tyRef⟩, some 2⟩ rfl rfl rfl
  ⟨h.1.trans rfl, (h.2.2.2.2.2.2.2.1 0 (Nat.zero_le _)).trans rfl⟩

/-- C13, as stated, fails: the local constant `n` of the trivial type `Int` is not
address-typed and is a local pre-computed constant, yet its stored value is returned with the
state unchanged: no retain is emitted. -/
theorem emitReferenceToDecl_trivial_constant :
    emitReferenceToDecl sampleX declN genWithN = .ok (⟨⟨0, 0, tyInt⟩, none⟩, genWithN) ∧
    declN.getTypeOfReference.isLValue = false ∧
    genWithN.LocalConstants declN.id = some ⟨0, 0, tyInt⟩ ∧
    genWithN.insts.countP Inst.isRetain = 0 := by
  refine ⟨rfl, rfl, rfl, by decide⟩

/-- C13 (amended): `emitReferenceToDecl` resolves a declaration by cases. (1) If its reference
type is an address type and it has a recorded location, the recorded address is returned with
no cleanup and the state is unchanged. (2) If it is not address-typed and is a local
constant, the stored value is returned wrapped by `managedRValueWithCleanup` after
`emitRetainRValue` ran once on it: for a value of reference-counted type exactly one retain on
it is emitted and its release cleanup is pushed; for any other value nothing is emitted and
the value is returned with no cleanup. (3) If it is not address-typed and not a local
constant, exactly one constant reference is emitted and returned with no cleanup. -/
theorem emitReferenceToDecl_cases (X : Externals) (decl : ValueDecl) (gen : SILGenFunction) :
    (∀ vl, decl.getTypeOfReference.isLValue = true → gen.VarLocs decl.id = some vl →
      emitReferenceToDecl X decl gen = .ok (⟨vl.address, none⟩, gen)) ∧
    (∀ constant, decl.getTypeOfReference.isLValue = false →
      gen.LocalConstants decl.id = some constant →
      emitReferenceToDecl X decl gen =
        .ok (managedRValueWithCleanup X constant (emitRetainRValue X constant gen)) ∧
      (isReferenceCounted X constant.ty = true →
        emitReferenceToDecl X decl gen =
          .ok (⟨constant, some (gen.Cleanups.length + 1)⟩,
            { gen with
              insts := gen.insts ++ [Inst.retain constant]
              Cleanups := gen.Cleanups ++ [⟨.rvalue constant, .active⟩] })) ∧
      (isReferenceCounted X constant.ty = false →
        emitReferenceToDecl X decl gen = .ok (⟨constant, none⟩, gen))) ∧
    (decl.getTypeOfReference.isLValue = false → gen.LocalConstants decl.id = none →
      emitReferenceToDecl X decl gen =
        .ok (⟨⟨gen.insts.length, 0, X.resultType (.constantRef (.ofDecl decl)) 0⟩, none⟩,
          gen.emit (.constantRef (.ofDecl decl)))) := by
  refine ⟨?_, ?_, ?_⟩
  · intro vl hl hv
    simp [emitReferenceToDecl, hl, hv]
  · intro constant hl hc
    have hres : emitReferenceToDecl X decl gen =
        .ok (managedRValueWithCleanup X constant (emitRetainRValue X constant gen)) := by
      simp [emitReferenceToDecl, hl, hc]
    refine ⟨hres, fun h => ?_, fun h => ?_⟩
    · rw [hres, emitRetainRValue_counted X _ _ h, managed_counted X _ _ h]
      simp [SILGenFunction.emit]
    · rw [hres, emitRetainRValue_uncounted X _ _ h, managed_uncounted X _ _ h]
  · intro hl hc
    simp [emitReferenceToDecl, hl, hc, B.createConstantRef, SILGenFunction.nextValue]

/-- C13 (amended) at the located variable `x`, at the local function `k` held as a local
constant (one retain), at the local constant `n` of type `Int` (no retain), and at `k` in a
state that holds no local constant. -/
theorem emitReferenceToDecl_cases_witness :
    emitReferenceToDecl sampleX declX genWithX = .ok (⟨⟨0, 1, .lvalue tyRef⟩, none⟩, genWithX) ∧
    emitReferenceToDecl sampleX declK genWithVK =
      .ok (⟨⟨1, 0, .function (.tuple []) tyInt⟩, some 1⟩,
        { genWithVK with
          insts := genWithVK.insts ++ [Inst.retain ⟨1, 0, .function (.tuple []) tyInt⟩]
          Cleanups := [⟨.rvalue ⟨1, 0, .function (.tuple []) tyInt⟩, .active⟩] }) ∧
    emitReferenceToDecl sampleX declN genWithN = .ok (⟨⟨0, 0, tyInt⟩, none⟩, genWithN) ∧
    emitReferenceToDecl sampleX declK genEmpty =
      .ok (⟨⟨0, 0, .function (.tuple []) tyInt⟩, none⟩,
        genEmpty.emit (.constantRef (.ofDecl declK))) :=
  ⟨(emitReferenceToDecl_cases sampleX declX genWithX).1 _ rfl rfl,
    (((emitReferenceToDecl_cases sampleX declK genWithVK).2.1
      ⟨1, 0, .function (.tuple []) tyInt⟩ rfl rfl).2.1 rfl).trans rfl,
    ((emitReferenceToDecl_cases sampleX declN genWithN).2.1 ⟨0, 0, tyInt⟩ rfl rfl).2.2 rfl,
    (emitReferenceToDecl_cases sampleX declK genEmpty).2.2 rfl rfl⟩

/-- C14: when the injection function is lowered to `fnMV`, `emitArrayInjectionCall` emits one
call of it with the three arguments (base address, ownership token, length) in this order and
returns the call result wrapped by `managedRValueWithCleanup`; the base address passed is the
original one, with no conversion emitted, if it already has the raw-pointer type, and
otherwise the result of the one conversion to the raw-pointer type emitted first. -/
theorem emitArrayInjectionCall_call (X : Externals) (visit : Visitor)
    (ObjectPtr BasePtr Length : Value) (fnExpr : Expr) (gen g3 : SILGenFunction)
    (fnMV : ManagedValue)
    (hvisit : visit fnExpr (gen.emitAll (rawBaseConvert BasePtr)) = .ok (fnMV, g3)) :
    emitArrayInjectionCall X visit ObjectPtr BasePtr Length (some fnExpr) gen =
      .ok (managedRValueWithCleanup X
        ⟨g3.insts.length, 0, X.resultType
          (.apply fnMV.value [rawBasePtr BasePtr gen.insts.length, ObjectPtr, Length]) 0⟩
        (g3.emit (.apply fnMV.value [rawBasePtr BasePtr gen.insts.length, ObjectPtr, Length]))) ∧
    (BasePtr.ty.isRawPointer = true →
      rawBaseConvert BasePtr = [] ∧ rawBasePtr BasePtr gen.insts.length = BasePtr) ∧
    (BasePtr.ty.isRawPointer = false →
      rawBaseConvert BasePtr = [Inst.convert BasePtr .rawPointer] ∧
      rawBasePtr BasePtr gen.insts.length = ⟨gen.insts.length, 0, .rawPointer⟩) := by
  refine ⟨emitArrayInjectionCall_ok X visit ObjectPtr BasePtr Length fnExpr gen g3 fnMV hvisit,
    ?_, ?_⟩
  · intro h
    simp [rawBaseConvert, rawBasePtr, h]
  · intro h
    simp [rawBaseConvert, rawBasePtr, h]

/-- C14 at a base address of type `lvalue Int`: one conversion, the reference to the injection
function, and the call on (converted base, token, length). -/
theorem emitArrayInjectionCall_call_witness :
    emitArrayInjectionCall sampleX (visit sampleX 1) ⟨0, 0, .objectPointer⟩
        ⟨0, 1, .lvalue tyInt⟩ ⟨1, 0, tyInt⟩ (some sampleInjection) genWithVK =
      .ok (⟨⟨4, 0, tySlice⟩, some 1⟩,
        { genWithVK with
          insts := genWithVK.insts ++
            [Inst.convert ⟨0, 1, .lvalue tyInt⟩ .rawPointer,
              Inst.constantRef (.ofDecl (.mk 100 (.function (.tuple []) tySlice) false)),
              Inst.apply ⟨3, 0, .function (.tuple []) tySlice⟩
                [⟨2, 0, .rawPointer⟩, ⟨0, 0, .objectPointer⟩, ⟨1, 0, tyInt⟩]]
          Cleanups := [⟨.rvalue ⟨4, 0, tySlice⟩, .active⟩] }) :=
  (emitArrayInjectionCall_call sampleX (visit sampleX 1) ⟨0, 0, .objectPointer⟩
    ⟨0, 1, .lvalue tyInt⟩ ⟨1, 0, tyInt⟩ sampleInjection genWithVK
    (genWithVK.emitAll [Inst.convert ⟨0, 1, .lvalue tyInt⟩ .rawPointer,
      Inst.constantRef (.ofDecl (.mk 100 (.function (.tuple []) tySlice) false))])
    ⟨⟨3, 0, .function (.tuple []) tySlice⟩, none⟩ rfl).1.trans rfl

/-- C15: let the body be lowered to `mv`. `emitClosureBody` forwards `mv` and closes the scope
opened before the body, which restores the cleanup stack to its depth at entry. If the
builder has a valid insertion point, the return of the forwarded value is emitted with the
pending cleanups, and it is the last instruction; if it has none, the result is the state
right after the scope is closed: no return and no further instruction. -/
theorem emitClosureBody_return (X : Externals) (visit : Visitor) (body : Expr)
    (gen g1 : SILGenFunction) (mv : ManagedValue)
    (hbody : visit body gen = .ok (mv, g1)) :
    (g1.hasValidInsertionPoint = true →
      emitClosureBody X visit body gen =
        .ok (emitReturnAndCleanups X mv.value
          (endScope X gen.Cleanups.length (mv.forward g1).2)) ∧
      (emitReturnAndCleanups X mv.value
          (endScope X gen.Cleanups.length (mv.forward g1).2)).insts.getLast? =
        some (Inst.ret mv.value)) ∧
    (g1.hasValidInsertionPoint = false →
      emitClosureBody X visit body gen =
        .ok (endScope X gen.Cleanups.length (mv.forward g1).2)) ∧
    (endScope X gen.Cleanups.length (mv.forward g1).2).Cleanups =
      (mv.forward g1).2.Cleanups.take gen.Cleanups.length := by
  have hflag : (endScope X gen.Cleanups.length (mv.forward g1).2).hasValidInsertionPoint =
      g1.hasValidInsertionPoint := by
    simp only [endScope]
    rw [fireCleanups_flag, forward_flag]
  refine ⟨?_, ?_, rfl⟩
  · intro hv
    constructor
    · simp only [emitClosureBody, hbody, ok_bind, SILGenFunction.getCleanupsDepth, forward_fst,
        hflag, hv, if_true]
      rfl
    · simp [emitReturnAndCleanups, B.createReturn]
  · intro hv
    simp only [emitClosureBody, hbody, ok_bind, SILGenFunction.getCleanupsDepth, forward_fst,
      hflag, hv]
    rfl

/-- C15 at the body `load x`: with a valid insertion point the return of the loaded value is
emitted; in the same state without a valid insertion point nothing follows the body. -/
theorem emitClosureBody_return_witness :
    emitClosureBody sampleX (visit sampleX 2) loadX genWithX =
      .ok { genWithX with
        insts := [.allocBox tyRef, .load ⟨0, 1, .lvalue tyRef⟩, .retain ⟨1, 0, tyRef⟩,
          .ret ⟨1, 0, tyRef⟩] } ∧
    emitClosureBody sampleX (visit sampleX 2) loadX genTerminated =
      .ok { genTerminated with
        insts := [.allocBox tyRef, .load ⟨0, 1, .lvalue tyRef⟩, .retain ⟨1, 0, tyRef⟩] } :=
  ⟨((emitClosureBody_return sampleX (visit sampleX 2) loadX genWithX genLoadedX
      ⟨⟨1, 0, tyRef⟩, some 1⟩ rfl).1 rfl).1.trans rfl,
    ((emitClosureBody_return sampleX (visit sampleX 2) loadX genTerminated
      { genLoadedX with hasValidInsertionPoint := false }
      ⟨⟨1, 0, tyRef⟩, some 1⟩ rfl).2.1 rfl).trans rfl⟩

/-- C16: let the mapping entry `m` be aligned with the destination field `f`, where `m` is
`DEFAULT` (-1) and `f` has no default value, or `m` is `VARIADIC_START` (-2) and `f` is not
variadic. Then `emitTupleShuffle` produces no result: it ends in an abort. When the fields
before `f` are processed without abort (and none of them is variadic), the abort is the
failed assertion at `f`. -/
theorem emitTupleShuffle_aborts (X : Externals) (visit : Visitor) (E : Expr)
    (InOps : List Value) (inj : Option Expr) (gen : SILGenFunction)
    (pre : List TupleTypeElt) (f : TupleTypeElt) (rest : List TupleTypeElt)
    (mpre : List Int) (m : Int) (mrest : List Int)
    (hE : E.getType = .tuple (pre ++ f :: rest))
    (hlen : mpre.length = pre.length)
    (hbad : (m = -1 ∧ f.getInit = none) ∨ (m = -2 ∧ f.getVarargBaseTy = none)) :
    (∃ e, emitTupleShuffle X visit E InOps (mpre ++ m :: mrest) inj gen = .error e) ∧
    (∀ elems g1, (∀ x ∈ mpre, x ≠ -2) →
      emitTupleShuffleFields X visit InOps inj pre mpre [] gen = .ok (elems, g1) →
      emitTupleShuffle X visit E InOps (mpre ++ m :: mrest) inj gen =
        .error .assertionFailed) := by
  constructor
  · obtain ⟨e, he⟩ := emitTupleShuffleFields_bad_entry X visit InOps inj f rest m mrest hbad pre
      mpre [] gen hlen
    exact ⟨e, by simp [emitTupleShuffle, hE, he]⟩
  · intro elems g1 hne hpre
    have hloop := emitTupleShuffleFields_append X visit InOps inj pre mpre (f :: rest)
      (m :: mrest) [] gen hlen hne
    rw [hpre] at hloop
    simp only [ok_bind] at hloop
    have hstep : emitTupleShuffleFields X visit InOps inj (f :: rest) (m :: mrest) elems g1 =
        .error .assertionFailed := by
      rcases hbad with ⟨rfl, hinit⟩ | ⟨rfl, hva⟩
      · simp [emitTupleShuffleFields, hinit]
      · simp only [emitTupleShuffleFields, hva]
        rw [if_neg (by decide)]
        simp
    simp [emitTupleShuffle, hE, hloop, hstep]

/-- C16 at the shape `(B)`: the mapping `[-1]` and the mapping `[-2, 0]` both abort with a
failed assertion. -/
theorem emitTupleShuffle_aborts_witness :
    emitTupleShuffle sampleX (visit sampleX 1) (.unhandled (.tuple shapeNoDefault) 0)
        threeInts [-1] none genThreeInts = .error .assertionFailed ∧
    emitTupleShuffle sampleX (visit sampleX 1) (.unhandled (.tuple shapeNoDefault) 0)
        threeInts [-2, 0] (some sampleInjection) genThreeInts = .error .assertionFailed :=
  ⟨(emitTupleShuffle_aborts sampleX (visit sampleX 1) (.unhandled (.tuple shapeNoDefault) 0)
      threeInts none genThreeInts [] (.mk (.nominal 11) none none) [] [] (-1) [] rfl rfl
      (Or.inl ⟨rfl, rfl⟩)).2 [] genThreeInts (by simp) rfl,
    (emitTupleShuffle_aborts sampleX (visit sampleX 1) (.unhandled (.tuple shapeNoDefault) 0)
      threeInts (some sampleInjection) genThreeInts [] (.mk (.nominal 11) none none) [] []
      (-2) [0] rfl rfl (Or.inr ⟨rfl, rfl⟩)).2 [] genThreeInts (by simp) rfl⟩

/-- C17: let the argument, after one enclosing parenthesization is stripped, be a syntactic
tuple of the elements `elements`. When the callee is lowered and forwarded first and the
elements are then lowered and forwarded in source order to the values `ArgsV`,
`visitApplyExpr` emits the call of the callee on exactly `ArgsV` as its last instruction and
returns the call result wrapped by `managedRValueWithCleanup`; there is one operand per
element; and no tuple instruction is emitted other than those emitted while the callee and
the elements are lowered. -/
theorem visitApplyExpr_tuple_argument (X : Externals) (visit : Visitor) (fn arg : Expr)
    (ty : Ty) (elements : List Expr) (gen g1 g2 : SILGenFunction) (fnMV : ManagedValue)
    (ArgsV : List Value)
    (harg : stripParen arg = .tuple ty elements)
    (hfn : visit fn gen = .ok (fnMV, g1))
    (hargs : ForwardedInOrder visit elements (fnMV.forward g1).2 ArgsV g2) :
    visitApplyExpr X visit fn arg gen =
      .ok (managedRValueWithCleanup X
        ⟨g2.insts.length, 0, X.resultType (.apply fnMV.value ArgsV) 0⟩
        (g2.emit (.apply fnMV.value ArgsV))) ∧
    ArgsV.length = elements.length ∧
    (managedRValueWithCleanup X
        ⟨g2.insts.length, 0, X.resultType (.apply fnMV.value ArgsV) 0⟩
        (g2.emit (.apply fnMV.value ArgsV))).2.insts =
      g2.insts ++ [Inst.apply fnMV.value ArgsV] ∧
    ((∀ e s r, visit e s = .ok r →
        r.2.insts.countP Inst.isTuple = s.insts.countP Inst.isTuple) →
      (g2.insts ++ [Inst.apply fnMV.value ArgsV]).countP Inst.isTuple =
        gen.insts.countP Inst.isTuple) := by
  refine ⟨?_, inOrder_length visit hargs, ?_, ?_⟩
  · have hloop := visitAndForwardElements_of_inOrder visit hargs []
    simp only [List.nil_append] at hloop
    simp only [visitApplyExpr, hfn, ok_bind, harg, hloop, forward_fst, B.createApply,
      SILGenFunction.nextValue, pure, Except.pure]
  · rw [(managed_value_insts X _ _).2]
    rfl
  · intro hframe
    rw [List.countP_append, inOrder_countP_tuple visit hframe hargs, forward_insts,
      hframe _ _ _ hfn]
    simp [List.countP_cons, Inst.isTuple]

/-- C17 at the application of the sample function to `((1, 2))`: the callee, the two literals
and the call on the two literal values; no tuple instruction. -/
theorem visitApplyExpr_tuple_argument_witness :
    visit sampleX 2 sampleApply genEmpty =
      .ok (⟨⟨3, 0, tySlice⟩, some 1⟩,
        { genEmpty with
          insts := [.constantRef (.ofDecl (.mk 100 (.function (.tuple []) tySlice) false)),
            .integerLiteral tyInt 1, .integerLiteral tyInt 2,
            .apply ⟨0, 0, .function (.tuple []) tySlice⟩ [⟨1, 0, tyInt⟩, ⟨2, 0, tyInt⟩]]
          Cleanups := [⟨.rvalue ⟨3, 0, tySlice⟩, .active⟩] }) :=
  (visitApplyExpr_tuple_argument sampleX (visit sampleX 1) sampleInjection
    (.paren (.tuple [.mk tyInt none none, .mk tyInt none none])
      (.tuple (.tuple [.mk tyInt none none, .mk tyInt none none])
        [.integerLiteral tyInt 1, .integerLiteral tyInt 2]))
    (.tuple [.mk tyInt none none, .mk tyInt none none])
    [.integerLiteral tyInt 1, .integerLiteral tyInt 2] genEmpty
    (genEmpty.emit (.constantRef (.ofDecl (.mk 100 (.function (.tuple []) tySlice) false))))
    (genEmpty.emitAll [.constantRef (.ofDecl (.mk 100 (.function (.tuple []) tySlice) false)),
      .integerLiteral tyInt 1, .integerLiteral tyInt 2])
    ⟨⟨0, 0, .function (.tuple []) tySlice⟩, none⟩ [⟨1, 0, tyInt⟩, ⟨2, 0, tyInt⟩] rfl rfl
    (@ForwardedInOrder.cons _ _ _ _
      (genEmpty.emitAll
        [.constantRef (.ofDecl (.mk 100 (.function (.tuple []) tySlice) false)),
          .integerLiteral tyInt 1])
      _ ⟨⟨1, 0, tyInt⟩, none⟩ _ rfl
      (@ForwardedInOrder.cons _ _ _ _
        (genEmpty.emitAll
          [.constantRef (.ofDecl (.mk 100 (.function (.tuple []) tySlice) false)),
            .integerLiteral tyInt 1, .integerLiteral tyInt 2])
        _ ⟨⟨2, 0, tyInt⟩, none⟩ _ rfl (ForwardedInOrder.nil _)))).1.trans rfl

/-- C18, as stated, fails: the projection of field 1, of the trivial type `Int`, from the
constant `p` of type `(T, Int)` emits the extract and no retain, and the element is returned
with no cleanup. -/
theorem visitTupleElementExpr_trivial_field :
    visitTupleElementExpr sampleX (visit sampleX 1) tyInt (.declRef tyPair declPair) 1
        genEmpty =
      .ok (⟨⟨1, 0, tyInt⟩, none⟩,
        { genEmpty with
          insts := [.constantRef (.ofDecl declPair), .extract ⟨0, 0, tyPair⟩ 1 tyInt] }) ∧
    ([Inst.constantRef (.ofDecl declPair), Inst.extract ⟨0, 0, tyPair⟩ 1 tyInt]).countP
      Inst.isRetain = 0 := by
  refine ⟨rfl, by simp [Inst.isRetain]⟩

/-- C18 (amended): let the base be lowered to `mv` in state `g1`; it is borrowed, so its
cleanup stays as it is in `g1`. If the result type is an address type, one element-address
instruction on the base at the field number is emitted and returned with no cleanup, and
nothing else. Otherwise one extract of the field from the base value is emitted,
`emitRetainRValue` runs once on the extracted element, and the element is returned wrapped
by `managedRValueWithCleanup`: for an element of reference-counted type that is the extract,
exactly one retain on the element and one pushed release cleanup; for any other element it is
the extract alone, with no retain and no cleanup. -/
theorem visitTupleElementExpr_cases (X : Externals) (visit : Visitor) (ty : Ty) (base : Expr)
    (fieldNumber : Nat) (gen g1 : SILGenFunction) (mv : ManagedValue)
    (hbase : visit base gen = .ok (mv, g1)) :
    (ty.isLValue = true →
      visitTupleElementExpr X visit ty base fieldNumber gen =
        .ok (⟨⟨g1.insts.length, 0, ty⟩, none⟩,
          g1.emit (.elementAddr mv.value fieldNumber ty))) ∧
    (ty.isLValue = false →
      visitTupleElementExpr X visit ty base fieldNumber gen =
        .ok (managedRValueWithCleanup X ⟨g1.insts.length, 0, ty⟩
          (emitRetainRValue X ⟨g1.insts.length, 0, ty⟩
            (g1.emit (.extract mv.value fieldNumber ty)))) ∧
      (isReferenceCounted X ty = true →
        visitTupleElementExpr X visit ty base fieldNumber gen =
          .ok (⟨⟨g1.insts.length, 0, ty⟩, some (g1.Cleanups.length + 1)⟩,
            { g1 with
              insts := g1.insts ++ [Inst.extract mv.value fieldNumber ty,
                Inst.retain ⟨g1.insts.length, 0, ty⟩]
              Cleanups := g1.Cleanups ++ [⟨.rvalue ⟨g1.insts.length, 0, ty⟩, .active⟩] })) ∧
      (isReferenceCounted X ty = false →
        visitTupleElementExpr X visit ty base fieldNumber gen =
          .ok (⟨⟨g1.insts.length, 0, ty⟩, none⟩,
            g1.emit (.extract mv.value fieldNumber ty)))) := by
  constructor
  · intro hl
    simp [visitTupleElementExpr, hl, hbase, B.createElementAddr, SILGenFunction.nextValue,
      ManagedValue.getValue, pure, Except.pure]
  · intro hl
    have hres : visitTupleElementExpr X visit ty base fieldNumber gen =
        .ok (managedRValueWithCleanup X ⟨g1.insts.length, 0, ty⟩
          (emitRetainRValue X ⟨g1.insts.length, 0, ty⟩
            (g1.emit (.extract mv.value fieldNumber ty)))) := by
      simp [visitTupleElementExpr, hl, hbase, B.createExtract, SILGenFunction.nextValue,
        ManagedValue.getValue, pure, Except.pure]
    refine ⟨hres, fun href => ?_, fun href => ?_⟩
    · rw [hres, emitRetainRValue_counted X _ _ href, managed_counted X _ _ href]
      simp [SILGenFunction.emit]
    · rw [hres, emitRetainRValue_uncounted X _ _ href, managed_uncounted X _ _ href]

/-- C18 (amended) at field 0 of the global variable `q` (address result), and at field 0
(class type: extract and retain) and field 1 (`Int`: extract only) of the global constant
`p`, all of type `(T, Int)`. -/
theorem visitTupleElementExpr_cases_witness :
    visitTupleElementExpr sampleX (visit sampleX 1) (.lvalue tyRef)
        (.declRef (.lvalue tyPair) declPairVar) 0 genEmpty =
      .ok (⟨⟨2, 0, .lvalue tyRef⟩, none⟩,
        { genEmpty with
          insts := [.constantRef (.ofDecl declPairVar), .apply ⟨0, 0, .lvalue tyPair⟩ [],
            .elementAddr ⟨1, 0, .lvalue tyPair⟩ 0 (.lvalue tyRef)] }) ∧
    visitTupleElementExpr sampleX (visit sampleX 1) tyRef (.declRef tyPair declPair) 0
        genEmpty =
      .ok (⟨⟨1, 0, tyRef⟩, some 1⟩,
        { genEmpty with
          insts := [.constantRef (.ofDecl declPair), .extract ⟨0, 0, tyPair⟩ 0 tyRef,
            .retain ⟨1, 0, tyRef⟩]
          Cleanups := [⟨.rvalue ⟨1, 0, tyRef⟩, .active⟩] }) ∧
    visitTupleElementExpr sampleX (visit sampleX 1) tyInt (.declRef tyPair declPair) 1
        genEmpty =
      .ok (⟨⟨1, 0, tyInt⟩, none⟩,
        { genEmpty with
          insts := [.constantRef (.ofDecl declPair), .extract ⟨0, 0, tyPair⟩ 1 tyInt] }) :=
  ⟨((visitTupleElementExpr_cases sampleX (visit sampleX 1) (.lvalue tyRef)
      (.declRef (.lvalue tyPair) declPairVar) 0 genEmpty
      (genEmpty.emitAll [.constantRef (.ofDecl declPairVar), .apply ⟨0, 0, .lvalue tyPair⟩ []])
      ⟨⟨1, 0, .lvalue tyPair⟩, none⟩ rfl).1 rfl).trans rfl,
    (((visitTupleElementExpr_cases sampleX (visit sampleX 1) tyRef (.declRef tyPair declPair) 0
      genEmpty (genEmpty.emit (.constantRef (.ofDecl declPair)))
      ⟨⟨0, 0, tyPair⟩, none⟩ rfl).2 rfl).2.1 rfl).trans rfl,
    (((visitTupleElementExpr_cases sampleX (visit sampleX 1) tyInt (.declRef tyPair declPair) 1
      genEmpty (genEmpty.emit (.constantRef (.ofDecl declPair)))
      ⟨⟨0, 0, tyPair⟩, none⟩ rfl).2 rfl).2.2 rfl).trans rfl⟩

/-- C19: under the validity precondition on the mapping (without `VARIADIC_START` it has at
least as many entries as the destination has fields; every entry before `VARIADIC_START` is
-1, -2 or an index below the number of source values; every entry after it is a non-negative
index below that number), and for every dispatcher, `emitTupleShuffle` itself neither reads
the mapping past its end nor indexes the source values out of range: when its result is a
failure of that kind, the loop ran without failure up to the lowering of a default value or
of the injection function, and that lowering returned the failure (`LoweringFails`). Hence,
when those lowerings return no such failure, the result is none. -/
theorem emitTupleShuffle_in_bounds (X : Externals) (visit : Visitor) (E : Expr)
    (fields : List TupleTypeElt) (InOps : List Value) (mapping : List Int)
    (inj : Option Expr) (gen : SILGenFunction)
    (hE : E.getType = .tuple fields)
    (hlen : (-2 : Int) ∉ mapping → fields.length ≤ mapping.length)
    (hbefore : ∀ m ∈ mapping.takeWhile (fun m => m != -2),
      m = -1 ∨ m = -2 ∨ (0 ≤ m ∧ m < InOps.length))
    (hafter : ∀ m ∈ (mapping.dropWhile (fun m => m != -2)).tail,
      0 ≤ m ∧ m < InOps.length) :
    (∀ e, emitTupleShuffle X visit E InOps mapping inj gen = .error e →
      (e = .readPastEnd ∨ e = .indexOutOfRange) →
      LoweringFails X visit InOps inj fields mapping gen e) ∧
    ((∀ d s, ((∃ f ∈ fields, f.getInit = some d) ∨ inj = some d) →
        visit d s ≠ .error .readPastEnd ∧ visit d s ≠ .error .indexOutOfRange) →
      emitTupleShuffle X visit E InOps mapping inj gen ≠ .error .readPastEnd ∧
      emitTupleShuffle X visit E InOps mapping inj gen ≠ .error .indexOutOfRange) := by
  have hres : ∀ e, emitTupleShuffle X visit E InOps mapping inj gen = .error e →
      (e = .readPastEnd ∨ e = .indexOutOfRange) →
      LoweringFails X visit InOps inj fields mapping gen e := by
    intro e he hb
    simp only [emitTupleShuffle, hE] at he
    cases hloop : emitTupleShuffleFields X visit InOps inj fields mapping [] gen with
    | ok r =>
      rw [hloop] at he
      cases he
    | error e' =>
      rw [hloop] at he
      cases he
      exact emitTupleShuffleFields_failure X visit InOps inj fields mapping [] gen _ hlen
        hbefore hafter hloop hb
  refine ⟨hres, fun hvisit => ⟨fun he => ?_, fun he => ?_⟩⟩
  · obtain ⟨d, s, hd, hv⟩ := loweringFails_visit X visit InOps inj (hres _ he (Or.inl rfl))
    exact (hvisit d s hd).1 hv
  · obtain ⟨d, s, hd, hv⟩ := loweringFails_visit X visit InOps inj (hres _ he (Or.inr rfl))
    exact (hvisit d s hd).2 hv

/-- C19 at the shape `(A default=d, B, C...)`, three source values and the mapping
`[-1, 0, -2, 1, 2]`, lowered by the dispatcher `visit`. -/
theorem emitTupleShuffle_in_bounds_witness :
    emitTupleShuffle sampleX (visit sampleX 1) sampleDestination threeInts [-1, 0, -2, 1, 2]
        (some sampleInjection) genThreeInts ≠ .error .readPastEnd ∧
    emitTupleShuffle sampleX (visit sampleX 1) sampleDestination threeInts [-1, 0, -2, 1, 2]
        (some sampleInjection) genThreeInts ≠ .error .indexOutOfRange :=
  (emitTupleShuffle_in_bounds sampleX (visit sampleX 1) sampleDestination
    shapeDefaultScalarVariadic threeInts [-1, 0, -2, 1, 2] (some sampleInjection) genThreeInts
    rfl (by decide) (by decide) (by decide)).2
    (fun d s hd => by
      rcases sample_visited_cases d hd with rfl | rfl
      · exact ⟨fun h => (by cases h), fun h => (by cases h)⟩
      · obtain ⟨r, hr, _⟩ := visit_sampleInjection_frame s
        rw [hr]
        exact ⟨fun h => (by cases h), fun h => (by cases h)⟩)

/-- C20: let the destination shape be `pre ++ [last]` with `last` its only variadic field and
let the scalar field be `last`. The mapping synthesized by `visitScalarToTupleExpr` is `-1`
for each field of `pre` followed by `[VARIADIC_START, 0]`, one entry more than the shape has
fields. When the sub-expression, the defaults of `pre` and the injection function are
lowered, the promotion succeeds: an array of length 1 is allocated, the scalar value is
stored at its unindexed base address, and the last field of the result tuple is the result of
the injection call on that array with length 1. -/
theorem visitScalarToTupleExpr_scalar_is_variadic (X : Externals) (visit : Visitor)
    (E sub injE : Expr) (pre : List TupleTypeElt) (last : TupleTypeElt) (baseTy : Ty)
    (gen g0 gen1 gen3 : SILGenFunction) (subMV fnMV : ManagedValue) (elems : List Value)
    (hE : E.getType = .tuple (pre ++ [last]))
    (hpre : ∀ f ∈ pre, f.isVararg = false)
    (hlast : last.getVarargBaseTy = some baseTy)
    (hsub : visit sub gen = .ok (subMV, g0))
    (hfields : emitTupleShuffleFields X visit [subMV.value] (some injE) pre
      (List.replicate pre.length (-1)) [] g0 = .ok (elems, gen1))
    (hinj : visit injE
      (gen1.emitAll (variadicPackInsts X baseTy gen1.insts.length [subMV.value])) =
        .ok (fnMV, gen3)) :
    ∃ (mv : ManagedValue) (gen' : SILGenFunction),
      buildShuffleMask pre.length (pre ++ [last]) 0 [] =
        List.replicate pre.length (-1) ++ [-2, 0] ∧
      (buildShuffleMask pre.length (pre ++ [last]) 0 []).length = (pre ++ [last]).length + 1 ∧
      visitScalarToTupleExpr X visit E sub pre.length (some injE) gen = .ok (mv, gen') ∧
      variadicPackInsts X baseTy gen1.insts.length [subMV.value] =
        [Inst.integerValue 1 (.builtinInteger 64),
          Inst.allocArray baseTy (packLength gen1.insts.length),
          Inst.store subMV.value (packBase X baseTy gen1.insts.length)] ++
          rawBaseConvert (packBase X baseTy gen1.insts.length) ∧
      gen'.insts = gen3.insts ++
        [injectionApply X baseTy gen1.insts.length 1 fnMV.value,
          Inst.tuple E.getType (elems ++ [⟨gen3.insts.length, 0,
            X.resultType (injectionApply X baseTy gen1.insts.length 1 fnMV.value) 0⟩])] ∧
      mv.value = ⟨gen3.insts.length + 1, 0, E.getType⟩ := by
  have hmask : buildShuffleMask pre.length (pre ++ [last]) 0 [] =
      List.replicate pre.length (-1) ++ [-2, 0] := by
    rw [buildShuffleMask_defaults pre.length pre 0 [last] hpre (by omega)]
    simp [buildShuffleMask, TupleTypeElt.isVararg, hlast]
  have hno : ∀ m ∈ List.replicate pre.length (-1 : Int), m ≠ -2 := by
    intro m hm
    rw [List.eq_of_mem_replicate hm]
    decide
  have hloop := emitTupleShuffleFields_append X visit [subMV.value] (some injE) pre
    (List.replicate pre.length (-1)) [last] [-2, 0] [] g0 (by simp) hno
  rw [hfields] at hloop
  simp only [ok_bind] at hloop
  rw [emitTupleShuffleFields_vararg X visit injE [subMV.value] gen1 gen3 last [] baseTy [0]
    elems [subMV.value] fnMV hlast (.cons ⟨by decide, rfl⟩ .nil) hinj] at hloop
  simp only [List.length_singleton] at hloop
  have hmv := managed_value_insts X ⟨gen3.insts.length + 1, 0, E.getType⟩
    ((wrapAndForward X ⟨gen3.insts.length, 0,
        X.resultType (injectionApply X baseTy gen1.insts.length 1 fnMV.value) 0⟩
      (gen3.emit (injectionApply X baseTy gen1.insts.length 1 fnMV.value))).emit
      (Inst.tuple E.getType (elems ++ [⟨gen3.insts.length, 0,
        X.resultType (injectionApply X baseTy gen1.insts.length 1 fnMV.value) 0⟩])))
  rcases hm : managedRValueWithCleanup X ⟨gen3.insts.length + 1, 0, E.getType⟩
    ((wrapAndForward X ⟨gen3.insts.length, 0,
        X.resultType (injectionApply X baseTy gen1.insts.length 1 fnMV.value) 0⟩
      (gen3.emit (injectionApply X baseTy gen1.insts.length 1 fnMV.value))).emit
      (Inst.tuple E.getType (elems ++ [⟨gen3.insts.length, 0,
        X.resultType (injectionApply X baseTy gen1.insts.length 1 fnMV.value) 0⟩])))
    with ⟨mv, gen'⟩
  rw [hm] at hmv
  refine ⟨mv, gen', hmask, by simp [hmask], ?_, ?_, ?_, hmv.1⟩
  · simp only [visitScalarToTupleExpr, hsub, ok_bind, hE, hmask, emitTupleShuffle,
      ManagedValue.getValue, hloop, B.createTuple, SILGenFunction.nextValue,
      wrapAndForward_insts, emit_insts, List.length_append, List.length_singleton,
      pure, Except.pure]
    rw [← hE, hm]
  · simp [variadicPackInsts, slotStores]
  · rw [hmv.2]
    simp

/-- C20 at the promotion of the literal 5 to the shape `(A default=7, C...)` at field 1: the
mapping is `[-1, -2, 0]` and the literal is stored into an array of length 1. -/
theorem visitScalarToTupleExpr_scalar_is_variadic_witness :
    ∃ (mv : ManagedValue) (gen' : SILGenFunction),
      visit sampleX 2 promoteToVariadic genEmpty = .ok (mv, gen') ∧
      buildShuffleMask 1 [.mk (.nominal 10) (some sampleDefault) none,
        .mk tySlice none (some tyInt)] 0 [] = [-1, -2, 0] ∧
      gen'.insts =
        [.integerLiteral tyInt 5, .integerLiteral tyInt 7,
          .integerValue 1 (.builtinInteger 64), .allocArray tyInt ⟨2, 0, .builtinInteger 64⟩,
          .store ⟨0, 0, tyInt⟩ ⟨3, 1, .lvalue tyInt⟩,
          .convert ⟨3, 1, .lvalue tyInt⟩ .rawPointer,
          .constantRef (.ofDecl (.mk 100 (.function (.tuple []) tySlice) false)),
          .apply ⟨6, 0, .function (.tuple []) tySlice⟩
            [⟨5, 0, .rawPointer⟩, ⟨3, 0, .objectPointer⟩, ⟨2, 0, .builtinInteger 64⟩],
          .tuple (.tuple [.mk (.nominal 10) (some sampleDefault) none,
              .mk tySlice none (some tyInt)])
            [⟨1, 0, tyInt⟩, ⟨7, 0, tySlice⟩]] ∧
      mv.value = ⟨8, 0, .tuple [.mk (.nominal 10) (some sampleDefault) none,
        .mk tySlice none (some tyInt)]⟩ := by
  obtain ⟨mv, gen', h1, _, h3, _, h5, h6⟩ :=
    visitScalarToTupleExpr_scalar_is_variadic sampleX (visit sampleX 1) promoteToVariadic
      (.integerLiteral tyInt 5) sampleInjection [.mk (.nominal 10) (some sampleDefault) none]
      (.mk tySlice none (some tyInt)) tyInt genEmpty
      (genEmpty.emit (.integerLiteral tyInt 5))
      (genEmpty.emitAll [.integerLiteral tyInt 5, .integerLiteral tyInt 7])
      (genEmpty.emitAll [.integerLiteral tyInt 5, .integerLiteral tyInt 7,
          .integerValue 1 (.builtinInteger 64), .allocArray tyInt ⟨2, 0, .builtinInteger 64⟩,
          .store ⟨0, 0, tyInt⟩ ⟨3, 1, .lvalue tyInt⟩,
          .convert ⟨3, 1, .lvalue tyInt⟩ .rawPointer,
          .constantRef (.ofDecl (.mk 100 (.function (.tuple []) tySlice) false))])
      ⟨⟨0, 0, tyInt⟩, none⟩ ⟨⟨6, 0, .function (.tuple []) tySlice⟩, none⟩ [⟨1, 0, tyInt⟩]
      rfl (by decide) rfl rfl rfl rfl
  exact ⟨mv, gen', h3, h1, h5.trans rfl, h6⟩

/-- C21: let the argument, after one enclosing parenthesization is stripped, be a
scalar-to-tuple promotion with the scalar sub-expression `sub`. When the callee is lowered
and forwarded first and `sub` is then lowered to `subMV`, `visitApplyExpr` emits the call of
the callee on the single operand `subMV.value`, forwarded, as its last instruction and returns
the call result wrapped by `managedRValueWithCleanup`. The result is the same for every
destination shape, scalar field and injection function of the promotion: only the callee and
`sub` are lowered, so no default value is lowered, and no array is allocated other than
those allocated while the callee and `sub` are lowered. -/
theorem visitApplyExpr_scalar_promotion (X : Externals) (visit : Visitor) (fn arg : Expr)
    (ty : Ty) (sub : Expr) (scalarField : Nat) (inj : Option Expr)
    (gen g1 g2 : SILGenFunction) (fnMV subMV : ManagedValue)
    (harg : stripParen arg = .scalarToTuple ty sub scalarField inj)
    (hfn : visit fn gen = .ok (fnMV, g1))
    (hsub : visit sub (fnMV.forward g1).2 = .ok (subMV, g2)) :
    visitApplyExpr X visit fn arg gen =
      .ok (managedRValueWithCleanup X
        ⟨g2.insts.length, 0, X.resultType (.apply fnMV.value [subMV.value]) 0⟩
        ((subMV.forward g2).2.emit (.apply fnMV.value [subMV.value]))) ∧
    (managedRValueWithCleanup X
        ⟨g2.insts.length, 0, X.resultType (.apply fnMV.value [subMV.value]) 0⟩
        ((subMV.forward g2).2.emit (.apply fnMV.value [subMV.value]))).2.insts =
      g2.insts ++ [Inst.apply fnMV.value [subMV.value]] ∧
    (∀ (arg' : Expr) (ty' : Ty) (scalarField' : Nat) (inj' : Option Expr),
      stripParen arg' = .scalarToTuple ty' sub scalarField' inj' →
      visitApplyExpr X visit fn arg' gen = visitApplyExpr X visit fn arg gen) ∧
    ((∀ e s r, visit e s = .ok r →
        r.2.insts.countP Inst.isAllocArray = s.insts.countP Inst.isAllocArray) →
      (g2.insts ++ [Inst.apply fnMV.value [subMV.value]]).countP Inst.isAllocArray =
        gen.insts.countP Inst.isAllocArray) := by
  refine ⟨visitApplyExpr_scalarToTuple_ok X visit fn arg ty sub scalarField inj gen g1 g2 fnMV
    subMV harg hfn hsub, ?_, ?_, ?_⟩
  · rw [(managed_value_insts X _ _).2]
    simp
  · intro arg' ty' scalarField' inj' harg'
    rw [visitApplyExpr_scalarToTuple_ok X visit fn arg ty sub scalarField inj gen g1 g2 fnMV
        subMV harg hfn hsub,
      visitApplyExpr_scalarToTuple_ok X visit fn arg' ty' sub scalarField' inj' gen g1 g2 fnMV
        subMV harg' hfn hsub]
  · intro hframe
    rw [List.countP_append, hframe _ _ _ hsub, forward_insts, hframe _ _ _ hfn]
    simp [List.countP_cons, Inst.isAllocArray]

/-- C21 at the application of the sample function to the promotion of the literal 5 to the
three-field shape `(A default=d, B, C...)`: the callee, the literal 5 and the call on that
one value; the default `d` is not lowered and no array is allocated. -/
theorem visitApplyExpr_scalar_promotion_witness :
    visit sampleX 2 sampleApplyPromotion genEmpty =
      .ok (⟨⟨2, 0, tySlice⟩, some 1⟩,
        { genEmpty with
          insts := [.constantRef (.ofDecl (.mk 100 (.function (.tuple []) tySlice) false)),
            .integerLiteral tyInt 5,
            .apply ⟨0, 0, .function (.tuple []) tySlice⟩ [⟨1, 0, tyInt⟩]]
          Cleanups := [⟨.rvalue ⟨2, 0, tySlice⟩, .active⟩] }) :=
  (visitApplyExpr_scalar_promotion sampleX (visit sampleX 1) sampleInjection
    (.paren (.tuple shapeDefaultScalarVariadic) samplePromotion)
    (.tuple shapeDefaultScalarVariadic) (.integerLiteral tyInt 5) 1 (some sampleInjection)
    genEmpty
    (genEmpty.emit (.constantRef (.ofDecl (.mk 100 (.function (.tuple []) tySlice) false))))
    (genEmpty.emitAll [.constantRef (.ofDecl (.mk 100 (.function (.tuple []) tySlice) false)),
      .integerLiteral tyInt 5])
    ⟨⟨0, 0, .function (.tuple []) tySlice⟩, none⟩ ⟨⟨1, 0, tyInt⟩, none⟩ rfl rfl rfl).1.trans rfl

end SILGen
